import Mathlib

/-!
# AniVerse: request queue and list/favorites store

A shallow embedding of two parts of the client:

* `src/services/jikanApi.js`: the rate-limited request queue
  (`requestQueue`, `isProcessing`, `processQueue`, `makeRequest`), as a timed
  transition system over an explicit state;
* `src/context/AppContext.jsx`: the reducer `appReducer`, the lookups built
  on the state and the two effects that persist it;
* `src/components/StatusUpdateModal.jsx` and `src/components/MyListItemCard.jsx`:
  the functions `handleSave` and `handleProgressChange`, which decide the
  status and progress that are stored.
-/

namespace AniVerse

/-! ## Part 1: the request queue (`src/services/jikanApi.js`) -/

/-- The constant `RATE_LIMIT_DELAY` of `jikanApi.js`, in milliseconds. -/
def RATE_LIMIT_DELAY : Nat := 1100

/-- How a call `api(config)` ends: the awaited promise is fulfilled with a
response or rejected with an error. Responses and errors are opaque to the
queue and coded by natural numbers. -/
inductive Outcome where
  | response (r : Nat)
  | error (e : Nat)
  deriving DecidableEq, Repr

/-- One element of `requestQueue`: the object `{ config, resolve, reject }`
pushed by `makeRequest`. The pair `resolve`/`reject` belongs to the promise
created by that call of `makeRequest`; `promise` identifies it. -/
structure QueuedRequest where
  config : Nat
  promise : Nat
  deriving DecidableEq, Repr

/-- The module state of `jikanApi.js` together with its environment.

* `requestQueue`, `isProcessing`: the two module variables;
* `now`: the clock, in milliseconds;
* `inflight`: the calls `api(config)` that were issued and have not completed;
* `timers`: the due times of the pending `setTimeout` callbacks;
* `enqueued`, `dispatched`, `settled`: observation logs (every request pushed,
  every call issued with its start time, every `resolve`/`reject` invoked). -/
structure QState where
  requestQueue : List QueuedRequest
  isProcessing : Bool
  now : Nat
  inflight : List QueuedRequest
  timers : List Nat
  enqueued : List QueuedRequest
  dispatched : List (QueuedRequest × Nat)
  settled : List (Nat × Outcome)
  deriving DecidableEq, Repr

/-- The state when the module is loaded: `requestQueue = []`,
`isProcessing = false`, nothing issued, no timer. -/
def QState.init : QState :=
  { requestQueue := [], isProcessing := false, now := 0, inflight := [],
    timers := [], enqueued := [], dispatched := [], settled := [] }

/-- The synchronous part of `processQueue` (up to the `await`): return when
the queue is empty or `isProcessing` is set; otherwise set `isProcessing`,
`shift()` the head and issue `api(config)`. -/
def processQueue (s : QState) : QState :=
  if s.requestQueue.length = 0 ∨ s.isProcessing = true then s
  else
    match s.requestQueue with
    | [] => s
    | r :: rest =>
      { s with
        isProcessing := true
        requestQueue := rest
        inflight := s.inflight ++ [r]
        dispatched := s.dispatched ++ [(r, s.now)] }

/-- The function `makeRequest`: create a promise, push
`{ config, resolve, reject }`, call `processQueue()`. -/
def makeRequest (s : QState) (config : Nat) : QState :=
  let r : QueuedRequest := { config := config, promise := s.enqueued.length }
  processQueue { s with requestQueue := s.requestQueue ++ [r], enqueued := s.enqueued ++ [r] }

/-- The continuation of `processQueue` after `await api(config)` for the
`i`-th call in flight: `resolve(response)` or `reject(error)`, then the
`finally` block, which arms `setTimeout(..., RATE_LIMIT_DELAY)`. -/
def complete (s : QState) (i : Nat) (o : Outcome) : Option QState :=
  match s.inflight[i]? with
  | none => none
  | some r =>
    some { s with
      inflight := s.inflight.eraseIdx i
      settled := s.settled ++ [(r.promise, o)]
      timers := s.timers ++ [s.now + RATE_LIMIT_DELAY] }

/-- The callback given to `setTimeout`, run for the `j`-th pending timer once
it is due: `isProcessing = false; processQueue()`. -/
def timerFire (s : QState) (j : Nat) : Option QState :=
  match s.timers[j]? with
  | none => none
  | some due =>
    if due ≤ s.now then
      some (processQueue { s with timers := s.timers.eraseIdx j, isProcessing := false })
    else none

/-- The events of the timed model. -/
inductive QEvent where
  | enqueue (config : Nat)
  | complete (i : Nat) (o : Outcome)
  | timer (j : Nat)
  | advance (dt : Nat)
  deriving DecidableEq, Repr

/-- One event; `none` when the event cannot happen in `s` (no such call in
flight, no such timer, or the timer is not due yet). -/
def qstep (s : QState) : QEvent → Option QState
  | .enqueue config => some (makeRequest s config)
  | .complete i o => complete s i o
  | .timer j => timerFire s j
  | .advance dt => some { s with now := s.now + dt }

/-- A run: the events of a list, one after the other. -/
def qrun (s : QState) : List QEvent → Option QState
  | [] => some s
  | e :: es => (qstep s e).bind fun s' => qrun s' es

/-- The states the queue can be in: those reached from `QState.init`. -/
def QReachable (s : QState) : Prop := ∃ es, qrun QState.init es = some s

/-- Start times of the calls issued so far, oldest first. -/
def QState.starts (s : QState) : List Nat := s.dispatched.map Prod.snd

/-- The state of the queue and of its environment without the record of the
settled promises: remaining FIFO, flag, pending timers, calls in flight, clock
and the logs of what was enqueued and dispatched. -/
def QState.core (s : QState) : QState := { s with settled := [] }

/-- The configs passed to `makeRequest` in a run, in call order. -/
def enqueuedConfigs : List QEvent → List Nat
  | [] => []
  | .enqueue config :: es => config :: enqueuedConfigs es
  | _ :: es => enqueuedConfigs es

/-- The invariant of the queue, apart from the clause on a waiting request:

* `fifo`: what was enqueued is what was dispatched followed by what waits;
* `ids`: the `k`-th call of `makeRequest` created promise `k`;
* `calls`: every call issued has settled its promise or is in flight;
* `issued`: a call in flight is the call of a dispatched request;
* `lane`: when `isProcessing` is set there is exactly one call in flight or
  one pending timer, otherwise there is neither;
* `past`, `spaced`, `cool`: the timing of the dispatches. -/
structure QPre (s : QState) : Prop where
  fifo : s.enqueued = s.dispatched.map Prod.fst ++ s.requestQueue
  ids : s.enqueued.map QueuedRequest.promise = List.range s.enqueued.length
  calls : s.dispatched.map (fun d => d.1.promise)
    = s.settled.map Prod.fst ++ s.inflight.map QueuedRequest.promise
  issued : ∀ c ∈ s.inflight, c ∈ s.dispatched.map Prod.fst
  lane : s.inflight.length + s.timers.length = if s.isProcessing = true then 1 else 0
  past : ∀ t ∈ s.starts, t ≤ s.now
  spaced : s.starts.Pairwise (fun a b => a + RATE_LIMIT_DELAY ≤ b)
  cool : ∀ t ∈ s.starts, (∀ due ∈ s.timers, t + RATE_LIMIT_DELAY ≤ due) ∧
    (s.isProcessing = false → t + RATE_LIMIT_DELAY ≤ s.now)

/-- The invariant of the queue between events: `QPre`, and a request waits
only while `isProcessing` is set. -/
def QInv (s : QState) : Prop :=
  QPre s ∧ (s.isProcessing = false → s.requestQueue = [])

/-- What holds of the queue after a call has completed at time `c`, `base`
being the dispatch log at that time: the clock has not gone back, every pending
timer is due at `c + RATE_LIMIT_DELAY` or later, `isProcessing` is cleared only
from that time on, and every dispatch after `base` began at that time or
later. -/
def QAfter (c : Nat) (base : List (QueuedRequest × Nat)) (s : QState) : Prop :=
  c ≤ s.now ∧ (∀ due ∈ s.timers, c + RATE_LIMIT_DELAY ≤ due) ∧
  (s.isProcessing = false → c + RATE_LIMIT_DELAY ≤ s.now) ∧
  ∃ later, s.dispatched = base ++ later ∧ ∀ d ∈ later, c + RATE_LIMIT_DELAY ≤ d.2

/-! ## Part 2: the store (`src/context/AppContext.jsx`) -/

/-- The JavaScript values that occur as properties of list items and of
tracking data. -/
inductive JVal where
  | undefined
  | null
  | bool (b : Bool)
  | num (n : Int)
  | str (s : String)
  deriving DecidableEq, Repr

/-- Own properties of an object in insertion order. -/
abbrev Props := List (String × JVal)

/-- Property names of a property list. -/
def Props.keys (l : Props) : List String := l.map Prod.fst

/-- Reading an own property: the value, or `none` when there is no such
property. -/
def Props.lookup : Props → String → Option JVal
  | [], _ => none
  | (k', v') :: rest, k => if k' = k then some v' else Props.lookup rest k

/-- Assignment `o[k] = v`: an existing property keeps its place and takes the
new value, a new property is added at the end. -/
def Props.assign : Props → String → JVal → Props
  | [], k, v => [(k, v)]
  | (k', v') :: rest, k, v =>
    if k' = k then (k, v) :: rest else (k', v') :: Props.assign rest k v

/-- A plain JavaScript object: own properties, no name twice. -/
abbrev JObj := { l : Props // l.keys.Nodup }

/-- The object `{}`. -/
def JObj.empty : JObj := ⟨[], List.nodup_nil⟩

/-- Own property lookup on an object. -/
def JObj.lookup (o : JObj) (k : String) : Option JVal := Props.lookup o.1 k

/-- Property read `o.k`: `undefined` when `o` has no property `k`. -/
def JObj.get (o : JObj) (k : String) : JVal := (o.lookup k).getD JVal.undefined

/-- The object `o` after `o[k] = v`. -/
def JObj.set (o : JObj) (k : String) (v : JVal) : JObj :=
  ⟨Props.assign o.1 k v, by
    have key : ∀ l : Props, l.keys.Nodup →
        (Props.assign l k v).keys.Nodup ∧ ∀ x, x ∈ (Props.assign l k v).keys → x ∈ l.keys ∨ x = k := by
      intro l
      induction l with
      | nil => intro _; simp [Props.assign, Props.keys]
      | cons a rest ih =>
        intro h
        obtain ⟨k', v'⟩ := a
        simp only [Props.keys, List.map_cons, List.nodup_cons] at h
        by_cases hk : k' = k
        · subst hk
          simp only [Props.assign, if_true, Props.keys, List.map_cons, List.nodup_cons]
          exact ⟨⟨h.1, h.2⟩, fun x hx => Or.inl hx⟩
        · have ih' := ih h.2
          simp only [Props.assign, hk, if_false, Props.keys, List.map_cons, List.nodup_cons,
            List.mem_cons]
          refine ⟨⟨fun hmem => ?_, ih'.1⟩, fun x hx => ?_⟩
          · rcases ih'.2 k' hmem with h1 | h1
            · exact h.1 h1
            · exact hk h1
          · rcases hx with hx | hx
            · exact Or.inl (Or.inl hx)
            · rcases ih'.2 x hx with h1 | h1
              · exact Or.inl (Or.inr h1)
              · exact Or.inr h1
    exact (key o.1 o.2).1⟩

/-- Object spread `{ ...target, ...src }` onto an object under construction:
the properties of `src` are assigned in order. -/
def JObj.spread (target src : JObj) : JObj :=
  src.1.foldl (fun acc kv => acc.set kv.1 kv.2) target

/-- Spreading a value that may be `undefined`: `{ ...target, ...undefined }`
adds nothing. -/
def JObj.spreadOpt (target : JObj) (src : Option JObj) : JObj :=
  match src with
  | none => target
  | some o => target.spread o

/-- The object literal with the given properties, written in order. -/
def JObj.ofList (l : Props) : JObj :=
  l.foldl (fun acc kv => acc.set kv.1 kv.2) JObj.empty

/-- An entry of `myList[type]` or `favorites[type]`: its `mal_id`, its other
properties as delivered by the API (`title`, `episodes`, ...), and the property
`trackingData` (`none`: absent or `undefined`). -/
structure Item where
  mal_id : Int
  fields : JObj
  trackingData : Option JObj
  deriving DecidableEq

/-- The three keys of `myList` and of `favorites`. -/
inductive Category where
  | anime
  | manga
  | characters
  deriving DecidableEq, Repr

/-- An object with the keys `anime`, `manga` and `characters`. -/
structure ByCategory (α : Type) where
  anime : α
  manga : α
  characters : α
  deriving DecidableEq

/-- Property read `m[type]`. -/
def ByCategory.get {α : Type} (m : ByCategory α) : Category → α
  | .anime => m.anime
  | .manga => m.manga
  | .characters => m.characters

/-- The object `{ ...m, [type]: v }`. -/
def ByCategory.set {α : Type} (m : ByCategory α) (type : Category) (v : α) : ByCategory α :=
  match type with
  | .anime => { m with anime := v }
  | .manga => { m with manga := v }
  | .characters => { m with characters := v }

/-- The object `statusModal`. -/
structure StatusModal where
  isOpen : Bool
  item : Option Item
  type : Option Category
  deriving DecidableEq

/-- The state of `appReducer`. -/
structure AppState where
  myList : ByCategory (List Item)
  favorites : ByCategory (List Item)
  searchHistory : List String
  darkMode : Bool
  loading : Bool
  error : Option String
  statusModal : StatusModal
  deriving DecidableEq

/-- The constant `initialState`. -/
def initialState : AppState :=
  { myList := { anime := [], manga := [], characters := [] }
    favorites := { anime := [], manga := [], characters := [] }
    searchHistory := []
    darkMode := false
    loading := false
    error := none
    statusModal := { isOpen := false, item := none, type := none } }

/-- The actions of `appReducer`, each with its payload. In `UPSERT_LIST_ITEM`
the payload's `trackingData` may be `undefined` (`none`); in
`UPDATE_ITEM_STATUS` an omitted `status` or `progress` is `undefined`. -/
inductive Action where
  | SET_LOADING (payload : Bool)
  | SET_ERROR (payload : Option String)
  | CLEAR_ERROR
  | UPSERT_LIST_ITEM (type : Category) (item : Item) (trackingData : Option JObj)
  | ADD_TO_LIST (type : Category) (item : Item)
  | REMOVE_FROM_LIST (type : Category) (id : Int)
  | UPDATE_ITEM_STATUS (type : Category) (id : Int) (status progress : JVal)
  | ADD_TO_FAVORITES (type : Category) (item : Item)
  | REMOVE_FROM_FAVORITES (type : Category) (id : Int)
  | ADD_SEARCH_HISTORY (payload : String)
  | TOGGLE_DARK_MODE
  | OPEN_STATUS_MODAL (type : Category) (item : Item)
  | CLOSE_STATUS_MODAL

/-- The method `Array.prototype.findIndex`: index of the first element that
satisfies `p`, or `-1`. -/
def findIndex {α : Type} (p : α → Bool) (l : List α) : Int :=
  if l.findIdx p < l.length then (l.findIdx p : Int) else -1

/-- The method `Array.prototype.map` with a callback that may throw: the first
exception ends the call. -/
def mapThrowing {α β : Type} (f : α → Except String β) : List α → Except String (List β)
  | [] => .ok []
  | a :: rest =>
    match f a with
    | .error e => .error e
    | .ok b =>
      match mapThrowing f rest with
      | .error e => .error e
      | .ok bs => .ok (b :: bs)

/-- Property read `item.trackingData.k`: a `TypeError` when
`item.trackingData` is `undefined`. -/
def readTracking (item : Item) (k : String) : Except String JVal :=
  match item.trackingData with
  | none => .error "TypeError: Cannot read properties of undefined"
  | some td => .ok (td.get k)

/-- The callback of `map` in the case `UPDATE_ITEM_STATUS`. -/
def updateItem (id : Int) (status progress : JVal) (item : Item) : Except String Item :=
  if item.mal_id = id then
    match (if status ≠ JVal.undefined then .ok status else readTracking item "status") with
    | .error e => .error e
    | .ok st =>
      match (if progress ≠ JVal.undefined then .ok progress else readTracking item "progress") with
      | .error e => .error e
      | .ok pr =>
        .ok { item with
          trackingData :=
            some (((JObj.empty.spreadOpt item.trackingData).set "status" st).set "progress" pr) }
  else .ok item

/-- The new list of the case `UPSERT_LIST_ITEM`. -/
def upsertList (list : List Item) (item : Item) (trackingData : Option JObj) : List Item :=
  let existingItemIndex := findIndex (fun i => decide (i.mal_id = item.mal_id)) list
  if existingItemIndex > -1 then
    list.mapIdx fun index listItem =>
      if (index : Int) = existingItemIndex then
        { listItem with
          trackingData :=
            some ((JObj.empty.spreadOpt listItem.trackingData).spreadOpt trackingData) }
      else listItem
  else
    list ++ [{ item with trackingData := trackingData }]

/-- The function `appReducer`, for every case except `LOAD_LOCAL_DATA`; the
result is an exception when evaluating the case throws. The case
`LOAD_LOCAL_DATA`, whose payload is any parsed value, is `loadLocalData`. -/
def appReducer (state : AppState) : Action → Except String AppState
  | .SET_LOADING payload => .ok { state with loading := payload }
  | .SET_ERROR payload => .ok { state with error := payload, loading := false }
  | .CLEAR_ERROR => .ok { state with error := none }
  | .UPSERT_LIST_ITEM type item trackingData =>
    .ok { state with
      myList := state.myList.set type (upsertList (state.myList.get type) item trackingData) }
  | .ADD_TO_LIST type item =>
    .ok { state with myList := state.myList.set type (state.myList.get type ++ [item]) }
  | .REMOVE_FROM_LIST type id =>
    .ok { state with
      myList := state.myList.set type
        ((state.myList.get type).filter fun item => decide (item.mal_id ≠ id)) }
  | .UPDATE_ITEM_STATUS type id status progress =>
    match mapThrowing (updateItem id status progress) (state.myList.get type) with
    | .error e => .error e
    | .ok newList => .ok { state with myList := state.myList.set type newList }
  | .ADD_TO_FAVORITES type item =>
    .ok { state with favorites := state.favorites.set type (state.favorites.get type ++ [item]) }
  | .REMOVE_FROM_FAVORITES type id =>
    .ok { state with
      favorites := state.favorites.set type
        ((state.favorites.get type).filter fun item => decide (item.mal_id ≠ id)) }
  | .ADD_SEARCH_HISTORY payload =>
    .ok { state with searchHistory := payload :: state.searchHistory.take 9 }
  | .TOGGLE_DARK_MODE => .ok { state with darkMode := !state.darkMode }
  | .OPEN_STATUS_MODAL type item =>
    .ok { state with statusModal := { isOpen := true, item := some item, type := some type } }
  | .CLOSE_STATUS_MODAL =>
    .ok { state with statusModal := { isOpen := false, item := none, type := none } }

/-- The lookup `isInList`; the guard `!state.myList[type]` never holds, the
three keys being present. -/
def isInList (state : AppState) (type : Category) (id : Int) : Bool :=
  (state.myList.get type).any fun item => decide (item.mal_id = id)

/-- The lookup `getItemFromList`. -/
def getItemFromList (state : AppState) (type : Category) (id : Int) : Option Item :=
  (state.myList.get type).find? fun item => decide (item.mal_id = id)

/-- The lookup `isInFavorites`. -/
def isInFavorites (state : AppState) (type : Category) (id : Int) : Bool :=
  (state.favorites.get type).any fun item => decide (item.mal_id = id)

/-- Several `dispatch` calls in a row: each action is reduced on the state the
previous one returned; an exception ends the sequence. -/
def dispatchAll (state : AppState) : List Action → Except String AppState
  | [] => .ok state
  | a :: rest =>
    match appReducer state a with
    | .error e => .error e
    | .ok next => dispatchAll next rest

/-- The function `addToSearchHistory` of a context value, as the actions it
dispatches: `ADD_SEARCH_HISTORY` when `query` is truthy (a non-empty string) and
`state.searchHistory.includes(query)` is false, nothing otherwise. `state` is
the state the provider was rendered with when the context value was built: the
function closes over it. `dispatch` reduces the action on the state the reducer
holds when it is called, which is `state` only as long as nothing was dispatched
since that render. -/
def addToSearchHistory (state : AppState) (query : String) : List Action :=
  if query ≠ "" ∧ query ∉ state.searchHistory then [.ADD_SEARCH_HISTORY query] else []

/-- The provider between two renders: `rendered` is the state that `useReducer`
returned at the last render, from which the context value and its functions
were built; `current` is the state of the reducer, which every `dispatch`
updates. -/
structure Provider where
  rendered : AppState
  current : AppState

/-- The provider when it is mounted: rendered with `initialState`. -/
def Provider.init : Provider := { rendered := initialState, current := initialState }

/-- What happens to the provider: a consumer calls `dispatch` with an action
(the functions `addToList`, `removeFromList`, `upsertListItem`,
`updateItemStatus`, `addToFavorites`, `removeFromFavorites`, `openStatusModal`,
`closeStatusModal`, `setLoading`, `setError` and `clearError` each dispatch one
action), a consumer calls `addToSearchHistory` of the context value, or the
provider renders again and builds a new context value from the current state. -/
inductive StoreOp where
  | dispatch (action : Action)
  | addToSearchHistory (query : String)
  | render

/-- The provider after one operation. -/
def applyOp (p : Provider) : StoreOp → Except String Provider
  | .dispatch action =>
    match appReducer p.current action with
    | .error e => .error e
    | .ok next => .ok { p with current := next }
  | .addToSearchHistory query =>
    match dispatchAll p.current (addToSearchHistory p.rendered query) with
    | .error e => .error e
    | .ok next => .ok { p with current := next }
  | .render => .ok { rendered := p.current, current := p.current }

/-- The provider after a sequence of operations; an exception ends the
sequence. -/
def runOps (p : Provider) : List StoreOp → Except String Provider
  | [] => .ok p
  | op :: rest =>
    match applyOp p op with
    | .error e => .error e
    | .ok next => runOps next rest

/-- Whether, along a sequence of operations from `p`, the search history is
changed only through `addToSearchHistory`: every `dispatch` of the sequence
leaves `searchHistory` as it was. -/
def historyOnlyRecorded (p : Provider) : List StoreOp → Bool
  | [] => true
  | op :: rest =>
    match applyOp p op with
    | .error _ => true
    | .ok next =>
      (match op with
        | .dispatch _ => decide (next.current.searchHistory = p.current.searchHistory)
        | _ => true)
      && historyOnlyRecorded next rest

/-- Whether, along a sequence of operations from `p`, every call of
`addToSearchHistory` is made on a context value that was rendered with the
current search history (the provider has rendered since the history last
changed). -/
def callsAfterRender (p : Provider) : List StoreOp → Bool
  | [] => true
  | op :: rest =>
    (match op with
      | .addToSearchHistory _ => decide (p.rendered.searchHistory = p.current.searchHistory)
      | _ => true)
    && (match applyOp p op with
      | .error _ => true
      | .ok next => callsAfterRender next rest)

/-! ### The callers that enforce the status policy
(`src/components/StatusUpdateModal.jsx`, `src/components/MyListItemCard.jsx`) -/

/-- A property that holds a count (`episodes`, `chapters`): `some n` for a
number, `none` for `null` or `undefined`, the two other values the API data
has there. -/
def JVal.toCount : JVal → Option Int
  | .num n => some n
  | _ => none

/-- The constant `total` of both components:
`type === 'anime' ? item.episodes : item.chapters`. -/
def itemTotal (type : Category) (item : Item) : Option Int :=
  if type = Category.anime then (item.fields.get "episodes").toCount
  else (item.fields.get "chapters").toCount

/-- The constant `watchStatus` of both components:
`type === 'anime' ? 'Watching' : 'Reading'`. -/
def watchStatus (type : Category) : String :=
  if type = Category.anime then "Watching" else "Reading"

/-- Truthiness of `total`: a number other than `0`. -/
def totalKnown (total : Option Int) : Bool :=
  match total with
  | some t => decide (t ≠ 0)
  | none => false

/-- The body of `handleSave` between the declaration of `total` and the call of
`upsertListItem`: the pair `(finalStatus, finalProgress)` computed from the
editor's `status` and `progress`. -/
def savePolicy (type : Category) (total : Option Int) (status : String) (progress : Int) :
    String × Int :=
  if status = "Completed" then
    (status, if totalKnown total then total.getD 0 else 0)
  else if status = "Plan to Watch" ∨ status = "Plan to Read" ∨ status = "Dropped" then
    (status, 0)
  else if status = watchStatus type then
    let cappedProgress := if totalKnown total then min progress (total.getD 0) else progress
    if totalKnown total ∧ cappedProgress ≥ total.getD 0 then
      ("Completed", total.getD 0)
    else (status, cappedProgress)
  else if status = "On Hold" then
    (status, if totalKnown total then min progress (total.getD 0) else progress)
  else (status, progress)

/-- The function `handleSave` of the status editor, as the actions it
dispatches: `upsertListItem(type, item, { status, progress })` with the pair of
`savePolicy`, then `closeStatusModal()`. -/
def handleSave (type : Category) (item : Item) (status : String) (progress : Int) :
    List Action :=
  let final := savePolicy type (itemTotal type item) status progress
  [.UPSERT_LIST_ITEM type item
      (some (JObj.ofList [("status", .str final.1), ("progress", .num final.2)])),
    .CLOSE_STATUS_MODAL]

/-- The function `handleProgressChange` of the list card, as the actions it
dispatches; `progress` is the number destructured from `item.trackingData`. -/
def handleProgressChange (type : Category) (item : Item) (progress : Int) (amount : Int) :
    List Action :=
  if totalKnown (itemTotal type item) then
    let total := (itemTotal type item).getD 0
    let newProgress := max 0 (min total (progress + amount))
    if newProgress ≥ total then
      [.UPDATE_ITEM_STATUS type item.mal_id (.str "Completed") (.num total)]
    else
      [.UPDATE_ITEM_STATUS type item.mal_id .undefined (.num newProgress)]
  else []

/-! ### Persistence (`AppProvider`, the two effects, and `LOAD_LOCAL_DATA`) -/

/-- A JavaScript value as `JSON.parse` returns it or as the state holds it: a
primitive, an array or a plain object (own properties in order). -/
inductive JTree where
  | prim (v : JVal)
  | arr (items : List JTree)
  | obj (props : List (String × JTree))

/-- Own properties of an object, in order. -/
abbrev TProps := List (String × JTree)

/-- Reading an own property of an object. -/
def TProps.lookup : TProps → String → Option JTree
  | [], _ => none
  | (k', v') :: rest, k => if k' = k then some v' else TProps.lookup rest k

/-- Assignment `o[k] = v` on an object under construction. -/
def TProps.assign : TProps → String → JTree → TProps
  | [], k, v => [(k, v)]
  | (k', v') :: rest, k, v =>
    if k' = k then (k, v) :: rest else (k', v') :: TProps.assign rest k v

/-- Spread `...src` into an object under construction: the properties of `src`
are assigned in order. -/
def TProps.spread (target src : TProps) : TProps :=
  src.foldl (fun acc kv => TProps.assign acc kv.1 kv.2) target

/-- The own enumerable properties that a spread `...v` copies: the properties
of an object, the elements of an array under their indices, the characters of
a string under their indices, nothing for the other primitives. -/
def JTree.ownProps : JTree → TProps
  | .obj props => props
  | .arr items => items.enum.map fun it => (toString it.1, it.2)
  | .prim (.str s) =>
    s.data.enum.map fun it => (toString it.1, JTree.prim (.str (String.singleton it.2)))
  | .prim _ => []

/-- The key of a category in `myList` and `favorites`. -/
def Category.key : Category → String
  | .anime => "anime"
  | .manga => "manga"
  | .characters => "characters"

/-- A flat object as a value. -/
def JObj.toJs (o : JObj) : JTree :=
  .obj (o.1.map fun kv => (kv.1, JTree.prim kv.2))

/-- A list entry as a value: `mal_id`, the other properties, and `trackingData`
when present. -/
def Item.toJs (item : Item) : JTree :=
  .obj ((("mal_id", JTree.prim (.num item.mal_id)) ::
      item.fields.1.map fun kv => (kv.1, JTree.prim kv.2)) ++
    match item.trackingData with
    | none => []
    | some td => [("trackingData", td.toJs)])

/-- The object `myList` or `favorites` as a value. -/
def ByCategory.toJs (m : ByCategory (List Item)) : JTree :=
  .obj [("anime", .arr (m.anime.map Item.toJs)), ("manga", .arr (m.manga.map Item.toJs)),
    ("characters", .arr (m.characters.map Item.toJs))]

/-- The object `statusModal` as a value. -/
def StatusModal.toJs (m : StatusModal) : JTree :=
  .obj [("isOpen", .prim (.bool m.isOpen)),
    ("item", match m.item with
      | none => .prim .null
      | some item => item.toJs),
    ("type", match m.type with
      | none => .prim .null
      | some type => .prim (.str type.key))]

/-- The state as the object the reducer holds. -/
def AppState.toJs (state : AppState) : TProps :=
  [("myList", state.myList.toJs), ("favorites", state.favorites.toJs),
    ("searchHistory", .arr (state.searchHistory.map fun q => JTree.prim (.str q))),
    ("darkMode", .prim (.bool state.darkMode)),
    ("loading", .prim (.bool state.loading)),
    ("error", match state.error with
      | none => .prim .null
      | some e => .prim (.str e)),
    ("statusModal", state.statusModal.toJs)]

/-- Property read `state.k` on the state object. -/
def TProps.get (state : TProps) (k : String) : JTree :=
  (TProps.lookup state k).getD (.prim .undefined)

/-- The case `LOAD_LOCAL_DATA` of `appReducer`:
`{ ...state, ...action.payload }`, for a state object and any payload. -/
def loadLocalData (state : TProps) (payload : JTree) : TProps :=
  (TProps.spread [] state).spread payload.ownProps

/-- The object `dataToSave` of the second effect. -/
def dataToSave (state : TProps) : JTree :=
  .obj [("myList", state.get "myList"), ("favorites", state.get "favorites"),
    ("searchHistory", state.get "searchHistory"), ("darkMode", state.get "darkMode")]

/-- The second effect of `AppProvider`: the string written under
`animeAppData`. `stringify` stands for `JSON.stringify`. -/
def persist (stringify : JTree → String) (state : TProps) : String :=
  stringify (dataToSave state)

/-- The first effect of `AppProvider`: `savedData` is what
`localStorage.getItem('animeAppData')` returns (`none` for `null`); `parse`
stands for `JSON.parse`, with `none` when it throws. The result is the state
after the effect. -/
def hydrate (parse : String → Option JTree) (savedData : Option String) (state : TProps) :
    TProps :=
  match savedData with
  | none => state
  | some text =>
    if text = "" then state
    else
      match parse text with
      | none => state
      | some parsedData => loadLocalData state parsedData

/-! ### A serialization

`JSON.stringify` and `JSON.parse` are parameters of `persist` and `hydrate`.
Where a concrete pair is needed, the following one is used: JSON text for
values without `undefined`, whose numbers are integers and whose strings and
property names need no escape. -/

/-- The JSON text of a primitive (`undefined` as an array element is written
`null`). -/
def JVal.toText : JVal → String
  | .undefined => "null"
  | .null => "null"
  | .bool true => "true"
  | .bool false => "false"
  | .num n => toString n
  | .str s => "\"" ++ s ++ "\""

mutual
/-- The JSON text of a value. -/
def JTree.toText : JTree → String
  | .prim v => v.toText
  | .arr items => "[" ++ itemsToText items ++ "]"
  | .obj props => "\x7b" ++ propsToText props ++ "\x7d"
/-- The JSON text of the elements of an array, separated by commas. -/
def itemsToText : List JTree → String
  | [] => ""
  | x :: rest =>
    match rest with
    | [] => x.toText
    | _ :: _ => x.toText ++ "," ++ itemsToText rest
/-- The JSON text of the properties of an object, separated by commas. -/
def propsToText : List (String × JTree) → String
  | [] => ""
  | (k, v) :: rest =>
    match rest with
    | [] => "\"" ++ k ++ "\":" ++ v.toText
    | _ :: _ => "\"" ++ k ++ "\":" ++ v.toText ++ "," ++ propsToText rest
end

/-- Reading a string up to its closing quote: the string and the rest of the
text. -/
def readString : List Char → Option (String × List Char)
  | [] => none
  | c :: rest =>
    if c = '"' then some ("", rest)
    else
      match readString rest with
      | none => none
      | some (s, rest') => some (String.mk (c :: s.data), rest')

/-- Reading decimal digits: the number read so far and the rest of the text. -/
def readDigits : List Char → Nat → Nat × List Char
  | [], acc => (acc, [])
  | c :: rest, acc =>
    if c.isDigit then readDigits rest (10 * acc + (c.toNat - 48)) else (acc, c :: rest)

mutual
/-- Reading one JSON value: the value and the rest of the text; `fuel` bounds
the depth of the reading. -/
def readValue : Nat → List Char → Option (JTree × List Char)
  | 0, _ => none
  | fuel + 1, cs =>
    match cs with
    | 'n' :: 'u' :: 'l' :: 'l' :: rest => some (.prim .null, rest)
    | 't' :: 'r' :: 'u' :: 'e' :: rest => some (.prim (.bool true), rest)
    | 'f' :: 'a' :: 'l' :: 's' :: 'e' :: rest => some (.prim (.bool false), rest)
    | '"' :: rest =>
      match readString rest with
      | none => none
      | some (s, rest') => some (.prim (.str s), rest')
    | '[' :: ']' :: rest => some (.arr [], rest)
    | '[' :: rest =>
      match readItems fuel rest with
      | none => none
      | some (items, rest') => some (.arr items, rest')
    | '{' :: '}' :: rest => some (.obj [], rest)
    | '{' :: rest =>
      match readProps fuel rest with
      | none => none
      | some (props, rest') => some (.obj props, rest')
    | '-' :: rest =>
      match rest with
      | c :: _ =>
        if c.isDigit then
          some (.prim (.num (-((readDigits rest 0).1 : Int))), (readDigits rest 0).2)
        else none
      | [] => none
    | c :: rest =>
      if c.isDigit then
        some (.prim (.num ((readDigits (c :: rest) 0).1 : Int)), (readDigits (c :: rest) 0).2)
      else none
    | [] => none
/-- Reading the elements of an array after its opening bracket. -/
def readItems : Nat → List Char → Option (List JTree × List Char)
  | 0, _ => none
  | fuel + 1, cs =>
    match readValue fuel cs with
    | none => none
    | some (v, rest) =>
      match rest with
      | ',' :: rest' =>
        match readItems fuel rest' with
        | none => none
        | some (items, rest'') => some (v :: items, rest'')
      | ']' :: rest' => some ([v], rest')
      | _ => none
/-- Reading the properties of an object after its opening brace. -/
def readProps : Nat → List Char → Option (List (String × JTree) × List Char)
  | 0, _ => none
  | fuel + 1, cs =>
    match cs with
    | '"' :: rest =>
      match readString rest with
      | some (k, ':' :: rest') =>
        match readValue fuel rest' with
        | none => none
        | some (v, rest'') =>
          match rest'' with
          | ',' :: rest3 =>
            match readProps fuel rest3 with
            | none => none
            | some (props, rest4) => some ((k, v) :: props, rest4)
          | '}' :: rest3 => some ([(k, v)], rest3)
          | _ => none
      | _ => none
    | _ => none
end

/-- Parsing a JSON text: the value when the whole text is one value, `none`
when it is not (where `JSON.parse` throws). -/
def JTree.ofText (text : String) : Option JTree :=
  match readValue text.length text.data with
  | some (v, []) => some v
  | _ => none

/-! ### Sequences of operations and the invariants of the stored data -/

/-- The six functions of the provider that change `myList` and `favorites`. -/
inductive PublicOp where
  | addToList (type : Category) (item : Item)
  | upsertListItem (type : Category) (item : Item) (trackingData : Option JObj)
  | removeFromList (type : Category) (id : Int)
  | updateItemStatus (type : Category) (id : Int) (status progress : JVal)
  | addToFavorites (type : Category) (item : Item)
  | removeFromFavorites (type : Category) (id : Int)

/-- The action that each of the six functions dispatches. -/
def PublicOp.action : PublicOp → Action
  | .addToList type item => .ADD_TO_LIST type item
  | .upsertListItem type item trackingData => .UPSERT_LIST_ITEM type item trackingData
  | .removeFromList type id => .REMOVE_FROM_LIST type id
  | .updateItemStatus type id status progress => .UPDATE_ITEM_STATUS type id status progress
  | .addToFavorites type item => .ADD_TO_FAVORITES type item
  | .removeFromFavorites type id => .REMOVE_FROM_FAVORITES type id

/-- The state after a sequence of calls of the six functions. -/
def runPublic (state : AppState) (ops : List PublicOp) : Except String AppState :=
  dispatchAll state (ops.map PublicOp.action)

/-- Whether, along a sequence of calls from `state`, `addToList` and
`addToFavorites` are called only for an identity that `isInList`, respectively
`isInFavorites`, does not report (the test every caller makes first). -/
def addsOnlyAbsent (state : AppState) : List PublicOp → Bool
  | [] => true
  | op :: rest =>
    (match op with
      | .addToList type item => !isInList state type item.mal_id
      | .addToFavorites type item => !isInFavorites state type item.mal_id
      | _ => true)
    && (match appReducer state op.action with
      | .error _ => true
      | .ok next => addsOnlyAbsent next rest)

/-- At most one entry per `mal_id` in every list of `myList` and of
`favorites`. -/
def uniqueIds (state : AppState) : Prop :=
  ∀ type, ((state.myList.get type).map Item.mal_id).Nodup ∧
    ((state.favorites.get type).map Item.mal_id).Nodup

/-- Whether a value is an array. -/
def JTree.isList : JTree → Bool
  | .arr _ => true
  | _ => false

/-- Whether a value is an object with exactly the three keys `anime`, `manga`
and `characters`, each holding an array. -/
def JTree.hasCategoryLists : JTree → Bool
  | .obj props =>
    decide ((props.map Prod.fst).length = 3) && decide ("anime" ∈ props.map Prod.fst) &&
    decide ("manga" ∈ props.map Prod.fst) && decide ("characters" ∈ props.map Prod.fst) &&
    props.all fun kv => kv.2.isList
  | _ => false

/-- The constant `currentStatuses` of the status editor: the statuses it
offers. -/
def currentStatuses (type : Category) : List String :=
  if type = Category.anime then ["Watching", "Completed", "On Hold", "Dropped", "Plan to Watch"]
  else ["Reading", "Completed", "On Hold", "Dropped", "Plan to Read"]

/-- The two ways tracking data is written: a save in the status editor and a
step of the progress buttons of a list card. -/
inductive TrackOp where
  | save (type : Category) (item : Item) (status : String) (progress : Int)
  | step (type : Category) (item : Item) (progress : Int) (amount : Int)

/-- The actions that a save or a step dispatches. -/
def TrackOp.actions : TrackOp → List Action
  | .save type item status progress => handleSave type item status progress
  | .step type item progress amount => handleProgressChange type item progress amount

/-- The state after a sequence of saves and steps. -/
def runTrack (state : AppState) : List TrackOp → Except String AppState
  | [] => .ok state
  | op :: rest =>
    match dispatchAll state op.actions with
    | .error e => .error e
    | .ok next => runTrack next rest

/-- The conditions on a save and on a step under which the invariants of the
tracking data are kept. A save: the status is one of `currentStatuses` (the
buttons of the editor), the entered progress is not negative (the input and the
buttons of the editor keep it so), and, when the list has an entry with the
item's identity whose total `T > 0` is known, the item given to the editor has
that total. The last condition holds when the editor is opened from the list
card, whose item is the stored entry; the cards of the other pages open it with
the object received from the API, which may lack the count. A step: the amount
is `1` or `-1`, the card's item is an entry of the list, its status is
`watchStatus` (the card renders the buttons only then) and `progress` is its
stored progress. -/
def TrackOp.guarded (state : AppState) : TrackOp → Bool
  | .save type item status progress =>
    decide (status ∈ currentStatuses type) && decide (0 ≤ progress) &&
    (match getItemFromList state type item.mal_id with
      | none => true
      | some stored =>
        match itemTotal type stored with
        | none => true
        | some T => decide (T ≤ 0) || decide (itemTotal type item = some T))
  | .step type item progress amount =>
    decide (amount = 1 ∨ amount = -1) && decide (item ∈ state.myList.get type) &&
    (match item.trackingData with
      | none => false
      | some td =>
        decide (td.get "status" = JVal.str (watchStatus type)) &&
        decide (td.get "progress" = JVal.num progress))

/-- Whether every operation of a sequence satisfies `TrackOp.guarded` in the
state it is applied to. -/
def trackGuarded (state : AppState) : List TrackOp → Bool
  | [] => true
  | op :: rest =>
    op.guarded state &&
    (match dispatchAll state op.actions with
      | .error _ => true
      | .ok next => trackGuarded next rest)

/-- The invariants of the tracking data of an entry whose total `T > 0` is
known: it has a status and a progress with `0 ≤ progress ≤ T`, `'Completed'`
implies `progress = T`, and `'Plan to Watch'`, `'Plan to Read'` and `'Dropped'`
imply `progress = 0`. -/
def TrackingOk (type : Category) (entry : Item) : Prop :=
  ∀ T, itemTotal type entry = some T → 0 < T →
    ∃ td status progress, entry.trackingData = some td ∧
      td.get "status" = JVal.str status ∧ td.get "progress" = JVal.num progress ∧
      0 ≤ progress ∧ progress ≤ T ∧ (status = "Completed" → progress = T) ∧
      (status = "Plan to Watch" ∨ status = "Plan to Read" ∨ status = "Dropped" →
        progress = 0)

/-- The invariant of the tracked lists under saves and steps: at most one
entry per `mal_id`, and `TrackingOk` for every entry. -/
def TrackInv (state : AppState) : Prop :=
  (∀ type, ((state.myList.get type).map Item.mal_id).Nodup) ∧
  ∀ type, ∀ e ∈ state.myList.get type, TrackingOk type e

/-! ### The reducer on state objects

After `LOAD_LOCAL_DATA` the state is what the spread of the parsed value left:
`myList` need not have the three keys, and what a key holds need not be an
array of entries. The reducer is given here on state objects as JavaScript
holds them, for the actions that the functions of the provider dispatch. -/

/-- Truthiness of a value. -/
def JTree.truthy : JTree → Bool
  | .prim .undefined => false
  | .prim .null => false
  | .prim (.bool b) => b
  | .prim (.num n) => decide (n ≠ 0)
  | .prim (.str s) => decide (s ≠ "")
  | _ => true

/-- Property read `v[k]` for the names the reducer reads (`anime`, `manga`,
`characters`, `mal_id`, `trackingData`, `status`, `progress`; none of them is
inherited from a prototype): a `TypeError` on `undefined` and on `null`, the
own property or `undefined` on every other value. -/
def JTree.read (v : JTree) (k : String) : Except String JTree :=
  match v with
  | .prim .undefined => .error "TypeError: Cannot read properties of undefined"
  | .prim .null => .error "TypeError: Cannot read properties of null"
  | _ => .ok ((TProps.lookup v.ownProps k).getD (.prim .undefined))

/-- The elements that a spread `[...v]` in an array literal takes from `v`:
those of an array, the characters of a string; no other value is iterable. -/
def JTree.elements : JTree → Except String (List JTree)
  | .arr items => .ok items
  | .prim (.str s) => .ok (s.data.map fun c => JTree.prim (.str (String.singleton c)))
  | _ => .error "TypeError: not iterable"

/-- The receiver of a call `v.findIndex(...)`, `v.filter(...)` or `v.map(...)`:
the elements of an array; on any other value the call throws (the property
cannot be read on `undefined` and `null`, and is not a function elsewhere). -/
def JTree.asArray : JTree → Except String (List JTree)
  | .arr items => .ok items
  | .prim .undefined => .error "TypeError: Cannot read properties of undefined"
  | .prim .null => .error "TypeError: Cannot read properties of null"
  | _ => .error "TypeError: not a function"

/-- What `[...v.slice(0, 9)]` takes from `v`: the first nine elements of an
array, the first nine characters of a string (of the Basic Multilingual
Plane); on any other value the call of `slice` throws. -/
def JTree.sliceNine : JTree → Except String (List JTree)
  | .arr items => .ok (items.take 9)
  | .prim (.str s) =>
    .ok ((s.data.take 9).map fun c => JTree.prim (.str (String.singleton c)))
  | .prim .undefined => .error "TypeError: Cannot read properties of undefined"
  | .prim .null => .error "TypeError: Cannot read properties of null"
  | _ => .error "TypeError: not a function"

/-- The test `item.mal_id === id` on an element of a list, for a number `id`. -/
def hasId (id : Int) (item : JTree) : Except String Bool :=
  match item.read "mal_id" with
  | .error e => .error e
  | .ok (.prim (.num n)) => .ok (decide (n = id))
  | .ok _ => .ok false

/-- The method `Array.prototype.findIndex` with a callback that may throw. -/
def findIndexThrowing {α : Type} (p : α → Except String Bool) : List α → Except String Int
  | [] => .ok (-1)
  | a :: rest =>
    match p a with
    | .error e => .error e
    | .ok true => .ok 0
    | .ok false =>
      match findIndexThrowing p rest with
      | .error e => .error e
      | .ok i => .ok (if i > -1 then i + 1 else -1)

/-- The method `Array.prototype.filter` with a callback that may throw. -/
def filterThrowing {α : Type} (p : α → Except String Bool) : List α → Except String (List α)
  | [] => .ok []
  | a :: rest =>
    match p a with
    | .error e => .error e
    | .ok keep =>
      match filterThrowing p rest with
      | .error e => .error e
      | .ok kept => .ok (if keep then a :: kept else kept)

/-- A value of the payload that may be `undefined`. -/
def trackingToJs (trackingData : Option JObj) : JTree :=
  match trackingData with
  | none => .prim .undefined
  | some td => td.toJs

/-- The object
`{ ...listItem, trackingData: { ...listItem.trackingData, ...trackingData } }`
of the case `UPSERT_LIST_ITEM`. -/
def mergeTracking (listItem trackingData : JTree) : Except String JTree :=
  match listItem.read "trackingData" with
  | .error e => .error e
  | .ok td =>
    .ok (.obj ((TProps.spread [] listItem.ownProps).assign "trackingData"
      (.obj ((TProps.spread [] td.ownProps).spread trackingData.ownProps))))

/-- The callback of `map` in the case `UPDATE_ITEM_STATUS`, on any element. -/
def updateItemJs (id : Int) (status progress : JVal) (item : JTree) : Except String JTree :=
  match hasId id item with
  | .error e => .error e
  | .ok false => .ok item
  | .ok true =>
    match item.read "trackingData" with
    | .error e => .error e
    | .ok td =>
      match (if status ≠ JVal.undefined then .ok (JTree.prim status) else td.read "status") with
      | .error e => .error e
      | .ok st =>
        match (if progress ≠ JVal.undefined then .ok (JTree.prim progress)
          else td.read "progress") with
        | .error e => .error e
        | .ok pr =>
          .ok (.obj ((TProps.spread [] item.ownProps).assign "trackingData"
            (.obj (((TProps.spread [] td.ownProps).assign "status" st).assign "progress" pr))))

/-- The object `{ ...state, [key]: { ...state[key], [type]: newList } }`, for
`key` one of `myList` and `favorites`. -/
def writeList (state : TProps) (key : String) (type : Category) (newList : List JTree) :
    TProps :=
  (TProps.spread [] state).assign key
    (.obj ((TProps.spread [] (state.get key).ownProps).assign type.key (.arr newList)))

/-- The function `appReducer` on a state object, for every case except
`LOAD_LOCAL_DATA` (which is `loadLocalData`); the result is an exception when
evaluating the case throws. -/
def appReducerJs (state : TProps) : Action → Except String TProps
  | .SET_LOADING payload =>
    .ok ((TProps.spread [] state).assign "loading" (.prim (.bool payload)))
  | .SET_ERROR payload =>
    .ok (((TProps.spread [] state).assign "error"
        (match payload with
          | none => .prim .null
          | some e => .prim (.str e))).assign "loading" (.prim (.bool false)))
  | .CLEAR_ERROR => .ok ((TProps.spread [] state).assign "error" (.prim .null))
  | .UPSERT_LIST_ITEM type item trackingData =>
    match (state.get "myList").read type.key with
    | .error e => .error e
    | .ok list =>
      match list.asArray with
      | .error e => .error e
      | .ok items =>
        match findIndexThrowing (hasId item.mal_id) items with
        | .error e => .error e
        | .ok existingItemIndex =>
          if existingItemIndex > -1 then
            match mapThrowing
              (fun ix : Nat × JTree =>
                if (ix.1 : Int) = existingItemIndex then
                  mergeTracking ix.2 (trackingToJs trackingData)
                else .ok ix.2)
              items.enum with
            | .error e => .error e
            | .ok newList => .ok (writeList state "myList" type newList)
          else
            .ok (writeList state "myList" type
              (items ++ [.obj ((TProps.spread [] item.toJs.ownProps).assign "trackingData"
                (trackingToJs trackingData))]))
  | .ADD_TO_LIST type item =>
    match (state.get "myList").read type.key with
    | .error e => .error e
    | .ok list =>
      match list.elements with
      | .error e => .error e
      | .ok items => .ok (writeList state "myList" type (items ++ [item.toJs]))
  | .REMOVE_FROM_LIST type id =>
    match (state.get "myList").read type.key with
    | .error e => .error e
    | .ok list =>
      match list.asArray with
      | .error e => .error e
      | .ok items =>
        match filterThrowing (fun item => (hasId id item).map fun same => !same) items with
        | .error e => .error e
        | .ok newList => .ok (writeList state "myList" type newList)
  | .UPDATE_ITEM_STATUS type id status progress =>
    match (state.get "myList").read type.key with
    | .error e => .error e
    | .ok list =>
      match list.asArray with
      | .error e => .error e
      | .ok items =>
        match mapThrowing (updateItemJs id status progress) items with
        | .error e => .error e
        | .ok newList => .ok (writeList state "myList" type newList)
  | .ADD_TO_FAVORITES type item =>
    match (state.get "favorites").read type.key with
    | .error e => .error e
    | .ok list =>
      match list.elements with
      | .error e => .error e
      | .ok items => .ok (writeList state "favorites" type (items ++ [item.toJs]))
  | .REMOVE_FROM_FAVORITES type id =>
    match (state.get "favorites").read type.key with
    | .error e => .error e
    | .ok list =>
      match list.asArray with
      | .error e => .error e
      | .ok items =>
        match filterThrowing (fun item => (hasId id item).map fun same => !same) items with
        | .error e => .error e
        | .ok newList => .ok (writeList state "favorites" type newList)
  | .ADD_SEARCH_HISTORY payload =>
    match (state.get "searchHistory").sliceNine with
    | .error e => .error e
    | .ok recent =>
      .ok ((TProps.spread [] state).assign "searchHistory"
        (.arr (JTree.prim (.str payload) :: recent)))
  | .TOGGLE_DARK_MODE =>
    .ok ((TProps.spread [] state).assign "darkMode"
      (.prim (.bool (!(state.get "darkMode").truthy))))
  | .OPEN_STATUS_MODAL type item =>
    .ok ((TProps.spread [] state).assign "statusModal"
      (StatusModal.toJs { isOpen := true, item := some item, type := some type }))
  | .CLOSE_STATUS_MODAL =>
    .ok ((TProps.spread [] state).assign "statusModal"
      (StatusModal.toJs { isOpen := false, item := none, type := none }))

/-- An action of the reducer: `LOAD_LOCAL_DATA` with any parsed value, or one
of the other actions. -/
inductive AnyAction where
  | LOAD_LOCAL_DATA (payload : JTree)
  | other (action : Action)

/-- The function `appReducer` on a state object. -/
def reduceAny (state : TProps) : AnyAction → Except String TProps
  | .LOAD_LOCAL_DATA payload => .ok (loadLocalData state payload)
  | .other action => appReducerJs state action

/-- The state object after a sequence of actions; an exception ends the
sequence. -/
def runAny (state : TProps) : List AnyAction → Except String TProps
  | [] => .ok state
  | a :: rest =>
    match reduceAny state a with
    | .error e => .error e
    | .ok next => runAny next rest

/-- Whether every `LOAD_LOCAL_DATA` of a sequence has a payload without a
property `myList` or `favorites`, or with one that has exactly the three keys
`anime`, `manga` and `characters`, each holding an array. -/
def loadsKeepCategories : List AnyAction → Bool
  | [] => true
  | .LOAD_LOCAL_DATA payload :: rest =>
    (payload.ownProps.all fun kv =>
      !(decide (kv.1 = "myList") || decide (kv.1 = "favorites")) || kv.2.hasCategoryLists)
    && loadsKeepCategories rest
  | .other _ :: rest => loadsKeepCategories rest

/-- The invariant of the state object under the actions: its property names
are distinct, and `myList` and `favorites` each have exactly the three keys
`anime`, `manga` and `characters`, each holding an array. -/
def CategoryInv (state : TProps) : Prop :=
  (state.map Prod.fst).Nodup ∧ (state.get "myList").hasCategoryLists = true ∧
  (state.get "favorites").hasCategoryLists = true

/-! ## Proofs: the request queue -/

theorem qpre_init : QPre QState.init := by
  constructor <;> simp [QState.init, QState.starts]

theorem processQueue_idle (s : QState) :
    (processQueue s).isProcessing = false → (processQueue s).requestQueue = [] := by
  unfold processQueue
  split
  · next h =>
    intro hp
    rcases h with h | h
    · exact List.length_eq_zero.mp h
    · simp [hp] at h
  · split
    · intro _; assumption
    · simp

theorem processQueue_pre {s : QState} (h : QPre s) : QPre (processQueue s) := by
  unfold processQueue
  split
  · exact h
  · next hc =>
    have hp : s.isProcessing = false := by
      cases hb : s.isProcessing
      · rfl
      · exact absurd (Or.inr hb) hc
    split
    · exact h
    · next r rest hq =>
      have hl := h.lane
      simp only [hp, Bool.false_eq_true, if_false] at hl
      have hin : s.inflight = [] := List.length_eq_zero.mp (by omega)
      have hti : s.timers = [] := List.length_eq_zero.mp (by omega)
      constructor
      · simp [h.fifo, hq]
      · exact h.ids
      · simp [h.calls, hin]
      · simp [hin]
      · simp [hin, hti]
      · intro t ht
        simp only [QState.starts, List.map_append, List.mem_append, List.map_cons, List.map_nil,
          List.mem_singleton] at ht
        rcases ht with ht | ht
        · exact h.past t ht
        · simp [ht]
      · simp only [QState.starts, List.map_append, List.map_cons, List.map_nil]
        rw [List.pairwise_append]
        refine ⟨h.spaced, List.pairwise_singleton _ _, ?_⟩
        intro a ha b hb
        simp only [List.mem_singleton] at hb
        subst hb
        exact (h.cool a ha).2 hp
      · intro t _
        simp [hti]

theorem complete_pre {s s' : QState} {i : Nat} {o : Outcome} (h : QPre s)
    (hs : complete s i o = some s') :
    QPre s' ∧ s'.isProcessing = s.isProcessing ∧ s'.requestQueue = s.requestQueue := by
  unfold complete at hs
  split at hs
  · simp at hs
  · next r hr =>
    simp only [Option.some.injEq] at hs
    subst hs
    have hlt : i < s.inflight.length := by
      rcases Nat.lt_or_ge i s.inflight.length with hlt | hge
      · exact hlt
      · rw [List.getElem?_eq_none hge] at hr
        simp at hr
    have hl := h.lane
    have hp : s.isProcessing = true := by
      cases hb : s.isProcessing
      · simp only [hb, Bool.false_eq_true, if_false] at hl; omega
      · rfl
    simp only [hp, if_true] at hl
    have hti : s.timers = [] := List.length_eq_zero.mp (by omega)
    have hlen : s.inflight.length = 1 := by omega
    have hi : i = 0 := by omega
    subst hi
    obtain ⟨x, hx⟩ := List.length_eq_one.mp hlen
    have hrx : r = x := by
      rw [hx] at hr
      simpa using hr.symm
    subst hrx
    refine ⟨?_, rfl, rfl⟩
    constructor
    · exact h.fifo
    · exact h.ids
    · simp [h.calls, hx]
    · simp [hx]
    · simp [hx, hti, hp]
    · exact h.past
    · exact h.spaced
    · intro t ht
      refine ⟨?_, fun hf => ?_⟩
      · intro due hdue
        simp only [hti, List.nil_append, List.mem_singleton] at hdue
        subst hdue
        have := h.past t ht
        omega
      · simp [hp] at hf

theorem timerFire_pre {s s' : QState} {j : Nat} (h : QPre s)
    (hs : timerFire s j = some s') : QInv s' := by
  unfold timerFire at hs
  split at hs
  · simp at hs
  · next due hd =>
    split at hs
    · next hdue =>
      simp only [Option.some.injEq] at hs
      subst hs
      refine ⟨processQueue_pre ?_, processQueue_idle _⟩
      have hlt : j < s.timers.length := by
        rcases Nat.lt_or_ge j s.timers.length with hlt | hge
        · exact hlt
        · rw [List.getElem?_eq_none hge] at hd
          simp at hd
      have hl := h.lane
      have hp : s.isProcessing = true := by
        cases hb : s.isProcessing
        · simp only [hb, Bool.false_eq_true, if_false] at hl; omega
        · rfl
      simp only [hp, if_true] at hl
      have hin : s.inflight = [] := List.length_eq_zero.mp (by omega)
      have hlen : s.timers.length = 1 := by omega
      have hj : j = 0 := by omega
      subst hj
      obtain ⟨x, hx⟩ := List.length_eq_one.mp hlen
      have hdx : due = x := by
        rw [hx] at hd
        simpa using hd.symm
      subst hdx
      constructor
      · exact h.fifo
      · exact h.ids
      · exact h.calls
      · exact h.issued
      · simp [hx, hin]
      · exact h.past
      · exact h.spaced
      · intro t ht
        refine ⟨?_, fun _ => ?_⟩
        · simp [hx]
        · have := (h.cool t ht).1 due (by simp [hx])
          exact le_trans this hdue
    · simp at hs

theorem makeRequest_inv {s : QState} (h : QPre s) (config : Nat) :
    QInv (makeRequest s config) := by
  unfold makeRequest
  refine ⟨processQueue_pre ?_, processQueue_idle _⟩
  constructor
  · simp [h.fifo]
  · simp [h.ids, List.range_succ]
  · exact h.calls
  · exact h.issued
  · exact h.lane
  · exact h.past
  · exact h.spaced
  · exact h.cool

theorem qstep_inv {s s' : QState} {e : QEvent} (h : QInv s) (hs : qstep s e = some s') :
    QInv s' := by
  cases e with
  | enqueue config =>
    simp only [qstep, Option.some.injEq] at hs
    subst hs
    exact makeRequest_inv h.1 config
  | complete i o =>
    obtain ⟨hp, hb, hq⟩ := complete_pre h.1 hs
    refine ⟨hp, ?_⟩
    rw [hb, hq]
    exact h.2
  | timer j => exact timerFire_pre h.1 hs
  | advance dt =>
    simp only [qstep, Option.some.injEq] at hs
    subst hs
    refine ⟨?_, h.2⟩
    constructor
    · exact h.1.fifo
    · exact h.1.ids
    · exact h.1.calls
    · exact h.1.issued
    · exact h.1.lane
    · intro t ht
      have := h.1.past t ht
      exact Nat.le_add_right_of_le this
    · exact h.1.spaced
    · intro t ht
      refine ⟨(h.1.cool t ht).1, fun hf => ?_⟩
      have := (h.1.cool t ht).2 hf
      exact Nat.le_add_right_of_le this

theorem qrun_inv {es : List QEvent} {s s' : QState} (h : QInv s)
    (hs : qrun s es = some s') : QInv s' := by
  induction es generalizing s with
  | nil =>
    simp only [qrun, Option.some.injEq] at hs
    subst hs
    exact h
  | cons e es ih =>
    simp only [qrun] at hs
    cases hq : qstep s e with
    | none => simp [hq] at hs
    | some s1 =>
      rw [hq] at hs
      exact ih (qstep_inv h hq) hs

theorem qinv_init : QInv QState.init := ⟨qpre_init, fun _ => rfl⟩

theorem qreachable_inv {s : QState} (h : QReachable s) : QInv s := by
  obtain ⟨es, hes⟩ := h
  exact qrun_inv qinv_init hes

theorem spaced_nth (D : Nat) (l : List Nat) (h : l.Chain' (fun a b => a + D ≤ b)) :
    ∀ (n first nth : Nat), l[0]? = some first → l[n]? = some nth → first + n * D ≤ nth := by
  induction l with
  | nil => intro n first nth h0; simp at h0
  | cons x rest ih =>
    intro n first nth h0 hn
    simp only [List.getElem?_cons_zero, Option.some.injEq] at h0
    subst h0
    cases n with
    | zero =>
      simp only [List.getElem?_cons_zero, Option.some.injEq] at hn
      omega
    | succ k =>
      simp only [List.getElem?_cons_succ] at hn
      cases rest with
      | nil => simp at hn
      | cons y rest' =>
        rw [List.chain'_cons] at h
        have := ih h.2 k y nth (by simp) hn
        have hxy := h.1
        rw [Nat.succ_mul]
        omega

theorem processQueue_enqueued (s : QState) : (processQueue s).enqueued = s.enqueued := by
  unfold processQueue
  split
  · rfl
  · split <;> rfl

theorem qstep_enqueued {s s' : QState} {e : QEvent} (h : qstep s e = some s') :
    s'.enqueued.map QueuedRequest.config
      = s.enqueued.map QueuedRequest.config ++ enqueuedConfigs [e] := by
  cases e with
  | enqueue config =>
    simp only [qstep, Option.some.injEq] at h
    subst h
    simp [makeRequest, processQueue_enqueued, enqueuedConfigs]
  | complete i o =>
    simp only [qstep, complete] at h
    split at h
    · simp at h
    · simp only [Option.some.injEq] at h
      subst h
      simp [enqueuedConfigs]
  | timer j =>
    simp only [qstep, timerFire] at h
    split at h
    · simp at h
    · split at h
      · simp only [Option.some.injEq] at h
        subst h
        simp [processQueue_enqueued, enqueuedConfigs]
      · simp at h
  | advance dt =>
    simp only [qstep, Option.some.injEq] at h
    subst h
    simp [enqueuedConfigs]

theorem enqueuedConfigs_cons (e : QEvent) (es : List QEvent) :
    enqueuedConfigs (e :: es) = enqueuedConfigs [e] ++ enqueuedConfigs es := by
  cases e <;> simp [enqueuedConfigs]

theorem qrun_enqueued {es : List QEvent} {s s' : QState} (h : qrun s es = some s') :
    s'.enqueued.map QueuedRequest.config
      = s.enqueued.map QueuedRequest.config ++ enqueuedConfigs es := by
  induction es generalizing s with
  | nil =>
    simp only [qrun, Option.some.injEq] at h
    subst h
    simp [enqueuedConfigs]
  | cons e es ih =>
    simp only [qrun] at h
    cases hq : qstep s e with
    | none => simp [hq] at h
    | some s1 =>
      rw [hq] at h
      rw [ih h, qstep_enqueued hq, List.append_assoc, ← enqueuedConfigs_cons]

theorem processQueue_core (s : QState) : (processQueue s).core = processQueue s.core := by
  unfold processQueue QState.core
  simp only
  split
  · rfl
  · split <;> rfl

theorem qstep_core (s : QState) (e : QEvent) :
    (qstep s e).map QState.core = (qstep s.core e).map QState.core := by
  cases e with
  | enqueue config =>
    simp only [qstep, Option.map_some', makeRequest, processQueue_core]
    rfl
  | complete i o =>
    simp only [qstep, complete, QState.core]
    cases s.inflight[i]? <;> rfl
  | timer j =>
    simp only [qstep, timerFire]
    have h1 : s.core.timers = s.timers := rfl
    have h2 : s.core.now = s.now := rfl
    rw [h1, h2]
    cases s.timers[j]? with
    | none => rfl
    | some due =>
      simp only
      split
      · simp only [Option.map_some', processQueue_core]
        rfl
      · rfl
  | advance dt => rfl

theorem qrun_core (es : List QEvent) (s t : QState) (h : s.core = t.core) :
    (qrun s es).map QState.core = (qrun t es).map QState.core := by
  induction es generalizing s t with
  | nil => simp [qrun, h]
  | cons e es ih =>
    have hstep : (qstep s e).map QState.core = (qstep t e).map QState.core := by
      rw [qstep_core s e, qstep_core t e, h]
    simp only [qrun]
    cases hs : qstep s e with
    | none =>
      cases ht : qstep t e with
      | none => rfl
      | some t1 => rw [hs, ht] at hstep; simp at hstep
    | some s1 =>
      cases ht : qstep t e with
      | none => rw [hs, ht] at hstep; simp at hstep
      | some t1 =>
        rw [hs, ht] at hstep
        simp only [Option.map_some', Option.some.injEq] at hstep
        simpa using ih s1 t1 hstep

/-! ## The request queue: results -/

/-- C1: in every run of the timed model (enqueues, completions with either
outcome, timer firings and passing of time, in any interleaving), any two
consecutive dispatches begin at least `RATE_LIMIT_DELAY = 1100` ms apart, and
the dispatch number `n + 1` begins no earlier than `n * 1100` ms after the
first dispatch began. -/
theorem dispatch_spacing (es : List QEvent) (s : QState)
    (h : qrun QState.init es = some s) :
    RATE_LIMIT_DELAY = 1100 ∧
    s.starts.Chain' (fun a b => a + 1100 ≤ b) ∧
    ∀ (n first nth : Nat), s.starts[0]? = some first → s.starts[n]? = some nth →
      first + n * 1100 ≤ nth := by
  have hinv := qreachable_inv ⟨es, h⟩
  have hch : s.starts.Chain' (fun a b => a + 1100 ≤ b) := hinv.1.spaced.chain'
  exact ⟨rfl, hch, spaced_nth 1100 s.starts hch⟩

/-- Witness of C1: three requests enqueued at time 0, the second failing; the
dispatches begin at 0, 1400 and 2600. -/
theorem dispatch_spacing_witness :
    RATE_LIMIT_DELAY = 1100 ∧
    [0, 1400, 2600].Chain' (fun a b => a + 1100 ≤ b) ∧
    ∀ (n first nth : Nat), [0, 1400, 2600][0]? = some first → [0, 1400, 2600][n]? = some nth →
      first + n * 1100 ≤ nth :=
  dispatch_spacing
    [.enqueue 7, .enqueue 8, .enqueue 9, .advance 300, .complete 0 (.response 3),
      .advance 1100, .timer 0, .complete 0 (.error 1), .advance 1200, .timer 0]
    { requestQueue := [], isProcessing := true, now := 2600,
      inflight := [{ config := 9, promise := 2 }], timers := [],
      enqueued := [{ config := 7, promise := 0 }, { config := 8, promise := 1 },
        { config := 9, promise := 2 }],
      dispatched := [({ config := 7, promise := 0 }, 0), ({ config := 8, promise := 1 }, 1400),
        ({ config := 9, promise := 2 }, 2600)],
      settled := [(0, .response 3), (1, .error 1)] }
    (by decide)

/-- C2: at every point of every run, the requests enqueued so far (the configs
of the `makeRequest` calls, in call order) are the requests dispatched so far
followed by the requests still waiting: the dispatched sequence is an initial
segment of the enqueued one, and no request is dispatched twice. -/
theorem dispatch_fifo (es : List QEvent) (s : QState)
    (h : qrun QState.init es = some s) :
    s.enqueued.map QueuedRequest.config = enqueuedConfigs es ∧
    s.enqueued = s.dispatched.map Prod.fst ++ s.requestQueue ∧
    (s.dispatched.map Prod.fst).Nodup := by
  have hinv := (qreachable_inv ⟨es, h⟩).1
  have hnd : (s.enqueued.map QueuedRequest.promise).Nodup := by
    rw [hinv.ids]
    exact List.nodup_range _
  have hnd2 : s.enqueued.Nodup := List.Nodup.of_map _ hnd
  refine ⟨by simpa [QState.init] using qrun_enqueued h, hinv.fifo, ?_⟩
  rw [hinv.fifo] at hnd2
  exact (List.nodup_append.mp hnd2).1

/-- Witness of C2: three requests, the first failing; two are dispatched, in
enqueue order, and the third waits. -/
theorem dispatch_fifo_witness :
    [7, 8, 9] = enqueuedConfigs [.enqueue 7, .enqueue 8, .complete 0 (.error 3),
      .enqueue 9, .advance 1100, .timer 0] ∧
    ([{ config := 7, promise := 0 }, { config := 8, promise := 1 },
        { config := 9, promise := 2 }] : List QueuedRequest)
      = [{ config := 7, promise := 0 }, { config := 8, promise := 1 }]
        ++ [{ config := 9, promise := 2 }] ∧
    ([{ config := 7, promise := 0 }, { config := 8, promise := 1 }] : List QueuedRequest).Nodup :=
  dispatch_fifo
    [.enqueue 7, .enqueue 8, .complete 0 (.error 3), .enqueue 9, .advance 1100, .timer 0]
    { requestQueue := [{ config := 9, promise := 2 }], isProcessing := true, now := 1100,
      inflight := [{ config := 8, promise := 1 }], timers := [],
      enqueued := [{ config := 7, promise := 0 }, { config := 8, promise := 1 },
        { config := 9, promise := 2 }],
      dispatched := [({ config := 7, promise := 0 }, 0), ({ config := 8, promise := 1 }, 1100)],
      settled := [(0, .error 3)] }
    (by decide)

theorem qstep_flag {s s' : QState} {e : QEvent} (hp : s.isProcessing = true)
    (he : ∀ j, e ≠ QEvent.timer j) (hs : qstep s e = some s') : s'.isProcessing = true := by
  cases e with
  | enqueue config =>
    simp only [qstep, Option.some.injEq] at hs
    subst hs
    simp [makeRequest, processQueue, hp]
  | complete i o =>
    simp only [qstep, complete] at hs
    split at hs
    · simp at hs
    · simp only [Option.some.injEq] at hs
      subst hs
      exact hp
  | timer j => exact absurd rfl (he j)
  | advance dt =>
    simp only [qstep, Option.some.injEq] at hs
    subst hs
    exact hp

/-- C3: in every reachable state at most one call is in flight, and only while
`isProcessing` is set; `processQueue` changes nothing when the FIFO is empty or
`isProcessing` is set; otherwise (a request waits and `isProcessing` is not
set) it sets `isProcessing`, removes the head and issues its call; and
`isProcessing` stays set across every event other than the firing of the
cooldown timer. -/
theorem single_flight (s : QState) :
    (QReachable s → s.inflight.length ≤ 1 ∧ (s.inflight ≠ [] → s.isProcessing = true)) ∧
    (s.requestQueue = [] ∨ s.isProcessing = true → processQueue s = s) ∧
    (∀ r rest, s.requestQueue = r :: rest → s.isProcessing = false →
      (processQueue s).isProcessing = true ∧ (processQueue s).requestQueue = rest ∧
      (processQueue s).inflight = s.inflight ++ [r] ∧
      (processQueue s).dispatched = s.dispatched ++ [(r, s.now)]) ∧
    (∀ e s', s.isProcessing = true → (∀ j, e ≠ QEvent.timer j) → qstep s e = some s' →
      s'.isProcessing = true) := by
  refine ⟨fun hr => ?_, fun h => ?_, fun r rest hq hp => ?_, fun e s' hp he hs => qstep_flag hp he hs⟩
  · have hl := (qreachable_inv hr).1.lane
    constructor
    · split at hl <;> omega
    · intro hne
      cases hb : s.isProcessing
      · simp only [hb, Bool.false_eq_true, if_false] at hl
        exact absurd (List.length_eq_zero.mp (by omega)) hne
      · rfl
  · unfold processQueue
    rcases h with h | h
    · simp [h]
    · simp [h]
  · simp [processQueue, hq, hp]

/-- Witness of C3: after two enqueues the first call is in flight, the second
request waits and `isProcessing` is set. -/
theorem single_flight_witness :
    ([{ config := 7, promise := 0 }] : List QueuedRequest).length ≤ 1 ∧
    (([{ config := 7, promise := 0 }] : List QueuedRequest) ≠ [] → true = true) :=
  (single_flight
    { requestQueue := [{ config := 8, promise := 1 }], isProcessing := true, now := 0,
      inflight := [{ config := 7, promise := 0 }], timers := [],
      enqueued := [{ config := 7, promise := 0 }, { config := 8, promise := 1 }],
      dispatched := [({ config := 7, promise := 0 }, 0)],
      settled := [] }).1 ⟨[.enqueue 7, .enqueue 8], by decide⟩

/-- C4: a rejected call leaves the queue as a resolved call does. From every
state and for every continuation of the run, completing the `i`-th call in
flight with an error or with a response gives the same state apart from the
record of settled promises; and the completion leaves the FIFO and
`isProcessing` as they were, removes the call and arms one timer due
`RATE_LIMIT_DELAY = 1100` ms later. -/
theorem failure_leaves_queue (s : QState) (i r e : Nat) (es : List QEvent) :
    (qrun s (.complete i (.response r) :: es)).map QState.core
      = (qrun s (.complete i (.error e) :: es)).map QState.core ∧
    (∀ c, s.inflight[i]? = some c →
      ∃ s', qstep s (.complete i (.error e)) = some s' ∧
        s'.requestQueue = s.requestQueue ∧ s'.isProcessing = s.isProcessing ∧
        s'.inflight = s.inflight.eraseIdx i ∧ s'.timers = s.timers ++ [s.now + 1100]) := by
  constructor
  · simp only [qrun, qstep, complete]
    cases s.inflight[i]? with
    | none => rfl
    | some c =>
      simp only [Option.some_bind]
      exact qrun_core es _ _ rfl
  · intro c hc
    simp [qstep, complete, hc, RATE_LIMIT_DELAY]

/-- Witness of C4: with one call in flight and one request waiting, failure and
success of the call followed by the cooldown both lead to the dispatch of the
waiting request at the same time. -/
theorem failure_leaves_queue_witness :
    (qrun (makeRequest (makeRequest QState.init 7) 8)
        [.complete 0 (.response 5), .advance 1100, .timer 0]).map QState.core
      = (qrun (makeRequest (makeRequest QState.init 7) 8)
        [.complete 0 (.error 3), .advance 1100, .timer 0]).map QState.core ∧
    (qrun (makeRequest (makeRequest QState.init 7) 8)
        [.complete 0 (.error 3), .advance 1100, .timer 0]).map QState.starts
      = some [0, 1100] :=
  ⟨(failure_leaves_queue (makeRequest (makeRequest QState.init 7) 8) 0 5 3
      [.advance 1100, .timer 0]).1, by decide⟩

/-- C5: in every reachable state no promise has been settled twice and no two
requests share a promise; the completion of a call in flight, with outcome `o`,
settles the promise of that call's own request with `o` (that promise was not
settled before) and no other promise; and no other event settles a promise. -/
theorem promise_settlement (s : QState) (h : QReachable s) :
    (s.settled.map Prod.fst).Nodup ∧
    (s.enqueued.map QueuedRequest.promise).Nodup ∧
    (∀ i c o, s.inflight[i]? = some c →
      c ∈ s.enqueued ∧ c.promise ∉ s.settled.map Prod.fst ∧
      ∃ s', qstep s (.complete i o) = some s' ∧ s'.settled = s.settled ++ [(c.promise, o)]) ∧
    (∀ e s', (∀ i o, e ≠ QEvent.complete i o) → qstep s e = some s' →
      s'.settled = s.settled) := by
  have hinv := (qreachable_inv h).1
  have hnd : (s.enqueued.map QueuedRequest.promise).Nodup := by
    rw [hinv.ids]
    exact List.nodup_range _
  have hnd2 : (s.settled.map Prod.fst ++ s.inflight.map QueuedRequest.promise).Nodup := by
    rw [← hinv.calls]
    have h1 := hnd
    rw [hinv.fifo, List.map_append, List.map_map] at h1
    exact (List.nodup_append.mp h1).1
  refine ⟨(List.nodup_append.mp hnd2).1, hnd, ?_, ?_⟩
  · intro i c o hc
    have hmem : c ∈ s.inflight := List.getElem?_mem hc
    refine ⟨?_, ?_, ?_⟩
    · rw [hinv.fifo]
      exact List.mem_append_left _ (hinv.issued c hmem)
    · intro hin
      exact (List.nodup_append.mp hnd2).2.2 hin (List.mem_map_of_mem _ hmem)
    · simp [qstep, complete, hc]
  · intro e s' he hs
    cases e with
    | enqueue config =>
      simp only [qstep, Option.some.injEq] at hs
      subst hs
      simp only [makeRequest, processQueue]
      split
      · rfl
      · split <;> rfl
    | complete i o => exact absurd rfl (he i o)
    | timer j =>
      simp only [qstep, timerFire] at hs
      split at hs
      · simp at hs
      · split at hs
        · simp only [Option.some.injEq] at hs
          subst hs
          simp only [processQueue]
          split
          · rfl
          · split <;> rfl
        · simp at hs
    | advance dt =>
      simp only [qstep, Option.some.injEq] at hs
      subst hs
      rfl

/-- Witness of C5: the first of two requests has failed and the second is in
flight; its promise 1 is not settled yet, and its completion settles promise
1, not promise 0. -/
theorem promise_settlement_witness :
    ([0] : List Nat).Nodup ∧ ([0, 1] : List Nat).Nodup ∧
    (qstep
      { requestQueue := [], isProcessing := true, now := 1100,
        inflight := [{ config := 8, promise := 1 }], timers := [],
        enqueued := [{ config := 7, promise := 0 }, { config := 8, promise := 1 }],
        dispatched := [({ config := 7, promise := 0 }, 0), ({ config := 8, promise := 1 }, 1100)],
        settled := [(0, .error 3)] }
      (.complete 0 (.response 5))).map QState.settled
      = some [(0, .error 3), (1, .response 5)] :=
  have h := promise_settlement
    { requestQueue := [], isProcessing := true, now := 1100,
      inflight := [{ config := 8, promise := 1 }], timers := [],
      enqueued := [{ config := 7, promise := 0 }, { config := 8, promise := 1 }],
      dispatched := [({ config := 7, promise := 0 }, 0), ({ config := 8, promise := 1 }, 1100)],
      settled := [(0, .error 3)] }
    ⟨[.enqueue 7, .enqueue 8, .complete 0 (.error 3), .advance 1100, .timer 0], by decide⟩
  ⟨h.1, h.2.1, by decide⟩

/-! ## Proofs: objects and lists of the store -/

theorem Props.lookup_assign (l : Props) (k : String) (v : JVal) (k' : String) :
    Props.lookup (Props.assign l k v) k' = if k' = k then some v else Props.lookup l k' := by
  induction l with
  | nil =>
    by_cases h : k' = k
    · simp [Props.assign, Props.lookup, h]
    · have h2 : ¬ k = k' := fun e => h e.symm
      simp [Props.assign, Props.lookup, h, h2]
  | cons a rest ih =>
    obtain ⟨k1, v1⟩ := a
    by_cases h1 : k1 = k
    · subst h1
      by_cases h : k' = k1
      · simp [Props.assign, Props.lookup, h]
      · have h2 : ¬ k1 = k' := fun e => h e.symm
        simp [Props.assign, Props.lookup, h, h2]
    · by_cases h : k1 = k'
      · subst h
        simp [Props.assign, Props.lookup, h1]
      · simp [Props.assign, Props.lookup, h1, h, ih]

theorem Props.lookup_eq_none (l : Props) (k : String) (h : k ∉ l.keys) :
    Props.lookup l k = none := by
  induction l with
  | nil => rfl
  | cons a rest ih =>
    obtain ⟨k1, v1⟩ := a
    simp only [Props.keys, List.map_cons, List.mem_cons, not_or] at h
    have h1 : ¬ k1 = k := fun e => h.1 e.symm
    simp only [Props.lookup, h1, if_false]
    exact ih h.2

theorem JObj.lookup_set (o : JObj) (k : String) (v : JVal) (k' : String) :
    (o.set k v).lookup k' = if k' = k then some v else o.lookup k' :=
  Props.lookup_assign o.1 k v k'

theorem JObj.lookup_foldl (l : Props) (hl : l.keys.Nodup) (target : JObj) (k : String) :
    (l.foldl (fun acc kv => acc.set kv.1 kv.2) target).lookup k
      = (match Props.lookup l k with
        | some v => some v
        | none => target.lookup k) := by
  induction l generalizing target with
  | nil => rfl
  | cons a rest ih =>
    obtain ⟨k1, v1⟩ := a
    simp only [Props.keys, List.map_cons, List.nodup_cons] at hl
    simp only [List.foldl_cons]
    rw [ih hl.2, JObj.lookup_set]
    by_cases h : k1 = k
    · subst h
      have hn : Props.lookup rest k1 = none := Props.lookup_eq_none rest k1 hl.1
      simp [Props.lookup, hn]
    · have h2 : ¬ k = k1 := fun e => h e.symm
      simp [Props.lookup, h, h2]

theorem JObj.lookup_spread (target src : JObj) (k : String) :
    (target.spread src).lookup k
      = (match src.lookup k with
        | some v => some v
        | none => target.lookup k) :=
  JObj.lookup_foldl src.1 src.2 target k

theorem JObj.lookup_empty (k : String) : JObj.empty.lookup k = none := rfl

theorem JObj.lookup_spreadOpt (target : JObj) (src : Option JObj) (k : String) :
    (target.spreadOpt src).lookup k
      = (match src.bind (fun o => o.lookup k) with
        | some v => some v
        | none => target.lookup k) := by
  cases src with
  | none => rfl
  | some o => exact JObj.lookup_spread target o k

theorem ByCategory.get_set_same {α : Type} (m : ByCategory α) (type : Category) (v : α) :
    (m.set type v).get type = v := by
  cases type <;> rfl

theorem ByCategory.get_set_other {α : Type} (m : ByCategory α) (type c : Category) (v : α)
    (h : c ≠ type) : (m.set type v).get c = m.get c := by
  cases type <;> cases c <;> first | rfl | exact absurd rfl h

theorem ByCategory.set_get_self {α : Type} (m : ByCategory α) (type : Category) :
    m.set type (m.get type) = m := by
  cases type <;> rfl

theorem findIndex_none {α : Type} (p : α → Bool) (l : List α) (h : ∀ x ∈ l, p x = false) :
    findIndex p l = -1 := by
  have : l.findIdx p = l.length := List.findIdx_eq_length.mpr h
  simp [findIndex, this]

theorem findIndex_first {α : Type} (p : α → Bool) (l : List α) (i : Nat) (e : α)
    (hi : l[i]? = some e) (hp : p e = true)
    (hfirst : ∀ j e2, j < i → l[j]? = some e2 → p e2 = false) :
    findIndex p l = (i : Int) := by
  obtain ⟨hlt, he⟩ := List.getElem?_eq_some.mp hi
  have : l.findIdx p = i := by
    rw [List.findIdx_eq hlt]
    refine ⟨by rw [he]; exact hp, fun j hji => ?_⟩
    exact hfirst j l[j] hji (List.getElem?_eq_getElem (by omega))
  simp [findIndex, this, hlt]

theorem upsertList_absent (list : List Item) (item : Item) (trackingData : Option JObj)
    (h : ∀ e ∈ list, e.mal_id ≠ item.mal_id) :
    upsertList list item trackingData = list ++ [{ item with trackingData := trackingData }] := by
  have hf : findIndex (fun i : Item => decide (i.mal_id = item.mal_id)) list = -1 :=
    findIndex_none _ _ (fun x hx => by simpa using h x hx)
  simp [upsertList, hf]

theorem upsertList_present (list : List Item) (item : Item) (trackingData : Option JObj)
    (i : Nat) (e : Item) (hi : list[i]? = some e) (he : e.mal_id = item.mal_id)
    (hfirst : ∀ j e2, j < i → list[j]? = some e2 → e2.mal_id ≠ item.mal_id) :
    upsertList list item trackingData
      = list.set i { e with
          trackingData := some ((JObj.empty.spreadOpt e.trackingData).spreadOpt trackingData) } := by
  have hf : findIndex (fun i : Item => decide (i.mal_id = item.mal_id)) list = (i : Int) :=
    findIndex_first _ _ i e hi (by simpa using he)
      (fun j e2 hj h2 => by simpa using hfirst j e2 hj h2)
  obtain ⟨hlt, hget⟩ := List.getElem?_eq_some.mp hi
  have hpos : (i : Int) > -1 := by omega
  simp only [upsertList, hf, hpos, if_true]
  apply List.ext_getElem?
  intro n
  rw [List.getElem?_mapIdx, List.getElem?_set]
  by_cases hn : i = n
  · subst hn
    simp [hi, hlt]
  · have hn2 : ¬ (n : Int) = (i : Int) := fun h => hn (by omega)
    simp only [hn, if_false, hn2]
    cases list[n]? <;> rfl

theorem upsertList_ids (list : List Item) (item : Item) (trackingData : Option JObj) :
    (upsertList list item trackingData).map Item.mal_id
      = if item.mal_id ∈ list.map Item.mal_id then list.map Item.mal_id
        else list.map Item.mal_id ++ [item.mal_id] := by
  by_cases h : item.mal_id ∈ list.map Item.mal_id
  · simp only [h, if_true]
    unfold upsertList
    simp only
    split
    · apply List.ext_getElem?
      intro n
      simp only [List.getElem?_map, List.getElem?_mapIdx]
      cases list[n]? with
      | none => rfl
      | some x =>
        simp only [Option.map_some', Option.some.injEq]
        split <;> rfl
    · next hneg =>
      exfalso
      apply hneg
      obtain ⟨x, hx, hxe⟩ := List.mem_map.mp h
      have hlt : list.findIdx (fun i : Item => decide (i.mal_id = item.mal_id)) < list.length :=
        List.findIdx_lt_length.mpr ⟨x, hx, by simpa using hxe⟩
      simp only [findIndex, hlt, if_true]
      omega
  · simp only [h, if_false]
    rw [upsertList_absent]
    · simp
    · intro e he hid
      exact h (List.mem_map.mpr ⟨e, he, hid⟩)

theorem mapThrowing_forall₂ {α β : Type} (f : α → Except String β) (R : α → β → Prop)
    (l : List α) (h : ∀ a ∈ l, ∃ b, f a = .ok b ∧ R a b) :
    ∃ l', mapThrowing f l = .ok l' ∧ List.Forall₂ R l l' := by
  induction l with
  | nil => exact ⟨[], rfl, List.Forall₂.nil⟩
  | cons a rest ih =>
    obtain ⟨b, hb, hr⟩ := h a (List.mem_cons_self a rest)
    obtain ⟨bs, hbs, hrs⟩ := ih (fun x hx => h x (List.mem_cons_of_mem a hx))
    exact ⟨b :: bs, by simp [mapThrowing, hb, hbs], List.Forall₂.cons hr hrs⟩

theorem mapThrowing_id {α : Type} (f : α → Except String α) (l : List α)
    (h : ∀ a ∈ l, f a = .ok a) : mapThrowing f l = .ok l := by
  induction l with
  | nil => rfl
  | cons a rest ih =>
    have ha := h a (List.mem_cons_self a rest)
    have hr := ih (fun x hx => h x (List.mem_cons_of_mem a hx))
    simp [mapThrowing, ha, hr]

theorem updateItem_ok (id : Int) (status progress : JVal) (e : Item)
    (h : e.mal_id = id → e.trackingData ≠ none) :
    ∃ e', updateItem id status progress e = .ok e' ∧
      (e.mal_id ≠ id → e' = e) ∧
      (e.mal_id = id → e'.mal_id = e.mal_id ∧ e'.fields = e.fields ∧
        ∃ td td', e.trackingData = some td ∧ e'.trackingData = some td' ∧
          td'.get "status" = (if status = JVal.undefined then td.get "status" else status) ∧
          td'.get "progress"
            = (if progress = JVal.undefined then td.get "progress" else progress) ∧
          ∀ k, k ≠ "status" → k ≠ "progress" → td'.lookup k = td.lookup k) := by
  by_cases hid : e.mal_id = id
  · obtain ⟨td, htd⟩ : ∃ td, e.trackingData = some td := by
      cases hx : e.trackingData with
      | none => exact absurd hx (h hid)
      | some td => exact ⟨td, rfl⟩
    have hsp : "status" ≠ "progress" := by decide
    refine ⟨{ e with
        trackingData := some (((JObj.empty.spread td).set "status"
          (if status = JVal.undefined then td.get "status" else status)).set "progress"
          (if progress = JVal.undefined then td.get "progress" else progress)) }, ?_,
      fun h1 => absurd hid h1, fun _ => ⟨rfl, rfl, td, _, htd, rfl, ?_, ?_, ?_⟩⟩
    · by_cases hs : status = JVal.undefined <;> by_cases hp : progress = JVal.undefined <;>
        simp [updateItem, hid, readTracking, htd, hs, hp, JObj.spreadOpt]
    · simp [JObj.get, JObj.lookup_set, hsp]
    · simp [JObj.get, JObj.lookup_set]
    · intro k hk1 hk2
      simp only [JObj.lookup_set, hk1, hk2, if_false, JObj.lookup_spread, JObj.lookup_empty]
      cases td.lookup k <;> rfl
  · exact ⟨e, by simp [updateItem, hid], fun _ => rfl, fun h1 => absurd h1 hid⟩

/-! ## The store: results -/

/-- C6: `UPSERT_LIST_ITEM` with `(type, item, trackingData)`. When the first
entry of `myList[type]` whose `mal_id` equals `item.mal_id` is entry `i`, the
new list is the old one with the `trackingData` of entry `i` replaced by the
shallow merge of its previous `trackingData` with the new one (a property
absent from the new `trackingData` keeps its previous value, a property present
takes the new value). When no entry has that `mal_id`, the new list is the old
one followed by `{ ...item, trackingData }`. -/
theorem upsert_merges_or_appends (s : AppState) (type : Category) (item : Item)
    (trackingData : Option JObj) :
    ∃ s', appReducer s (.UPSERT_LIST_ITEM type item trackingData) = .ok s' ∧
      (∀ i e, (s.myList.get type)[i]? = some e → e.mal_id = item.mal_id →
        (∀ j e2, j < i → (s.myList.get type)[j]? = some e2 → e2.mal_id ≠ item.mal_id) →
        ∃ merged : JObj,
          s'.myList.get type = (s.myList.get type).set i { e with trackingData := some merged } ∧
          ∀ k, merged.lookup k =
            (match trackingData.bind (fun o => o.lookup k) with
            | some v => some v
            | none => e.trackingData.bind (fun o => o.lookup k))) ∧
      ((∀ e ∈ s.myList.get type, e.mal_id ≠ item.mal_id) →
        s'.myList.get type = s.myList.get type ++ [{ item with trackingData := trackingData }]) := by
  refine ⟨_, rfl, ?_, ?_⟩
  · intro i e hi he hfirst
    refine ⟨(JObj.empty.spreadOpt e.trackingData).spreadOpt trackingData, ?_, ?_⟩
    · simp only [ByCategory.get_set_same]
      exact upsertList_present _ item trackingData i e hi he hfirst
    · intro k
      rw [JObj.lookup_spreadOpt, JObj.lookup_spreadOpt, JObj.lookup_empty]
      cases trackingData.bind (fun o => o.lookup k) with
      | some v => rfl
      | none =>
        simp only
        cases e.trackingData.bind (fun o => o.lookup k) <;> rfl
  · intro h
    simp only [ByCategory.get_set_same]
    exact upsertList_absent _ item trackingData h

/-- Witness of C6: with one entry of `mal_id` 1 in `myList.anime`, upserting an
item of `mal_id` 2 appends it with the given tracking data; and upserting
`{ status: 'Completed' }` for `mal_id` 1 onto
`{ status: 'Watching', progress: 3 }` gives
`{ status: 'Completed', progress: 3 }`. -/
theorem upsert_merges_or_appends_witness :
    (∃ s', appReducer
        { initialState with
          myList := initialState.myList.set .anime
            [{ mal_id := 1, fields := JObj.empty, trackingData := none }] }
        (.UPSERT_LIST_ITEM .anime { mal_id := 2, fields := JObj.empty, trackingData := none }
          (some (JObj.ofList [("status", .str "Watching"), ("progress", .num 3)]))) = .ok s' ∧
      s'.myList.get .anime
        = [{ mal_id := 1, fields := JObj.empty, trackingData := none }] ++
          [{ mal_id := 2, fields := JObj.empty,
             trackingData := some (JObj.ofList [("status", .str "Watching"), ("progress", .num 3)]) }]) ∧
    appReducer
        { initialState with
          myList := initialState.myList.set .anime
            [{ mal_id := 1, fields := JObj.empty,
               trackingData := some (JObj.ofList [("status", .str "Watching"), ("progress", .num 3)]) }] }
        (.UPSERT_LIST_ITEM .anime { mal_id := 1, fields := JObj.empty, trackingData := none }
          (some (JObj.ofList [("status", .str "Completed")])))
      = .ok
        { initialState with
          myList := initialState.myList.set .anime
            [{ mal_id := 1, fields := JObj.empty,
               trackingData := some (JObj.ofList [("status", .str "Completed"), ("progress", .num 3)]) }] } :=
  ⟨(upsert_merges_or_appends
      { initialState with
        myList := initialState.myList.set .anime
          [{ mal_id := 1, fields := JObj.empty, trackingData := none }] }
      .anime { mal_id := 2, fields := JObj.empty, trackingData := none }
      (some (JObj.ofList [("status", .str "Watching"), ("progress", .num 3)]))).imp
      fun _ h => ⟨h.1, h.2.2 (by decide)⟩,
    rfl⟩

/-- C7: when `myList[type]` has at most one entry per `mal_id`, the list after
`UPSERT_LIST_ITEM` still has at most one entry per `mal_id`, and exactly one
entry with `item.mal_id`. -/
theorem upsert_unique (s : AppState) (type : Category) (item : Item)
    (trackingData : Option JObj) (h : ((s.myList.get type).map Item.mal_id).Nodup) :
    ∃ s', appReducer s (.UPSERT_LIST_ITEM type item trackingData) = .ok s' ∧
      ((s'.myList.get type).map Item.mal_id).Nodup ∧
      (s'.myList.get type).countP (fun e => decide (e.mal_id = item.mal_id)) = 1 := by
  refine ⟨_, rfl, ?_⟩
  simp only [ByCategory.get_set_same]
  have hcount : ∀ l : List Item,
      l.countP (fun e => decide (e.mal_id = item.mal_id)) = (l.map Item.mal_id).count item.mal_id := by
    intro l
    rw [List.count_eq_countP, List.countP_map]
    apply List.countP_congr
    intro x _
    simp
  rw [hcount, upsertList_ids]
  split
  · next hmem => exact ⟨h, List.count_eq_one_of_mem h hmem⟩
  · next hmem =>
    constructor
    · rw [List.nodup_append]
      refine ⟨h, List.nodup_singleton _, ?_⟩
      intro a ha hb
      simp only [List.mem_singleton] at hb
      exact hmem (hb ▸ ha)
    · rw [List.count_append, List.count_eq_zero.mpr hmem]
      simp

/-- Witness of C7: a list with the `mal_id`s 1 and 2, and an upsert of 2. -/
theorem upsert_unique_witness :
    ∃ s', appReducer
        { initialState with
          myList := initialState.myList.set .anime
            [{ mal_id := 1, fields := JObj.empty, trackingData := none },
             { mal_id := 2, fields := JObj.empty, trackingData := none }] }
        (.UPSERT_LIST_ITEM .anime { mal_id := 2, fields := JObj.empty, trackingData := none }
          (some (JObj.ofList [("status", .str "Completed")]))) = .ok s' ∧
      ((s'.myList.get .anime).map Item.mal_id).Nodup ∧
      (s'.myList.get .anime).countP (fun e => decide (e.mal_id = 2)) = 1 :=
  upsert_unique
    { initialState with
      myList := initialState.myList.set .anime
        [{ mal_id := 1, fields := JObj.empty, trackingData := none },
         { mal_id := 2, fields := JObj.empty, trackingData := none }] }
    .anime { mal_id := 2, fields := JObj.empty, trackingData := none }
    (some (JObj.ofList [("status", .str "Completed")])) (by decide)

/-- C8: `UPDATE_ITEM_STATUS` on a list whose entries with the given `id` all
have tracking data succeeds; favorites, search history, dark mode, loading,
error, the modal and the lists of the other categories are unchanged; the list
keeps its length and order; an entry with another `mal_id` is unchanged; an
entry with the given `id` keeps its `mal_id` and its other properties, its
`status` is the supplied one when one is supplied (not `undefined`) and the
previous one otherwise, likewise for `progress`, and every other property of
its tracking data is unchanged. -/
theorem update_status_frame (s : AppState) (type : Category) (id : Int)
    (status progress : JVal)
    (h : ∀ e ∈ s.myList.get type, e.mal_id = id → e.trackingData ≠ none) :
    ∃ s', appReducer s (.UPDATE_ITEM_STATUS type id status progress) = .ok s' ∧
      s'.favorites = s.favorites ∧ s'.searchHistory = s.searchHistory ∧
      s'.darkMode = s.darkMode ∧ s'.loading = s.loading ∧ s'.error = s.error ∧
      s'.statusModal = s.statusModal ∧
      (∀ c, c ≠ type → s'.myList.get c = s.myList.get c) ∧
      List.Forall₂
        (fun e e' =>
          (e.mal_id ≠ id → e' = e) ∧
          (e.mal_id = id → e'.mal_id = e.mal_id ∧ e'.fields = e.fields ∧
            ∃ td td', e.trackingData = some td ∧ e'.trackingData = some td' ∧
              td'.get "status" = (if status = JVal.undefined then td.get "status" else status) ∧
              td'.get "progress"
                = (if progress = JVal.undefined then td.get "progress" else progress) ∧
              ∀ k, k ≠ "status" → k ≠ "progress" → td'.lookup k = td.lookup k))
        (s.myList.get type) (s'.myList.get type) := by
  obtain ⟨l', hl', hrel⟩ := mapThrowing_forall₂ (updateItem id status progress) _
    (s.myList.get type) (fun e he => updateItem_ok id status progress e (h e he))
  refine ⟨{ s with myList := s.myList.set type l' }, by simp [appReducer, hl'],
    rfl, rfl, rfl, rfl, rfl, rfl, fun c hc => ByCategory.get_set_other _ _ _ _ hc, ?_⟩
  simp only [ByCategory.get_set_same]
  exact hrel

/-- Witness of C8: an entry `{ status: 'Watching', progress: 3 }` updated with
`{ progress: 4 }` becomes `{ status: 'Watching', progress: 4 }`, and the
favorites are untouched. -/
theorem update_status_frame_witness :
    appReducer
        { initialState with
          myList := initialState.myList.set .anime
            [{ mal_id := 1, fields := JObj.ofList [("episodes", .num 12)],
               trackingData := some (JObj.ofList [("status", .str "Watching"), ("progress", .num 3)]) }] }
        (.UPDATE_ITEM_STATUS .anime 1 .undefined (.num 4))
      = .ok
        { initialState with
          myList := initialState.myList.set .anime
            [{ mal_id := 1, fields := JObj.ofList [("episodes", .num 12)],
               trackingData := some (JObj.ofList [("status", .str "Watching"), ("progress", .num 4)]) }] } ∧
    ∃ s', appReducer
        { initialState with
          myList := initialState.myList.set .anime
            [{ mal_id := 1, fields := JObj.ofList [("episodes", .num 12)],
               trackingData := some (JObj.ofList [("status", .str "Watching"), ("progress", .num 3)]) }] }
        (.UPDATE_ITEM_STATUS .anime 1 .undefined (.num 4)) = .ok s' ∧
      s'.favorites = initialState.favorites :=
  ⟨rfl,
    (update_status_frame
      { initialState with
        myList := initialState.myList.set .anime
          [{ mal_id := 1, fields := JObj.ofList [("episodes", .num 12)],
             trackingData := some (JObj.ofList [("status", .str "Watching"), ("progress", .num 3)]) }] }
      .anime 1 .undefined (.num 4) (by decide)).imp fun _ h => ⟨h.1, h.2.1⟩⟩

/-- C9: `UPDATE_ITEM_STATUS` with an `id` that no entry of `myList[type]` has
does not throw and returns a state equal to the input state, whatever `status`
and `progress` are; in particular `myList`, `favorites`, `searchHistory`,
`darkMode` and `statusModal` are those of the input state. -/
theorem update_status_absent (s : AppState) (type : Category) (id : Int)
    (status progress : JVal) (h : ∀ e ∈ s.myList.get type, e.mal_id ≠ id) :
    appReducer s (.UPDATE_ITEM_STATUS type id status progress) = .ok s ∧
    ∀ s', appReducer s (.UPDATE_ITEM_STATUS type id status progress) = .ok s' →
      s'.myList = s.myList ∧ s'.favorites = s.favorites ∧
      s'.searchHistory = s.searchHistory ∧ s'.darkMode = s.darkMode ∧
      s'.statusModal = s.statusModal := by
  have hmap : mapThrowing (updateItem id status progress) (s.myList.get type)
      = .ok (s.myList.get type) :=
    mapThrowing_id _ _ (fun e he => by simp [updateItem, h e he])
  have hok : appReducer s (.UPDATE_ITEM_STATUS type id status progress) = .ok s := by
    simp [appReducer, hmap, ByCategory.set_get_self]
  refine ⟨hok, fun s' hs' => ?_⟩
  rw [hok] at hs'
  cases hs'
  exact ⟨rfl, rfl, rfl, rfl, rfl⟩

/-- Witness of C9: an update for `mal_id` 5 on a list that holds only `mal_id`
1, an entry without tracking data. -/
theorem update_status_absent_witness :
    appReducer
        { initialState with
          myList := initialState.myList.set .characters
            [{ mal_id := 1, fields := JObj.empty, trackingData := none }] }
        (.UPDATE_ITEM_STATUS .characters 5 (.str "Completed") .undefined)
      = .ok
        { initialState with
          myList := initialState.myList.set .characters
            [{ mal_id := 1, fields := JObj.empty, trackingData := none }] } :=
  (update_status_absent
    { initialState with
      myList := initialState.myList.set .characters
        [{ mal_id := 1, fields := JObj.empty, trackingData := none }] }
    .characters 5 (.str "Completed") .undefined (by decide)).1

/-- C10: `REMOVE_FROM_LIST` and `REMOVE_FROM_FAVORITES` give exactly the
previous entries whose `mal_id` differs from `id`, in their previous order;
afterwards `isInList` / `isInFavorites` of `(type, id)` is false; and removing
an `id` that is not present returns the input state. -/
theorem remove_filters (s : AppState) (type : Category) (id : Int) :
    (∃ s', appReducer s (.REMOVE_FROM_LIST type id) = .ok s' ∧
      s'.myList.get type = (s.myList.get type).filter (fun e => decide (e.mal_id ≠ id)) ∧
      (s'.myList.get type).Sublist (s.myList.get type) ∧
      (∀ e, e ∈ s'.myList.get type ↔ e ∈ s.myList.get type ∧ e.mal_id ≠ id) ∧
      isInList s' type id = false ∧
      (isInList s type id = false → s' = s)) ∧
    (∃ s', appReducer s (.REMOVE_FROM_FAVORITES type id) = .ok s' ∧
      s'.favorites.get type = (s.favorites.get type).filter (fun e => decide (e.mal_id ≠ id)) ∧
      (s'.favorites.get type).Sublist (s.favorites.get type) ∧
      (∀ e, e ∈ s'.favorites.get type ↔ e ∈ s.favorites.get type ∧ e.mal_id ≠ id) ∧
      isInFavorites s' type id = false ∧
      (isInFavorites s type id = false → s' = s)) := by
  have hany : ∀ l : List Item,
      (l.filter (fun e => decide (e.mal_id ≠ id))).any (fun item => decide (item.mal_id = id))
        = false := by
    intro l
    rw [List.any_eq_false]
    intro x hx
    have := (List.mem_filter.mp hx).2
    simpa using this
  have hself : ∀ l : List Item, l.any (fun item => decide (item.mal_id = id)) = false →
      l.filter (fun e => decide (e.mal_id ≠ id)) = l := by
    intro l hl
    rw [List.filter_eq_self]
    intro a ha
    have := List.any_eq_false.mp hl a ha
    simpa using this
  constructor
  · refine ⟨_, rfl, by simp only [ByCategory.get_set_same], ?_, ?_, ?_, ?_⟩
    · simp only [ByCategory.get_set_same]
      exact List.filter_sublist _
    · intro e
      simp only [ByCategory.get_set_same, List.mem_filter, decide_eq_true_eq]
    · simp only [isInList, ByCategory.get_set_same]
      exact hany _
    · intro hin
      simp only [isInList] at hin
      simp only [hself _ hin, ByCategory.set_get_self]
  · refine ⟨_, rfl, by simp only [ByCategory.get_set_same], ?_, ?_, ?_, ?_⟩
    · simp only [ByCategory.get_set_same]
      exact List.filter_sublist _
    · intro e
      simp only [ByCategory.get_set_same, List.mem_filter, decide_eq_true_eq]
    · simp only [isInFavorites, ByCategory.get_set_same]
      exact hany _
    · intro hin
      simp only [isInFavorites] at hin
      simp only [hself _ hin, ByCategory.set_get_self]

/-- Witness of C10: removing `mal_id` 1 from the list 1, 2, 1 leaves the entry
2. -/
theorem remove_filters_witness :
    ∃ s', appReducer
        { initialState with
          myList := initialState.myList.set .anime
            [{ mal_id := 1, fields := JObj.empty, trackingData := none },
             { mal_id := 2, fields := JObj.empty, trackingData := none },
             { mal_id := 1, fields := JObj.empty, trackingData := none }] }
        (.REMOVE_FROM_LIST .anime 1) = .ok s' ∧
      s'.myList.get .anime = [{ mal_id := 2, fields := JObj.empty, trackingData := none }] ∧
      isInList s' .anime 1 = false :=
  (remove_filters
    { initialState with
      myList := initialState.myList.set .anime
        [{ mal_id := 1, fields := JObj.empty, trackingData := none },
         { mal_id := 2, fields := JObj.empty, trackingData := none },
         { mal_id := 1, fields := JObj.empty, trackingData := none }] }
    .anime 1).1.imp fun _ h => ⟨h.1, h.2.1.trans (by decide), h.2.2.2.2.1⟩

/-! ## Proofs: lookups after an addition, search history -/

theorem upsertList_tracked (list : List Item) (item : Item) (trackingData : Option JObj)
    (h : ∀ e ∈ list, e.mal_id = item.mal_id → e.trackingData ≠ none)
    (htd : trackingData ≠ none) :
    ∀ e ∈ upsertList list item trackingData, e.mal_id = item.mal_id → e.trackingData ≠ none := by
  intro e he hid
  unfold upsertList at he
  simp only at he
  split at he
  · obtain ⟨i, hi, hfe⟩ := List.mem_mapIdx.mp he
    split at hfe
    · rw [← hfe]
      simp
    · rw [← hfe] at hid ⊢
      exact h _ (List.getElem_mem hi) hid
  · rcases List.mem_append.mp he with h1 | h1
    · exact h e h1 hid
    · simp only [List.mem_singleton] at h1
      rw [h1]
      exact htd

theorem mapThrowing_mem {α β : Type} (f : α → Except String β) (l : List α) (l' : List β)
    (h : mapThrowing f l = .ok l') (a : α) (ha : a ∈ l) : ∃ b ∈ l', f a = .ok b := by
  induction l generalizing l' with
  | nil => simp at ha
  | cons x rest ih =>
    simp only [mapThrowing] at h
    cases hx : f x with
    | error e => simp [hx] at h
    | ok b =>
      cases hr : mapThrowing f rest with
      | error e => simp [hx, hr] at h
      | ok bs =>
        simp only [hx, hr, Except.ok.injEq] at h
        subst h
        rcases List.mem_cons.mp ha with h1 | h1
        · subst h1
          exact ⟨b, List.mem_cons_self _ _, hx⟩
        · obtain ⟨b', hb', hfb⟩ := ih bs hr h1
          exact ⟨b', List.mem_cons_of_mem _ hb', hfb⟩

theorem updateItem_result (id : Int) (status progress : JVal) (e e' : Item)
    (h : updateItem id status progress e = .ok e') (hid : e.mal_id = id) :
    e'.mal_id = id ∧ ∃ td, e'.trackingData = some td ∧
      (status ≠ JVal.undefined → td.get "status" = status) ∧
      (progress ≠ JVal.undefined → td.get "progress" = progress) := by
  have hsp : "status" ≠ "progress" := by decide
  simp only [updateItem, hid, if_true] at h
  split at h
  · simp at h
  · next st hst =>
    split at h
    · simp at h
    · next pr hpr =>
      simp only [Except.ok.injEq] at h
      subst h
      refine ⟨rfl, _, rfl, fun hs => ?_, fun hp => ?_⟩
      · simp only [hs, ne_eq, not_false_eq_true, if_true, Except.ok.injEq] at hst
        simp [JObj.get, JObj.lookup_set, hsp, hst]
      · simp only [hp, ne_eq, not_false_eq_true, if_true, Except.ok.injEq] at hpr
        simp [JObj.get, JObj.lookup_set, hpr]

theorem updateItem_defined (id : Int) (status progress : JVal) (e : Item)
    (hs : status ≠ JVal.undefined) (hp : progress ≠ JVal.undefined) :
    ∃ e', updateItem id status progress e = .ok e' := by
  by_cases hid : e.mal_id = id
  · exact ⟨_, by simp [updateItem, hid, hs, hp]; rfl⟩
  · exact ⟨e, by simp [updateItem, hid]⟩

theorem update_finds (s : AppState) (type : Category) (id : Int) (status progress : JVal)
    (hin : isInList s type id = true) :
    (∀ s', appReducer s (.UPDATE_ITEM_STATUS type id status progress) = .ok s' →
      ∃ e ∈ s'.myList.get type, e.mal_id = id ∧ ∃ td, e.trackingData = some td ∧
        (status ≠ JVal.undefined → td.get "status" = status) ∧
        (progress ≠ JVal.undefined → td.get "progress" = progress)) ∧
    (status ≠ JVal.undefined → progress ≠ JVal.undefined →
      ∃ s', appReducer s (.UPDATE_ITEM_STATUS type id status progress) = .ok s') ∧
    ((∀ e ∈ s.myList.get type, e.mal_id = id → e.trackingData ≠ none) →
      ∃ s', appReducer s (.UPDATE_ITEM_STATUS type id status progress) = .ok s') := by
  refine ⟨fun s' hs' => ?_, fun hs hp => ?_, fun htd => ?_⟩
  · simp only [appReducer] at hs'
    split at hs'
    · simp at hs'
    · next newList hmap =>
      simp only [Except.ok.injEq] at hs'
      subst hs'
      simp only [isInList] at hin
      obtain ⟨e, he, hid⟩ := List.any_eq_true.mp hin
      have hid' : e.mal_id = id := by simpa using hid
      obtain ⟨e', he', hfe⟩ := mapThrowing_mem _ _ _ hmap e he
      obtain ⟨h1, td, h2, h3, h4⟩ := updateItem_result id status progress e e' hfe hid'
      exact ⟨e', by simpa [ByCategory.get_set_same] using he', h1, td, h2, h3, h4⟩
  · obtain ⟨l', hl', _⟩ := mapThrowing_forall₂ (updateItem id status progress)
      (fun _ _ => True) (s.myList.get type)
      (fun e _ => (updateItem_defined id status progress e hs hp).imp fun _ h => ⟨h, trivial⟩)
    exact ⟨_, by simp [appReducer, hl']; rfl⟩
  · obtain ⟨l', hl', _⟩ := mapThrowing_forall₂ (updateItem id status progress)
      (fun _ _ => True) (s.myList.get type)
      (fun e he => (updateItem_ok id status progress e (htd e he)).imp fun _ h => ⟨h.1, trivial⟩)
    exact ⟨_, by simp [appReducer, hl']; rfl⟩

theorem isInList_upsert (s : AppState) (type : Category) (item : Item)
    (trackingData : Option JObj) :
    isInList
      { s with
        myList := s.myList.set type (upsertList (s.myList.get type) item trackingData) }
      type item.mal_id = true := by
  simp only [isInList, ByCategory.get_set_same]
  have hmem : item.mal_id ∈ (upsertList (s.myList.get type) item trackingData).map Item.mal_id := by
    rw [upsertList_ids]
    split
    · assumption
    · simp
  obtain ⟨e, he, hid⟩ := List.mem_map.mp hmem
  exact List.any_eq_true.mpr ⟨e, he, by simpa using hid⟩

/-! ## Lookups after an addition, search history: results -/

/-- C11: `isInList` is false for every category and identity in the initial
state. In the state after `ADD_TO_LIST` or `UPSERT_LIST_ITEM` of an item,
`isInList(type, item.mal_id)` is true, and a following `UPDATE_ITEM_STATUS` for
that identity works on that state: when it returns, an entry with the identity
carries the supplied status and progress; it returns whenever both status and
progress are supplied, and, after an upsert with tracking data onto a list
whose entries with that identity all have tracking data, for every update. -/
theorem tracked_after_add (s : AppState) (type : Category) (item : Item)
    (trackingData : Option JObj) (id : Int) (status progress : JVal) :
    isInList initialState type id = false ∧
    (∃ s', appReducer s (.ADD_TO_LIST type item) = .ok s' ∧
      isInList s' type item.mal_id = true ∧
      (∀ s'', appReducer s' (.UPDATE_ITEM_STATUS type item.mal_id status progress) = .ok s'' →
        ∃ e ∈ s''.myList.get type, e.mal_id = item.mal_id ∧ ∃ td, e.trackingData = some td ∧
          (status ≠ JVal.undefined → td.get "status" = status) ∧
          (progress ≠ JVal.undefined → td.get "progress" = progress)) ∧
      (status ≠ JVal.undefined → progress ≠ JVal.undefined →
        ∃ s'', appReducer s' (.UPDATE_ITEM_STATUS type item.mal_id status progress) = .ok s'')) ∧
    (∃ s', appReducer s (.UPSERT_LIST_ITEM type item trackingData) = .ok s' ∧
      isInList s' type item.mal_id = true ∧
      (∀ s'', appReducer s' (.UPDATE_ITEM_STATUS type item.mal_id status progress) = .ok s'' →
        ∃ e ∈ s''.myList.get type, e.mal_id = item.mal_id ∧ ∃ td, e.trackingData = some td ∧
          (status ≠ JVal.undefined → td.get "status" = status) ∧
          (progress ≠ JVal.undefined → td.get "progress" = progress)) ∧
      (status ≠ JVal.undefined → progress ≠ JVal.undefined →
        ∃ s'', appReducer s' (.UPDATE_ITEM_STATUS type item.mal_id status progress) = .ok s'') ∧
      (trackingData ≠ none →
        (∀ e ∈ s.myList.get type, e.mal_id = item.mal_id → e.trackingData ≠ none) →
        ∃ s'', appReducer s' (.UPDATE_ITEM_STATUS type item.mal_id status progress) = .ok s'')) := by
  refine ⟨?_, ?_, ?_⟩
  · cases type <;> rfl
  · have hin : isInList { s with myList := s.myList.set type (s.myList.get type ++ [item]) }
        type item.mal_id = true := by
      simp [isInList, ByCategory.get_set_same]
    have hf := update_finds _ type item.mal_id status progress hin
    exact ⟨_, rfl, hin, hf.1, hf.2.1⟩
  · have hin := isInList_upsert s type item trackingData
    have hf := update_finds _ type item.mal_id status progress hin
    refine ⟨_, rfl, hin, hf.1, hf.2.1, fun htd hall => hf.2.2 ?_⟩
    simp only [ByCategory.get_set_same]
    exact upsertList_tracked _ item trackingData hall htd

/-- Witness of C11: from the initial state, the upsert of an item with
`mal_id` 1 and `{ status: 'Watching', progress: 3 }` makes `isInList` true, and
the following update `{ progress: 4 }` changes that entry. -/
theorem tracked_after_add_witness :
    (∃ s', appReducer initialState
        (.UPSERT_LIST_ITEM .anime { mal_id := 1, fields := JObj.empty, trackingData := none }
          (some (JObj.ofList [("status", .str "Watching"), ("progress", .num 3)]))) = .ok s' ∧
      isInList s' .anime 1 = true) ∧
    dispatchAll initialState
        [.UPSERT_LIST_ITEM .anime { mal_id := 1, fields := JObj.empty, trackingData := none }
          (some (JObj.ofList [("status", .str "Watching"), ("progress", .num 3)])),
         .UPDATE_ITEM_STATUS .anime 1 .undefined (.num 4)]
      = .ok
        { initialState with
          myList := initialState.myList.set .anime
            [{ mal_id := 1, fields := JObj.empty,
               trackingData := some (JObj.ofList [("status", .str "Watching"), ("progress", .num 4)]) }] } :=
  ⟨(tracked_after_add initialState .anime
      { mal_id := 1, fields := JObj.empty, trackingData := none }
      (some (JObj.ofList [("status", .str "Watching"), ("progress", .num 3)]))
      1 .undefined (.num 4)).2.2.imp fun _ h => ⟨h.1, h.2.1⟩,
    rfl⟩

/-- One call of `addToSearchHistory` on a context value rendered with the
state the reducer holds: for a non-empty query `q`, the state gets `q` followed
by the first 9 entries of the old history when `q` is not an element of
`searchHistory`, and stays as it is when `q` is an element. A second call on the
context value of the next render changes nothing. -/
theorem addToSearchHistory_rendered (state : AppState) (q : String) (hq : q ≠ "") :
    (q ∉ state.searchHistory →
      dispatchAll state (addToSearchHistory state q)
        = .ok { state with searchHistory := q :: state.searchHistory.take 9 }) ∧
    (q ∈ state.searchHistory → dispatchAll state (addToSearchHistory state q) = .ok state) ∧
    (∃ s', dispatchAll state (addToSearchHistory state q) = .ok s' ∧
      dispatchAll s' (addToSearchHistory s' q) = .ok s') := by
  by_cases hmem : q ∈ state.searchHistory
  · have h1 : dispatchAll state (addToSearchHistory state q) = .ok state := by
      simp [addToSearchHistory, hmem, dispatchAll]
    exact ⟨fun h => absurd hmem h, fun _ => h1, state, h1, h1⟩
  · have h1 : dispatchAll state (addToSearchHistory state q)
        = .ok { state with searchHistory := q :: state.searchHistory.take 9 } := by
      simp [addToSearchHistory, hmem, hq, appReducer, dispatchAll]
    refine ⟨fun _ => h1, fun h => absurd h hmem, _, h1, ?_⟩
    simp [addToSearchHistory, dispatchAll]

/-- C12, the code at the failing input: two calls `addToSearchHistory('Naruto')`
on one context value, rendered with the empty history. The guard reads the
history the value was rendered with, so both calls pass it and both dispatch
`ADD_SEARCH_HISTORY`; the reducer has no test of its own, and the history is
`['Naruto', 'Naruto']`, where the claim says `['Naruto']`. When the provider has
rendered between the two calls, the second call dispatches nothing and the
history is `['Naruto']`. -/
theorem record_search_twice :
    addToSearchHistory initialState "Naruto" = [.ADD_SEARCH_HISTORY "Naruto"] ∧
    dispatchAll initialState
        (addToSearchHistory initialState "Naruto" ++ addToSearchHistory initialState "Naruto")
      = .ok { initialState with searchHistory := ["Naruto", "Naruto"] } ∧
    addToSearchHistory { initialState with searchHistory := ["Naruto"] } "Naruto" = [] ∧
    dispatchAll initialState
        (addToSearchHistory initialState "Naruto" ++
          addToSearchHistory { initialState with searchHistory := ["Naruto"] } "Naruto")
      = .ok { initialState with searchHistory := ["Naruto"] } :=
  ⟨rfl, rfl, rfl, rfl⟩

theorem addToSearchHistory_length (rendered state s' : AppState) (q : String)
    (h : dispatchAll state (addToSearchHistory rendered q) = .ok s')
    (hinv : state.searchHistory.length ≤ 10) :
    s'.searchHistory.length ≤ 10 := by
  unfold addToSearchHistory at h
  split at h
  · simp only [dispatchAll, appReducer, Except.ok.injEq] at h
    subst h
    have := List.length_take_le 9 state.searchHistory
    simp only [List.length_cons]
    omega
  · simp only [dispatchAll, Except.ok.injEq] at h
    subst h
    exact hinv

theorem addToSearchHistory_nodup (rendered state s' : AppState) (q : String)
    (h : dispatchAll state (addToSearchHistory rendered q) = .ok s')
    (hsame : rendered.searchHistory = state.searchHistory)
    (hinv : state.searchHistory.Nodup) :
    s'.searchHistory.Nodup := by
  unfold addToSearchHistory at h
  split at h
  · next hc =>
    simp only [dispatchAll, appReducer, Except.ok.injEq] at h
    subst h
    rw [hsame] at hc
    rw [List.nodup_cons]
    exact ⟨fun hm => hc.2 (List.mem_of_mem_take hm),
      List.Nodup.sublist (List.take_sublist 9 _) hinv⟩
  · simp only [dispatchAll, Except.ok.injEq] at h
    subst h
    exact hinv

/-- The cap of the search history: along every sequence of operations in
which the history is changed only through `addToSearchHistory`, whatever
context value the calls are made on, `searchHistory` keeps at most 10
entries. -/
theorem runOps_history_length (ops : List StoreOp) (p0 p : Provider)
    (hrun : runOps p0 ops = .ok p) (honly : historyOnlyRecorded p0 ops = true)
    (hinv : p0.current.searchHistory.length ≤ 10) :
    p.current.searchHistory.length ≤ 10 := by
  induction ops generalizing p0 with
  | nil =>
    simp only [runOps, Except.ok.injEq] at hrun
    subst hrun
    exact hinv
  | cons op rest ih =>
    simp only [runOps] at hrun
    simp only [historyOnlyRecorded] at honly
    cases hop : applyOp p0 op with
    | error e => simp [hop] at hrun
    | ok p1 =>
      simp only [hop, Bool.and_eq_true] at hrun honly
      apply ih p1 hrun honly.2
      cases op with
      | dispatch action =>
        have hsame : p1.current.searchHistory = p0.current.searchHistory := by
          simpa using honly.1
        rw [hsame]
        exact hinv
      | addToSearchHistory query =>
        simp only [applyOp] at hop
        cases hd : dispatchAll p0.current (addToSearchHistory p0.rendered query) with
        | error e => simp [hd] at hop
        | ok next =>
          simp only [hd, Except.ok.injEq] at hop
          subst hop
          exact addToSearchHistory_length p0.rendered p0.current next query hd hinv
      | render =>
        simp only [applyOp, Except.ok.injEq] at hop
        subst hop
        exact hinv

/-- No entry twice in the search history, along every sequence of operations
in which the history is changed only through `addToSearchHistory` and every
call is made on a context value rendered with the current history. -/
theorem runOps_history_nodup (ops : List StoreOp) (p0 p : Provider)
    (hrun : runOps p0 ops = .ok p) (honly : historyOnlyRecorded p0 ops = true)
    (hcalls : callsAfterRender p0 ops = true)
    (hinv : p0.current.searchHistory.Nodup) :
    p.current.searchHistory.Nodup := by
  induction ops generalizing p0 with
  | nil =>
    simp only [runOps, Except.ok.injEq] at hrun
    subst hrun
    exact hinv
  | cons op rest ih =>
    simp only [runOps] at hrun
    simp only [historyOnlyRecorded] at honly
    simp only [callsAfterRender] at hcalls
    cases hop : applyOp p0 op with
    | error e => simp [hop] at hrun
    | ok p1 =>
      simp only [hop, Bool.and_eq_true] at hrun honly hcalls
      apply ih p1 hrun honly.2 hcalls.2
      cases op with
      | dispatch action =>
        have hsame : p1.current.searchHistory = p0.current.searchHistory := by
          simpa using honly.1
        rw [hsame]
        exact hinv
      | addToSearchHistory query =>
        have hfresh : p0.rendered.searchHistory = p0.current.searchHistory := by
          simpa using hcalls.1
        simp only [applyOp] at hop
        cases hd : dispatchAll p0.current (addToSearchHistory p0.rendered query) with
        | error e => simp [hd] at hop
        | ok next =>
          simp only [hd, Except.ok.injEq] at hop
          subst hop
          exact addToSearchHistory_nodup p0.rendered p0.current next query hd hfresh hinv
      | render =>
        simp only [applyOp, Except.ok.injEq] at hop
        subst hop
        exact hinv

/-- C13, the code at the failing input: from the mounted provider, two calls
`addToSearchHistory('Naruto')` with no render between them. The history is
changed only through `addToSearchHistory`, and the state reached has the
history `['Naruto', 'Naruto']`: within the cap of 10 entries, but with an entry
twice. It is the defect of the guard of `addToSearchHistory`, which reads the
history of the last render. With a render between the calls the history is
`['Naruto']`. -/
theorem history_duplicates :
    runOps Provider.init [.addToSearchHistory "Naruto", .addToSearchHistory "Naruto"]
      = .ok { rendered := initialState,
              current := { initialState with searchHistory := ["Naruto", "Naruto"] } } ∧
    historyOnlyRecorded Provider.init
      [.addToSearchHistory "Naruto", .addToSearchHistory "Naruto"] = true ∧
    ¬ (["Naruto", "Naruto"] : List String).Nodup ∧
    runOps Provider.init [.addToSearchHistory "Naruto", .render, .addToSearchHistory "Naruto"]
      = .ok { rendered := { initialState with searchHistory := ["Naruto"] },
              current := { initialState with searchHistory := ["Naruto"] } } :=
  ⟨rfl, rfl, by decide, rfl⟩

/-! ## Proofs: persistence -/

theorem TProps.lookup_after_assign (l : TProps) (k : String) (v : JTree) (k' : String) :
    TProps.lookup (TProps.assign l k v) k' = if k' = k then some v else TProps.lookup l k' := by
  induction l with
  | nil =>
    by_cases h : k' = k
    · simp [TProps.assign, TProps.lookup, h]
    · have h2 : ¬ k = k' := fun e => h e.symm
      simp [TProps.assign, TProps.lookup, h, h2]
  | cons a rest ih =>
    obtain ⟨k1, v1⟩ := a
    by_cases h1 : k1 = k
    · subst h1
      by_cases h : k' = k1
      · simp [TProps.assign, TProps.lookup, h]
      · have h2 : ¬ k1 = k' := fun e => h e.symm
        simp [TProps.assign, TProps.lookup, h, h2]
    · by_cases h : k1 = k'
      · subst h
        simp [TProps.assign, TProps.lookup, h1]
      · simp [TProps.assign, TProps.lookup, h1, h, ih]

theorem TProps.lookup_absent (l : TProps) (k : String) (h : k ∉ l.map Prod.fst) :
    TProps.lookup l k = none := by
  induction l with
  | nil => rfl
  | cons a rest ih =>
    obtain ⟨k1, v1⟩ := a
    simp only [List.map_cons, List.mem_cons, not_or] at h
    have h1 : ¬ k1 = k := fun e => h.1 e.symm
    simp only [TProps.lookup, h1, if_false]
    exact ih h.2

theorem TProps.lookup_after_spread (target src : TProps) (hsrc : (src.map Prod.fst).Nodup)
    (k : String) :
    TProps.lookup (target.spread src) k
      = (match TProps.lookup src k with
        | some v => some v
        | none => TProps.lookup target k) := by
  unfold TProps.spread
  induction src generalizing target with
  | nil => rfl
  | cons a rest ih =>
    obtain ⟨k1, v1⟩ := a
    simp only [List.map_cons, List.nodup_cons] at hsrc
    simp only [List.foldl_cons]
    rw [ih _ hsrc.2, TProps.lookup_after_assign]
    by_cases h : k1 = k
    · subst h
      have hn : TProps.lookup rest k1 = none := TProps.lookup_absent rest k1 hsrc.1
      simp [TProps.lookup, hn]
    · have h2 : ¬ k = k1 := fun e => h e.symm
      simp [TProps.lookup, h, h2]

theorem spread_initial (state : AppState) : TProps.spread [] state.toJs = state.toJs := by
  simp [TProps.spread, AppState.toJs, TProps.assign]

theorem loadLocalData_saved (state s : AppState) :
    loadLocalData state.toJs (dataToSave s.toJs)
      = ({ state with
          myList := s.myList, favorites := s.favorites,
          searchHistory := s.searchHistory, darkMode := s.darkMode } : AppState).toJs := by
  rw [loadLocalData, spread_initial]
  simp [TProps.spread, AppState.toJs, TProps.assign, dataToSave, JTree.ownProps, TProps.get,
    TProps.lookup]

/-! ## Persistence: results -/

/-- C14: persistence round trip. Let `s` be a state whose `myList`,
`favorites`, `searchHistory` and `darkMode` are JSON values: parsing the
serialization of the object `{ myList, favorites, searchHistory, darkMode }`
made of them gives that object back (the serialization, as every JSON text,
not being the empty string). Then hydrating the initial state with the string
that the second effect writes for `s` gives a state whose `myList`,
`favorites`, `searchHistory` and `darkMode` are those of `s`, lists in the same
order; the other properties are those of the initial state. -/
theorem persistence_round_trip (stringify : JTree → String) (parse : String → Option JTree)
    (s : AppState)
    (hne : stringify (JTree.obj
        [("myList", s.myList.toJs), ("favorites", s.favorites.toJs),
          ("searchHistory", JTree.arr (s.searchHistory.map fun q => JTree.prim (.str q))),
          ("darkMode", JTree.prim (.bool s.darkMode))]) ≠ "")
    (hjson : parse (stringify (JTree.obj
        [("myList", s.myList.toJs), ("favorites", s.favorites.toJs),
          ("searchHistory", JTree.arr (s.searchHistory.map fun q => JTree.prim (.str q))),
          ("darkMode", JTree.prim (.bool s.darkMode))]))
      = some (JTree.obj
        [("myList", s.myList.toJs), ("favorites", s.favorites.toJs),
          ("searchHistory", JTree.arr (s.searchHistory.map fun q => JTree.prim (.str q))),
          ("darkMode", JTree.prim (.bool s.darkMode))])) :
    (hydrate parse (some (persist stringify s.toJs)) initialState.toJs).get "myList"
      = s.myList.toJs ∧
    (hydrate parse (some (persist stringify s.toJs)) initialState.toJs).get "favorites"
      = s.favorites.toJs ∧
    (hydrate parse (some (persist stringify s.toJs)) initialState.toJs).get "searchHistory"
      = JTree.arr (s.searchHistory.map fun q => JTree.prim (.str q)) ∧
    (hydrate parse (some (persist stringify s.toJs)) initialState.toJs).get "darkMode"
      = JTree.prim (.bool s.darkMode) ∧
    hydrate parse (some (persist stringify s.toJs)) initialState.toJs
      = ({ initialState with
          myList := s.myList, favorites := s.favorites,
          searchHistory := s.searchHistory, darkMode := s.darkMode } : AppState).toJs := by
  have hsave : dataToSave s.toJs = JTree.obj
      [("myList", s.myList.toJs), ("favorites", s.favorites.toJs),
        ("searchHistory", JTree.arr (s.searchHistory.map fun q => JTree.prim (.str q))),
        ("darkMode", JTree.prim (.bool s.darkMode))] := by
    simp [dataToSave, AppState.toJs, TProps.get, TProps.lookup]
  have hload : hydrate parse (some (persist stringify s.toJs)) initialState.toJs
      = ({ initialState with
          myList := s.myList, favorites := s.favorites,
          searchHistory := s.searchHistory, darkMode := s.darkMode } : AppState).toJs := by
    simp only [hydrate, persist, hsave, hne, if_false, hjson]
    rw [← hsave]
    exact loadLocalData_saved initialState s
  rw [hload]
  exact ⟨rfl, rfl, rfl, rfl, rfl⟩

set_option maxRecDepth 100000 in
/-- Witness of C14: a state with one tracked entry, one search and dark mode
on, written and read back as JSON text: the hydrated state has the search
history, the dark mode and the list of that state. -/
theorem persistence_round_trip_witness :
    (hydrate JTree.ofText
        (some (persist JTree.toText
          ({ initialState with
            myList := initialState.myList.set .anime
              [{ mal_id := 1, fields := JObj.empty,
                 trackingData := some (JObj.ofList [("status", .str "Watching")]) }]
            searchHistory := ["Naruto"]
            darkMode := true } : AppState).toJs))
        initialState.toJs).get "searchHistory"
      = JTree.arr [JTree.prim (.str "Naruto")] ∧
    (hydrate JTree.ofText
        (some (persist JTree.toText
          ({ initialState with
            myList := initialState.myList.set .anime
              [{ mal_id := 1, fields := JObj.empty,
                 trackingData := some (JObj.ofList [("status", .str "Watching")]) }]
            searchHistory := ["Naruto"]
            darkMode := true } : AppState).toJs))
        initialState.toJs).get "darkMode"
      = JTree.prim (.bool true) :=
  have h := persistence_round_trip JTree.toText JTree.ofText
    { initialState with
      myList := initialState.myList.set .anime
        [{ mal_id := 1, fields := JObj.empty,
           trackingData := some (JObj.ofList [("status", .str "Watching")]) }]
      searchHistory := ["Naruto"]
      darkMode := true }
    (by decide) rfl
  ⟨h.2.2.1, h.2.2.2.1⟩

/-- C15: hydration of the initial state never fails and changes the state only
after a successful parse. With no stored string, with the empty string (which
is falsy) and with a string on which `JSON.parse` throws, the state stays the
initial state; with a non-empty string that parses, the state is
`{ ...initialState, ...parsed }`: a property of the parsed value (its property
names being distinct) replaces the one of the initial state, and every other
property of the initial state is kept. -/
theorem hydration_safe (parse : String → Option JTree) :
    hydrate parse none initialState.toJs = initialState.toJs ∧
    hydrate parse (some "") initialState.toJs = initialState.toJs ∧
    (∀ text, parse text = none →
      hydrate parse (some text) initialState.toJs = initialState.toJs) ∧
    (∀ text parsedData, text ≠ "" → parse text = some parsedData →
      hydrate parse (some text) initialState.toJs
        = loadLocalData initialState.toJs parsedData ∧
      ((parsedData.ownProps.map Prod.fst).Nodup →
        ∀ k, TProps.lookup (loadLocalData initialState.toJs parsedData) k
          = (match TProps.lookup parsedData.ownProps k with
            | some v => some v
            | none => TProps.lookup initialState.toJs k))) := by
  refine ⟨rfl, rfl, fun text h => ?_, fun text parsedData hne h => ⟨?_, fun hnd k => ?_⟩⟩
  · simp only [hydrate, h]
    split <;> rfl
  · simp only [hydrate, hne, if_false, h]
  · rw [loadLocalData, spread_initial, TProps.lookup_after_spread _ _ hnd]

/-- Witness of C15: a stored string that parses to `{ darkMode: true }` turns
dark mode on and keeps the empty search history of the initial state. -/
theorem hydration_safe_witness :
    (hydrate (fun _ => some (JTree.obj [("darkMode", JTree.prim (.bool true))]))
        (some "stored") initialState.toJs).get "darkMode" = JTree.prim (.bool true) ∧
    (hydrate (fun _ => some (JTree.obj [("darkMode", JTree.prim (.bool true))]))
        (some "stored") initialState.toJs).get "searchHistory" = JTree.arr [] :=
  have h := ((hydration_safe
    (fun _ => some (JTree.obj [("darkMode", JTree.prim (.bool true))]))).2.2.2
    "stored" (JTree.obj [("darkMode", JTree.prim (.bool true))]) (by decide) rfl).1
  ⟨by rw [h]; rfl, by rw [h]; rfl⟩

/-! ## The status policy of the callers: results -/

theorem watchStatus_cases (type : Category) :
    watchStatus type ≠ "Completed" ∧ watchStatus type ≠ "Plan to Watch" ∧
    watchStatus type ≠ "Plan to Read" ∧ watchStatus type ≠ "Dropped" ∧
    watchStatus type ≠ "On Hold" := by
  cases type <;> simp [watchStatus]

/-- C16: `handleSave` with status `'Completed'` stores progress `total` when
the item's total is a number and `0` when it is not known, whatever progress was
entered; with `'Plan to Watch'`, `'Plan to Read'` or `'Dropped'` it stores
progress `0`; the stored status is the selected one. -/
theorem save_forced_progress (type : Category) (item : Item) (progress : Int) :
    (∀ t, itemTotal type item = some t →
      handleSave type item "Completed" progress
        = [.UPSERT_LIST_ITEM type item
            (some (JObj.ofList [("status", .str "Completed"), ("progress", .num t)])),
          .CLOSE_STATUS_MODAL]) ∧
    (itemTotal type item = none →
      handleSave type item "Completed" progress
        = [.UPSERT_LIST_ITEM type item
            (some (JObj.ofList [("status", .str "Completed"), ("progress", .num 0)])),
          .CLOSE_STATUS_MODAL]) ∧
    (∀ status, status = "Plan to Watch" ∨ status = "Plan to Read" ∨ status = "Dropped" →
      handleSave type item status progress
        = [.UPSERT_LIST_ITEM type item
            (some (JObj.ofList [("status", .str status), ("progress", .num 0)])),
          .CLOSE_STATUS_MODAL]) := by
  refine ⟨fun t ht => ?_, fun hn => ?_, fun status hs => ?_⟩
  · by_cases h0 : t = 0
    · simp [handleSave, savePolicy, ht, totalKnown, h0]
    · simp [handleSave, savePolicy, ht, totalKnown, h0]
  · simp [handleSave, savePolicy, hn, totalKnown]
  · have hc : status ≠ "Completed" := by
      rcases hs with h | h | h <;> rw [h] <;> decide
    simp [handleSave, savePolicy, hc, hs]

/-- Witness of C16: an anime of 12 episodes saved as `'Completed'` with entered
progress 5 is stored with progress 12. -/
theorem save_forced_progress_witness :
    handleSave .anime
        { mal_id := 1, fields := JObj.ofList [("episodes", .num 12)], trackingData := none }
        "Completed" 5
      = [.UPSERT_LIST_ITEM .anime
          { mal_id := 1, fields := JObj.ofList [("episodes", .num 12)], trackingData := none }
          (some (JObj.ofList [("status", .str "Completed"), ("progress", .num 12)])),
        .CLOSE_STATUS_MODAL] :=
  (save_forced_progress .anime
    { mal_id := 1, fields := JObj.ofList [("episodes", .num 12)], trackingData := none } 5).1
    12 (by decide)

/-- C17 as stated fails: with total 12 and entered progress `-1`, saving
`'Watching'` stores progress `-1`, not `max(0, min(-1, 12)) = 0`. -/
theorem save_active_negative :
    handleSave .anime
        { mal_id := 1, fields := JObj.ofList [("episodes", .num 12)], trackingData := none }
        "Watching" (-1)
      = [.UPSERT_LIST_ITEM .anime
          { mal_id := 1, fields := JObj.ofList [("episodes", .num 12)], trackingData := none }
          (some (JObj.ofList [("status", .str "Watching"), ("progress", .num (-1))])),
        .CLOSE_STATUS_MODAL] ∧
    (-1 : Int) ≠ max 0 (min (-1) 12) :=
  ⟨rfl, by decide⟩

/-- C17, amended: for every integer entered progress `p` and every known total
`T > 0`, saving the watching/reading status stores progress `min(p, T)` (no
lower bound is applied; for `p ≥ 0` this is `max(0, min(p, T))`); when that
value reaches `T` the stored status is `'Completed'`, otherwise it is the
watching/reading status. -/
theorem save_active_capped (type : Category) (item : Item) (T p : Int)
    (hT : itemTotal type item = some T) (hpos : 0 < T) :
    handleSave type item (watchStatus type) p
      = [.UPSERT_LIST_ITEM type item
          (some (JObj.ofList
            [("status", .str (if T ≤ min p T then "Completed" else watchStatus type)),
             ("progress", .num (min p T))])),
        .CLOSE_STATUS_MODAL] ∧
    (0 ≤ p → min p T = max 0 (min p T)) := by
  obtain ⟨h1, h2, h3, h4, _⟩ := watchStatus_cases type
  have h0 : T ≠ 0 := by omega
  constructor
  · by_cases hle : T ≤ min p T
    · have hmin : min p T = T := by omega
      simp [handleSave, savePolicy, hT, totalKnown, h0, h1, h2, h3, h4, hle, hmin]
    · simp [handleSave, savePolicy, hT, totalKnown, h0, h1, h2, h3, h4, hle]
  · intro hp
    omega

/-- Witness of C17 amended: total 12, entered progress 15 while `'Watching'`:
stored as `'Completed'` with progress 12. -/
theorem save_active_capped_witness :
    handleSave .anime
        { mal_id := 1, fields := JObj.ofList [("episodes", .num 12)], trackingData := none }
        (watchStatus .anime) 15
      = [.UPSERT_LIST_ITEM .anime
          { mal_id := 1, fields := JObj.ofList [("episodes", .num 12)], trackingData := none }
          (some (JObj.ofList
            [("status", .str (if (12 : Int) ≤ min 15 12 then "Completed" else watchStatus .anime)),
             ("progress", .num (min 15 12))])),
        .CLOSE_STATUS_MODAL] ∧
    ((0 : Int) ≤ 15 → min (15 : Int) 12 = max 0 (min 15 12)) :=
  save_active_capped .anime
    { mal_id := 1, fields := JObj.ofList [("episodes", .num 12)], trackingData := none }
    12 15 (by decide) (by decide)

/-- C18 as stated fails: with total 12 and entered progress `-1`, saving
`'On Hold'` stores progress `-1`, not `max(0, min(-1, 12)) = 0`. -/
theorem save_on_hold_negative :
    handleSave .anime
        { mal_id := 1, fields := JObj.ofList [("episodes", .num 12)], trackingData := none }
        "On Hold" (-1)
      = [.UPSERT_LIST_ITEM .anime
          { mal_id := 1, fields := JObj.ofList [("episodes", .num 12)], trackingData := none }
          (some (JObj.ofList [("status", .str "On Hold"), ("progress", .num (-1))])),
        .CLOSE_STATUS_MODAL] ∧
    (-1 : Int) ≠ max 0 (min (-1) 12) :=
  ⟨rfl, by decide⟩

/-- C18, amended: for every integer entered progress `p` and every known total
`T > 0`, saving `'On Hold'` stores progress `min(p, T)` (no lower bound is
applied; for `p ≥ 0` this is `max(0, min(p, T))`), and the stored status is
`'On Hold'`, also when the stored progress equals `T`. -/
theorem save_on_hold_capped (type : Category) (item : Item) (T p : Int)
    (hT : itemTotal type item = some T) (hpos : 0 < T) :
    handleSave type item "On Hold" p
      = [.UPSERT_LIST_ITEM type item
          (some (JObj.ofList [("status", .str "On Hold"), ("progress", .num (min p T))])),
        .CLOSE_STATUS_MODAL] ∧
    (0 ≤ p → min p T = max 0 (min p T)) := by
  obtain ⟨_, _, _, _, h5⟩ := watchStatus_cases type
  have h0 : T ≠ 0 := by omega
  have h5' : ¬ "On Hold" = watchStatus type := fun h => h5 h.symm
  constructor
  · simp [handleSave, savePolicy, hT, totalKnown, h0, h5']
  · intro hp
    omega

/-- Witness of C18 amended: total 12, entered progress 12 while `'On Hold'`:
stored as `'On Hold'` with progress 12. -/
theorem save_on_hold_capped_witness :
    handleSave .anime
        { mal_id := 1, fields := JObj.ofList [("episodes", .num 12)], trackingData := none }
        "On Hold" 12
      = [.UPSERT_LIST_ITEM .anime
          { mal_id := 1, fields := JObj.ofList [("episodes", .num 12)], trackingData := none }
          (some (JObj.ofList [("status", .str "On Hold"), ("progress", .num (min 12 12))])),
        .CLOSE_STATUS_MODAL] ∧
    ((0 : Int) ≤ 12 → min (12 : Int) 12 = max 0 (min 12 12)) :=
  save_on_hold_capped .anime
    { mal_id := 1, fields := JObj.ofList [("episodes", .num 12)], trackingData := none }
    12 12 (by decide) (by decide)

theorem find_upsertList (list : List Item) (item : Item) (trackingData : Option JObj) :
    (∀ e0, list.find? (fun x => decide (x.mal_id = item.mal_id)) = some e0 →
      (upsertList list item trackingData).find? (fun x => decide (x.mal_id = item.mal_id))
        = some { e0 with
            trackingData :=
              some ((JObj.empty.spreadOpt e0.trackingData).spreadOpt trackingData) }) ∧
    (list.find? (fun x => decide (x.mal_id = item.mal_id)) = none →
      (upsertList list item trackingData).find? (fun x => decide (x.mal_id = item.mal_id))
        = some { item with trackingData := trackingData }) := by
  constructor
  · intro e0 h0
    obtain ⟨hp, as, bs, hl, has⟩ := List.find?_eq_some.mp h0
    have hid : e0.mal_id = item.mal_id := by simpa using hp
    have hi : list[as.length]? = some e0 := by
      rw [hl, List.getElem?_append_right (Nat.le_refl _)]
      simp
    have hfirst : ∀ j e2, j < as.length → list[j]? = some e2 → e2.mal_id ≠ item.mal_id := by
      intro j e2 hj h2
      rw [hl, List.getElem?_append_left hj] at h2
      have := has e2 (List.getElem?_mem h2)
      simpa using this
    rw [upsertList_present list item trackingData as.length e0 hi hid hfirst]
    rw [List.find?_eq_some]
    refine ⟨by simpa using hid, as, bs, ?_, has⟩
    rw [hl]
    simp
  · intro hn
    have habs : ∀ e ∈ list, e.mal_id ≠ item.mal_id := by
      intro e he
      have := List.find?_eq_none.mp hn e he
      simpa using this
    rw [upsertList_absent list item trackingData habs, List.find?_append, hn]
    simp

theorem forall₂_mem {α β : Type} {R : α → β → Prop} {l : List α} {l' : List β}
    (h : List.Forall₂ R l l') (a : α) (ha : a ∈ l) : ∃ b ∈ l', R a b := by
  induction h with
  | nil => simp at ha
  | cons hr _ ih =>
    rcases List.mem_cons.mp ha with h1 | h1
    · subst h1
      exact ⟨_, List.mem_cons_self _ _, hr⟩
    · obtain ⟨b, hb, hab⟩ := ih h1
      exact ⟨b, List.mem_cons_of_mem _ hb, hab⟩

theorem handleSave_completed (type : Category) (item : Item) (T p : Int)
    (hT : itemTotal type item = some T) :
    handleSave type item "Completed" p
      = [.UPSERT_LIST_ITEM type item
          (some (JObj.ofList [("status", .str "Completed"), ("progress", .num T)])),
        .CLOSE_STATUS_MODAL] := by
  by_cases h0 : T = 0
  · simp [handleSave, savePolicy, hT, totalKnown, h0]
  · simp [handleSave, savePolicy, hT, totalKnown, h0]

theorem lookup_status_progress (st pr : JVal) :
    (JObj.ofList [("status", st), ("progress", pr)]).lookup "status" = some st ∧
    (JObj.ofList [("status", st), ("progress", pr)]).lookup "progress" = some pr := by
  constructor <;>
    simp [JObj.ofList, JObj.set, JObj.lookup, JObj.empty, Props.assign, Props.lookup]

theorem lookup_status_only (st : JVal) :
    (JObj.ofList [("status", st)]).lookup "status" = some st ∧
    (JObj.ofList [("status", st)]).lookup "progress" = none := by
  constructor <;>
    simp [JObj.ofList, JObj.set, JObj.lookup, JObj.empty, Props.assign, Props.lookup]

/-- C19 as stated fails: an anime of 12 episodes stored with
`{ status: 'Watching', progress: 3 }`; after `UPSERT_LIST_ITEM` with
`{ status: 'Completed' }` its tracking data has status `'Completed'` and
progress 3, not 12. -/
theorem upsert_status_only_keeps_progress :
    ∃ s' e td,
      appReducer
        { initialState with
          myList := initialState.myList.set .anime
            [{ mal_id := 1, fields := JObj.ofList [("episodes", .num 12)],
               trackingData := some (JObj.ofList [("status", .str "Watching"), ("progress", .num 3)]) }] }
        (.UPSERT_LIST_ITEM .anime
          { mal_id := 1, fields := JObj.ofList [("episodes", .num 12)], trackingData := none }
          (some (JObj.ofList [("status", .str "Completed")]))) = .ok s' ∧
      getItemFromList s' .anime 1 = some e ∧ itemTotal .anime e = some 12 ∧
      e.trackingData = some td ∧ td.get "status" = .str "Completed" ∧
      td.get "progress" = .num 3 ∧ td.get "progress" ≠ .num 12 :=
  ⟨_, _, _, rfl, rfl, by decide, rfl, by decide, by decide, by decide⟩

/-- C19, amended: for every item whose total `T` is known and whatever its
prior progress, saving status `'Completed'` in the status editor (`handleSave`,
which upserts `{ status: 'Completed', progress: T }`) leaves the item with
status `'Completed'` and progress `T`; `UPSERT_LIST_ITEM` with a tracking data
that carries only the status sets the status and keeps the prior progress. -/
theorem save_completed_progress (s : AppState) (type : Category) (item : Item) (T p : Int)
    (hT : itemTotal type item = some T) :
    (∃ s' e td, dispatchAll s (handleSave type item "Completed" p) = .ok s' ∧
      getItemFromList s' type item.mal_id = some e ∧ e.trackingData = some td ∧
      td.get "status" = .str "Completed" ∧ td.get "progress" = .num T) ∧
    (∀ e0 td0, getItemFromList s type item.mal_id = some e0 → e0.trackingData = some td0 →
      ∃ s' e td,
        appReducer s
          (.UPSERT_LIST_ITEM type item (some (JObj.ofList [("status", .str "Completed")])))
          = .ok s' ∧
        getItemFromList s' type item.mal_id = some e ∧ e.trackingData = some td ∧
        td.get "status" = .str "Completed" ∧ td.get "progress" = td0.get "progress") := by
  constructor
  · rw [handleSave_completed type item T p hT]
    have hl := lookup_status_progress (.str "Completed") (.num T)
    cases hf : (s.myList.get type).find? (fun x => decide (x.mal_id = item.mal_id)) with
    | none =>
      have hfind := (find_upsertList (s.myList.get type) item
        (some (JObj.ofList [("status", .str "Completed"), ("progress", .num T)]))).2 hf
      refine ⟨_, { item with
          trackingData :=
            some (JObj.ofList [("status", .str "Completed"), ("progress", .num T)]) },
        JObj.ofList [("status", .str "Completed"), ("progress", .num T)], rfl, ?_, rfl, ?_, ?_⟩
      · simpa [getItemFromList, ByCategory.get_set_same] using hfind
      · simp [JObj.get, hl.1]
      · simp [JObj.get, hl.2]
    | some e0 =>
      have hfind := (find_upsertList (s.myList.get type) item
        (some (JObj.ofList [("status", .str "Completed"), ("progress", .num T)]))).1 e0 hf
      refine ⟨_, { e0 with
          trackingData :=
            some ((JObj.empty.spreadOpt e0.trackingData).spreadOpt
              (some (JObj.ofList [("status", .str "Completed"), ("progress", .num T)]))) },
        (JObj.empty.spreadOpt e0.trackingData).spreadOpt
          (some (JObj.ofList [("status", .str "Completed"), ("progress", .num T)])),
        rfl, ?_, rfl, ?_, ?_⟩
      · simpa [getItemFromList, ByCategory.get_set_same] using hfind
      · simp [JObj.get, JObj.spreadOpt, JObj.lookup_spread, hl.1]
      · simp [JObj.get, JObj.spreadOpt, JObj.lookup_spread, hl.2]
  · intro e0 td0 h0 htd0
    have hl := lookup_status_only (.str "Completed")
    have hfind := (find_upsertList (s.myList.get type) item
      (some (JObj.ofList [("status", .str "Completed")]))).1 e0 h0
    refine ⟨_, { e0 with
        trackingData :=
          some ((JObj.empty.spreadOpt e0.trackingData).spreadOpt
            (some (JObj.ofList [("status", .str "Completed")]))) },
      (JObj.empty.spreadOpt e0.trackingData).spreadOpt
        (some (JObj.ofList [("status", .str "Completed")])),
      rfl, ?_, rfl, ?_, ?_⟩
    · simpa [getItemFromList, ByCategory.get_set_same] using hfind
    · simp [JObj.get, JObj.spreadOpt, JObj.lookup_spread, hl.1]
    · simp only [JObj.get, JObj.spreadOpt, JObj.lookup_spread, hl.2, htd0, JObj.lookup_empty]
      cases td0.lookup "progress" <;> rfl

/-- Witness of C19 amended: an anime of 12 episodes stored with progress 3 and
saved as `'Completed'` in the editor ends with progress 12. -/
theorem save_completed_progress_witness :
    ∃ s' e td,
      dispatchAll
        { initialState with
          myList := initialState.myList.set .anime
            [{ mal_id := 1, fields := JObj.ofList [("episodes", .num 12)],
               trackingData := some (JObj.ofList [("status", .str "Watching"), ("progress", .num 3)]) }] }
        (handleSave .anime
          { mal_id := 1, fields := JObj.ofList [("episodes", .num 12)], trackingData := none }
          "Completed" 3) = .ok s' ∧
      getItemFromList s' .anime 1 = some e ∧ e.trackingData = some td ∧
      td.get "status" = .str "Completed" ∧ td.get "progress" = .num 12 :=
  (save_completed_progress
    { initialState with
      myList := initialState.myList.set .anime
        [{ mal_id := 1, fields := JObj.ofList [("episodes", .num 12)],
           trackingData := some (JObj.ofList [("status", .str "Watching"), ("progress", .num 3)]) }] }
    .anime
    { mal_id := 1, fields := JObj.ofList [("episodes", .num 12)], trackingData := none }
    12 3 (by decide)).1

theorem handleProgressChange_step (type : Category) (item : Item) (T p : Int)
    (hT : itemTotal type item = some T) (hpos : 0 < T) :
    handleProgressChange type item p 1
      = [.UPDATE_ITEM_STATUS type item.mal_id
          (if T ≤ p + 1 then .str "Completed" else .undefined)
          (.num (if T ≤ p + 1 then T else max 0 (p + 1)))] := by
  have h0 : T ≠ 0 := by omega
  by_cases hle : T ≤ p + 1
  · have hnew : max 0 (min T (p + 1)) = T := by omega
    simp [handleProgressChange, hT, totalKnown, h0, hle, hnew]
  · have hnew : max 0 (min T (p + 1)) = max 0 (p + 1) := by omega
    have hlt : ¬ T ≤ max 0 (p + 1) := by omega
    simp only [handleProgressChange, hT, totalKnown, h0, ne_eq, not_false_eq_true,
      decide_True, if_true, Option.getD_some, hnew, ge_iff_le, hlt, if_false, hle]

/-- C20: for a tracked item of `myList[type]` with known total `T` and stored
progress `p` (a progress of the data model, `p ≥ 0`), the increment step
`handleProgressChange(+1)` followed by `UPDATE_ITEM_STATUS` succeeds. When
`p + 1 >= T` the item is left with status `'Completed'` and progress `T`; when
`p + 1 < T` only its progress changes, to `p + 1`, and its status is unchanged.
Its other properties and all other entries are unchanged. `hall` says that the
entries with the item's identity are tracked, as the item itself is (it is the
only one when identities are unique): `UPDATE_ITEM_STATUS` reads the tracking
data of each of them. -/
theorem increment_progress (s : AppState) (type : Category) (item : Item) (T p : Int)
    (hitem : item ∈ s.myList.get type) (hT : itemTotal type item = some T) (hpos : 0 < T)
    (hp : ∃ td, item.trackingData = some td ∧ td.get "progress" = .num p) (h0 : 0 ≤ p)
    (hall : ∀ e ∈ s.myList.get type, e.mal_id = item.mal_id → e.trackingData ≠ none) :
    ∃ s', dispatchAll s (handleProgressChange type item p 1) = .ok s' ∧
      List.Forall₂
        (fun e e' =>
          (e.mal_id ≠ item.mal_id → e' = e) ∧
          (e.mal_id = item.mal_id → e'.mal_id = e.mal_id ∧ e'.fields = e.fields ∧
            ∃ td td', e.trackingData = some td ∧ e'.trackingData = some td' ∧
              (T ≤ p + 1 →
                td'.get "status" = .str "Completed" ∧ td'.get "progress" = .num T) ∧
              (p + 1 < T →
                td'.get "status" = td.get "status" ∧ td'.get "progress" = .num (p + 1)) ∧
              ∀ k, k ≠ "status" → k ≠ "progress" → td'.lookup k = td.lookup k))
        (s.myList.get type) (s'.myList.get type) ∧
      (∃ e' ∈ s'.myList.get type, ∃ td td', item.trackingData = some td ∧
        td.get "progress" = .num p ∧ e'.mal_id = item.mal_id ∧ e'.trackingData = some td' ∧
        (T ≤ p + 1 → td'.get "status" = .str "Completed" ∧ td'.get "progress" = .num T) ∧
        (p + 1 < T →
          td'.get "status" = td.get "status" ∧ td'.get "progress" = .num (p + 1))) := by
  have hmax : max 0 (p + 1) = p + 1 := by omega
  rw [handleProgressChange_step type item T p hT hpos, hmax]
  obtain ⟨l', hl', hrel⟩ := mapThrowing_forall₂
    (updateItem item.mal_id (if T ≤ p + 1 then .str "Completed" else .undefined)
      (.num (if T ≤ p + 1 then T else p + 1))) _
    (s.myList.get type) (fun e he => updateItem_ok item.mal_id _ _ e (hall e he))
  have hrel2 : List.Forall₂
      (fun e e' =>
        (e.mal_id ≠ item.mal_id → e' = e) ∧
        (e.mal_id = item.mal_id → e'.mal_id = e.mal_id ∧ e'.fields = e.fields ∧
          ∃ td td', e.trackingData = some td ∧ e'.trackingData = some td' ∧
            (T ≤ p + 1 →
              td'.get "status" = .str "Completed" ∧ td'.get "progress" = .num T) ∧
            (p + 1 < T →
              td'.get "status" = td.get "status" ∧ td'.get "progress" = .num (p + 1)) ∧
            ∀ k, k ≠ "status" → k ≠ "progress" → td'.lookup k = td.lookup k))
      (s.myList.get type) l' := by
    refine hrel.imp ?_
    intro e e' h
    refine ⟨h.1, fun hid => ?_⟩
    obtain ⟨h1, h2, td, td', h3, h4, h5, h6, h7⟩ := h.2 hid
    refine ⟨h1, h2, td, td', h3, h4, fun hle => ?_, fun hlt => ?_, h7⟩
    · simp only [hle, if_true] at h5 h6
      exact ⟨by simpa using h5, by simpa using h6⟩
    · have hle : ¬ T ≤ p + 1 := by omega
      simp only [hle, if_false] at h5 h6
      exact ⟨by simpa using h5, by simpa using h6⟩
  refine ⟨{ s with myList := s.myList.set type l' }, by simp [dispatchAll, appReducer, hl'],
    by simpa [ByCategory.get_set_same] using hrel2, ?_⟩
  obtain ⟨e', he', hr⟩ := forall₂_mem hrel2 item hitem
  obtain ⟨td0, htd0, hp0⟩ := hp
  obtain ⟨h1, _, td, td', h3, h4, h5, h6, _⟩ := hr.2 rfl
  have htd : td = td0 := by
    rw [htd0] at h3
    exact (Option.some.inj h3).symm
  subst htd
  exact ⟨e', by simpa [ByCategory.get_set_same] using he', td, td', htd0, hp0, h1, h4, h5, h6⟩

/-- Witness of C20: status `'Watching'`, progress 11 of 12: the increment step
leaves status `'Completed'` and progress 12. -/
theorem increment_progress_witness :
    ∃ s', dispatchAll
        { initialState with
          myList := initialState.myList.set .anime
            [{ mal_id := 1, fields := JObj.ofList [("episodes", .num 12)],
               trackingData := some (JObj.ofList [("status", .str "Watching"), ("progress", .num 11)]) }] }
        (handleProgressChange .anime
          { mal_id := 1, fields := JObj.ofList [("episodes", .num 12)],
            trackingData := some (JObj.ofList [("status", .str "Watching"), ("progress", .num 11)]) }
          11 1)
      = .ok s' ∧
      ∃ e' ∈ s'.myList.get .anime, ∃ td', e'.mal_id = 1 ∧ e'.trackingData = some td' ∧
        td'.get "status" = .str "Completed" ∧ td'.get "progress" = .num 12 := by
  obtain ⟨s', hrun, _, e', he', _, td', _, _, hid, htd', hdone, _⟩ :=
    increment_progress
      { initialState with
        myList := initialState.myList.set .anime
          [{ mal_id := 1, fields := JObj.ofList [("episodes", .num 12)],
             trackingData := some (JObj.ofList [("status", .str "Watching"), ("progress", .num 11)]) }] }
      .anime
      { mal_id := 1, fields := JObj.ofList [("episodes", .num 12)],
        trackingData := some (JObj.ofList [("status", .str "Watching"), ("progress", .num 11)]) }
      12 11 (by decide) (by decide) (by decide) ⟨_, rfl, by decide⟩ (by decide) (by decide)
  exact ⟨s', hrun, e', he', td', hid, htd', (hdone (by decide)).1, (hdone (by decide)).2⟩

/-! ## Further results on the request queue and the reducer -/

/-- C28: in every reachable state of the queue, a non-empty FIFO implies that
`isProcessing` is set and that either one call is in flight and no timer is
pending, or no call is in flight and exactly one cooldown timer is pending; and
there is never more than one pending cooldown timer. -/
theorem no_stranded_request (s : QState) (h : QReachable s) :
    (s.requestQueue ≠ [] →
      s.isProcessing = true ∧
      ((s.inflight.length = 1 ∧ s.timers = []) ∨ (s.inflight = [] ∧ s.timers.length = 1))) ∧
    s.timers.length ≤ 1 := by
  obtain ⟨hpre, hidle⟩ := qreachable_inv h
  have hl := hpre.lane
  constructor
  · intro hne
    have hp : s.isProcessing = true := by
      cases hb : s.isProcessing
      · exact absurd (hidle hb) hne
      · rfl
    simp only [hp, if_true] at hl
    refine ⟨hp, ?_⟩
    rcases Nat.eq_zero_or_pos s.timers.length with h0 | h0
    · exact Or.inl ⟨by omega, List.length_eq_zero.mp h0⟩
    · exact Or.inr ⟨List.length_eq_zero.mp (by omega), by omega⟩
  · split at hl <;> omega

/-- Witness of C28: two requests enqueued, the first call completed: the second
request waits, `isProcessing` is set and one timer is pending. -/
theorem no_stranded_request_witness :
    (([{ config := 8, promise := 1 }] : List QueuedRequest) ≠ [] →
      true = true ∧
      ((([] : List QueuedRequest).length = 1 ∧ ([1400] : List Nat) = []) ∨
        (([] : List QueuedRequest) = [] ∧ ([1400] : List Nat).length = 1))) ∧
    ([1400] : List Nat).length ≤ 1 :=
  no_stranded_request
    { requestQueue := [{ config := 8, promise := 1 }], isProcessing := true, now := 300,
      inflight := [], timers := [1400],
      enqueued := [{ config := 7, promise := 0 }, { config := 8, promise := 1 }],
      dispatched := [({ config := 7, promise := 0 }, 0)],
      settled := [(0, .response 5)] }
    ⟨[.enqueue 7, .enqueue 8, .advance 300, .complete 0 (.response 5)], by decide⟩

/-- C26: favorites and the tracked lists are independent. `ADD_TO_FAVORITES`
appends the item at the end of `favorites[type]`; it and
`REMOVE_FROM_FAVORITES` leave `myList`, `searchHistory`, `darkMode`,
`statusModal` and the favorites of the other categories unchanged;
`ADD_TO_LIST`, `UPSERT_LIST_ITEM`, `REMOVE_FROM_LIST` and `UPDATE_ITEM_STATUS`
leave `favorites` and the tracked lists of the other categories unchanged. -/
theorem storage_independent (s : AppState) (type : Category) (item : Item) (id : Int)
    (trackingData : Option JObj) (status progress : JVal) :
    (∃ s', appReducer s (.ADD_TO_FAVORITES type item) = .ok s' ∧
      s'.favorites.get type = s.favorites.get type ++ [item] ∧
      s'.myList = s.myList ∧ s'.searchHistory = s.searchHistory ∧ s'.darkMode = s.darkMode ∧
      s'.statusModal = s.statusModal ∧ ∀ c, c ≠ type → s'.favorites.get c = s.favorites.get c) ∧
    (∃ s', appReducer s (.REMOVE_FROM_FAVORITES type id) = .ok s' ∧
      s'.myList = s.myList ∧ s'.searchHistory = s.searchHistory ∧ s'.darkMode = s.darkMode ∧
      s'.statusModal = s.statusModal ∧ ∀ c, c ≠ type → s'.favorites.get c = s.favorites.get c) ∧
    (∃ s', appReducer s (.ADD_TO_LIST type item) = .ok s' ∧
      s'.favorites = s.favorites ∧ ∀ c, c ≠ type → s'.myList.get c = s.myList.get c) ∧
    (∃ s', appReducer s (.UPSERT_LIST_ITEM type item trackingData) = .ok s' ∧
      s'.favorites = s.favorites ∧ ∀ c, c ≠ type → s'.myList.get c = s.myList.get c) ∧
    (∃ s', appReducer s (.REMOVE_FROM_LIST type id) = .ok s' ∧
      s'.favorites = s.favorites ∧ ∀ c, c ≠ type → s'.myList.get c = s.myList.get c) ∧
    (∀ s', appReducer s (.UPDATE_ITEM_STATUS type id status progress) = .ok s' →
      s'.favorites = s.favorites ∧ ∀ c, c ≠ type → s'.myList.get c = s.myList.get c) := by
  refine ⟨⟨_, rfl, ByCategory.get_set_same _ _ _, rfl, rfl, rfl, rfl,
      fun c hc => ByCategory.get_set_other _ _ _ _ hc⟩,
    ⟨_, rfl, rfl, rfl, rfl, rfl, fun c hc => ByCategory.get_set_other _ _ _ _ hc⟩,
    ⟨_, rfl, rfl, fun c hc => ByCategory.get_set_other _ _ _ _ hc⟩,
    ⟨_, rfl, rfl, fun c hc => ByCategory.get_set_other _ _ _ _ hc⟩,
    ⟨_, rfl, rfl, fun c hc => ByCategory.get_set_other _ _ _ _ hc⟩, ?_⟩
  intro s' hs'
  simp only [appReducer] at hs'
  split at hs'
  · simp at hs'
  · simp only [Except.ok.injEq] at hs'
    subst hs'
    exact ⟨rfl, fun c hc => ByCategory.get_set_other _ _ _ _ hc⟩

/-- Witness of C26: adding a favorite anime to a state with a tracked manga
leaves the manga list as it is. -/
theorem storage_independent_witness :
    ∃ s', appReducer
        { initialState with
          myList := initialState.myList.set .manga
            [{ mal_id := 2, fields := JObj.empty, trackingData := none }] }
        (.ADD_TO_FAVORITES .anime { mal_id := 1, fields := JObj.empty, trackingData := none })
        = .ok s' ∧
      s'.favorites.get .anime = [{ mal_id := 1, fields := JObj.empty, trackingData := none }] ∧
      s'.myList.get .manga = [{ mal_id := 2, fields := JObj.empty, trackingData := none }] :=
  (storage_independent
    { initialState with
      myList := initialState.myList.set .manga
        [{ mal_id := 2, fields := JObj.empty, trackingData := none }] }
    .anime { mal_id := 1, fields := JObj.empty, trackingData := none } 0 none
    .undefined .undefined).1.imp fun _ h => ⟨h.1, h.2.1, by rw [h.2.2.1]; rfl⟩

theorem updateItem_throws (id : Int) (status progress : JVal) (e : Item) :
    (∃ msg, updateItem id status progress e = .error msg) ↔
      e.mal_id = id ∧ e.trackingData = none ∧
        (status = JVal.undefined ∨ progress = JVal.undefined) := by
  constructor
  · rintro ⟨msg, hmsg⟩
    by_cases hid : e.mal_id = id
    · cases htd : e.trackingData with
      | some td =>
        obtain ⟨e', he', _⟩ := updateItem_ok id status progress e (fun _ => by simp [htd])
        rw [he'] at hmsg
        cases hmsg
      | none =>
        refine ⟨hid, rfl, ?_⟩
        by_contra hcon
        simp only [not_or] at hcon
        obtain ⟨e', he'⟩ := updateItem_defined id status progress e hcon.1 hcon.2
        rw [he'] at hmsg
        cases hmsg
    · simp [updateItem, hid] at hmsg
  · rintro ⟨hid, htd, hu⟩
    by_cases hs : status = JVal.undefined
    · exact ⟨_, by simp [updateItem, hid, hs, readTracking, htd]; rfl⟩
    · have hp : progress = JVal.undefined := by
        rcases hu with h | h
        · exact absurd h hs
        · exact h
      exact ⟨_, by simp [updateItem, hid, hs, hp, readTracking, htd]; rfl⟩

theorem mapThrowing_throws {α β : Type} (f : α → Except String β) (l : List α) :
    (∃ msg, mapThrowing f l = .error msg) ↔ ∃ a ∈ l, ∃ msg, f a = .error msg := by
  induction l with
  | nil => simp [mapThrowing]
  | cons x rest ih =>
    cases hx : f x with
    | error e =>
      constructor
      · intro _
        exact ⟨x, List.mem_cons_self _ _, e, hx⟩
      · intro _
        exact ⟨e, by simp [mapThrowing, hx]⟩
    | ok b =>
      constructor
      · rintro ⟨msg, hmsg⟩
        cases hr : mapThrowing f rest with
        | error e =>
          obtain ⟨a, ha, hfa⟩ := ih.mp ⟨e, hr⟩
          exact ⟨a, List.mem_cons_of_mem _ ha, hfa⟩
        | ok bs => simp [mapThrowing, hx, hr] at hmsg
      · rintro ⟨a, ha, msg, hfa⟩
        rcases List.mem_cons.mp ha with h1 | h1
        · subst h1
          rw [hx] at hfa
          cases hfa
        · obtain ⟨e, he⟩ := ih.mpr ⟨a, h1, msg, hfa⟩
          exact ⟨e, by simp [mapThrowing, hx, he]⟩

/-- C27: `UPDATE_ITEM_STATUS` throws if and only if `myList[type]` contains an
entry with the given `id` that has no `trackingData` and the action omits
`status` or omits `progress`; in every other case (both supplied, every matching
entry with `trackingData`, or no matching entry) it returns a state. -/
theorem update_status_throws (s : AppState) (type : Category) (id : Int)
    (status progress : JVal) :
    ((∃ msg, appReducer s (.UPDATE_ITEM_STATUS type id status progress) = .error msg) ↔
      (∃ e ∈ s.myList.get type, e.mal_id = id ∧ e.trackingData = none) ∧
        (status = JVal.undefined ∨ progress = JVal.undefined)) ∧
    ((∃ s', appReducer s (.UPDATE_ITEM_STATUS type id status progress) = .ok s') ↔
      ¬ ((∃ e ∈ s.myList.get type, e.mal_id = id ∧ e.trackingData = none) ∧
        (status = JVal.undefined ∨ progress = JVal.undefined))) := by
  have hiff : (∃ msg, appReducer s (.UPDATE_ITEM_STATUS type id status progress) = .error msg) ↔
      (∃ e ∈ s.myList.get type, e.mal_id = id ∧ e.trackingData = none) ∧
        (status = JVal.undefined ∨ progress = JVal.undefined) := by
    have hred : (∃ msg, appReducer s (.UPDATE_ITEM_STATUS type id status progress) = .error msg) ↔
        ∃ msg, mapThrowing (updateItem id status progress) (s.myList.get type) = .error msg := by
      simp only [appReducer]
      cases mapThrowing (updateItem id status progress) (s.myList.get type) <;> simp
    rw [hred, mapThrowing_throws]
    constructor
    · rintro ⟨e, he, hmsg⟩
      obtain ⟨h1, h2, h3⟩ := (updateItem_throws id status progress e).mp hmsg
      exact ⟨⟨e, he, h1, h2⟩, h3⟩
    · rintro ⟨⟨e, he, h1, h2⟩, h3⟩
      exact ⟨e, he, (updateItem_throws id status progress e).mpr ⟨h1, h2, h3⟩⟩
  refine ⟨hiff, ?_⟩
  rw [← hiff]
  cases appReducer s (.UPDATE_ITEM_STATUS type id status progress) <;> simp

/-- Witness of C27: a character added with `ADD_TO_LIST` has no tracking data;
an update with only `progress` throws, an update with both fields returns. -/
theorem update_status_throws_witness :
    (∃ msg, appReducer
        { initialState with
          myList := initialState.myList.set .characters
            [{ mal_id := 1, fields := JObj.empty, trackingData := none }] }
        (.UPDATE_ITEM_STATUS .characters 1 .undefined (.num 4)) = .error msg) ∧
    appReducer
        { initialState with
          myList := initialState.myList.set .characters
            [{ mal_id := 1, fields := JObj.empty, trackingData := none }] }
        (.UPDATE_ITEM_STATUS .characters 1 (.str "Watching") (.num 4))
      = .ok
        { initialState with
          myList := initialState.myList.set .characters
            [{ mal_id := 1, fields := JObj.empty,
               trackingData := some (JObj.ofList [("status", .str "Watching"), ("progress", .num 4)]) }] } :=
  ⟨(update_status_throws
      { initialState with
        myList := initialState.myList.set .characters
          [{ mal_id := 1, fields := JObj.empty, trackingData := none }] }
      .characters 1 .undefined (.num 4)).1.mpr
      ⟨⟨{ mal_id := 1, fields := JObj.empty, trackingData := none }, by decide, rfl, rfl⟩,
        Or.inl rfl⟩,
    rfl⟩

/-- C25 as stated fails: with the history `['a', 'b']`, `addToSearchHistory('b')`
(on a context value rendered with that history) leaves the history as it is,
and its first entry is `'a'`, not `'b'`. -/
theorem record_search_keeps_position :
    dispatchAll { initialState with searchHistory := ["a", "b"] }
        (addToSearchHistory { initialState with searchHistory := ["a", "b"] } "b")
      = .ok { initialState with searchHistory := ["a", "b"] } ∧
    (["a", "b"] : List String).head? ≠ some "b" :=
  ⟨rfl, by decide⟩

/-- C25, amended: for every history and every non-empty query `q`, after
`addToSearchHistory(q)` (one call, on a context value rendered with the state
the reducer holds) the first entry of `searchHistory` is `q` when `q` was not
present before; when `q` was already present the history is unchanged, so `q`
stays where it was (it is first only if it was first). -/
theorem record_search_front (state : AppState) (q : String) (hq : q ≠ "") :
    ∃ s', dispatchAll state (addToSearchHistory state q) = .ok s' ∧
      (q ∉ state.searchHistory → s'.searchHistory.head? = some q) ∧
      (q ∈ state.searchHistory → s'.searchHistory = state.searchHistory) ∧
      q ∈ s'.searchHistory := by
  by_cases hmem : q ∈ state.searchHistory
  · exact ⟨state, by simp [addToSearchHistory, hmem, dispatchAll], fun h => absurd hmem h,
      fun _ => rfl, hmem⟩
  · exact ⟨{ state with searchHistory := q :: state.searchHistory.take 9 },
      by simp [addToSearchHistory, hmem, hq, appReducer, dispatchAll], fun _ => rfl,
      fun h => absurd h hmem, List.mem_cons_self _ _⟩

/-- Witness of C25 amended: `'c'` recorded on the history `['a', 'b']` goes to
the front. -/
theorem record_search_front_witness :
    ∃ s', dispatchAll { initialState with searchHistory := ["a", "b"] }
        (addToSearchHistory { initialState with searchHistory := ["a", "b"] } "c") = .ok s' ∧
      s'.searchHistory.head? = some "c" :=
  (record_search_front { initialState with searchHistory := ["a", "b"] } "c" (by decide)).imp
    fun _ h => ⟨h.1, h.2.1 (by decide)⟩

theorem mapThrowing_mem_of_result {α β : Type} (f : α → Except String β) (l : List α)
    (l' : List β) (h : mapThrowing f l = .ok l') (b : β) (hb : b ∈ l') :
    ∃ a ∈ l, f a = .ok b := by
  induction l generalizing l' with
  | nil =>
    simp only [mapThrowing, Except.ok.injEq] at h
    subst h
    simp at hb
  | cons x rest ih =>
    simp only [mapThrowing] at h
    cases hx : f x with
    | error e => simp [hx] at h
    | ok b0 =>
      cases hr : mapThrowing f rest with
      | error e => simp [hx, hr] at h
      | ok bs =>
        simp only [hx, hr, Except.ok.injEq] at h
        subst h
        rcases List.mem_cons.mp hb with h1 | h1
        · subst h1
          exact ⟨x, List.mem_cons_self _ _, hx⟩
        · obtain ⟨a, ha, hfa⟩ := ih bs hr h1
          exact ⟨a, List.mem_cons_of_mem _ ha, hfa⟩

/-- C29: `UPSERT_LIST_ITEM` for an identity that is present, entry `i` being
the first entry with that `mal_id`: the list keeps its length, every entry at
another position is unchanged (also a later entry with the same `mal_id`),
entry `i` keeps its `mal_id` and its stored properties other than
`trackingData`, the result is the same for every item argument with that
`mal_id` (its other properties are ignored), and the rest of the state is
unchanged. By contrast `UPDATE_ITEM_STATUS` with a status gives that status to
every entry with the `mal_id`. -/
theorem upsert_frame (s : AppState) (type : Category) (item : Item)
    (trackingData : Option JObj) (i : Nat) (e : Item)
    (hi : (s.myList.get type)[i]? = some e) (he : e.mal_id = item.mal_id)
    (hfirst : ∀ j e2, j < i → (s.myList.get type)[j]? = some e2 → e2.mal_id ≠ item.mal_id) :
    ∃ s', appReducer s (.UPSERT_LIST_ITEM type item trackingData) = .ok s' ∧
      (s'.myList.get type).length = (s.myList.get type).length ∧
      (∀ j, j ≠ i → (s'.myList.get type)[j]? = (s.myList.get type)[j]?) ∧
      (∃ e', (s'.myList.get type)[i]? = some e' ∧ e'.mal_id = e.mal_id ∧ e'.fields = e.fields) ∧
      (∀ item' : Item, item'.mal_id = item.mal_id →
        appReducer s (.UPSERT_LIST_ITEM type item' trackingData) = .ok s') ∧
      (∀ c, c ≠ type → s'.myList.get c = s.myList.get c) ∧
      s'.favorites = s.favorites ∧ s'.searchHistory = s.searchHistory ∧
      s'.darkMode = s.darkMode ∧ s'.statusModal = s.statusModal ∧
      (∀ status progress s'', status ≠ JVal.undefined →
        appReducer s (.UPDATE_ITEM_STATUS type item.mal_id status progress) = .ok s'' →
        ∀ e'' ∈ s''.myList.get type, e''.mal_id = item.mal_id →
          ∃ td, e''.trackingData = some td ∧ td.get "status" = status) := by
  have hpres := upsertList_present (s.myList.get type) item trackingData i e hi he hfirst
  have hlt : i < (s.myList.get type).length := (List.getElem?_eq_some.mp hi).1
  refine ⟨_, rfl, ?_, ?_, ?_, ?_, fun c hc => ByCategory.get_set_other _ _ _ _ hc,
    rfl, rfl, rfl, rfl, ?_⟩
  · simp only [ByCategory.get_set_same, hpres, List.length_set]
  · intro j hj
    simp only [ByCategory.get_set_same, hpres, List.getElem?_set]
    have hij : ¬ i = j := fun h => hj h.symm
    simp [hij]
  · refine ⟨{ e with
        trackingData := some ((JObj.empty.spreadOpt e.trackingData).spreadOpt trackingData) },
      ?_, rfl, rfl⟩
    simp only [ByCategory.get_set_same, hpres, List.getElem?_set, hlt, if_true]
  · intro item' hid
    have hpres' := upsertList_present (s.myList.get type) item' trackingData i e hi
      (he.trans hid.symm) (fun j e2 hj h2 => by rw [hid]; exact hfirst j e2 hj h2)
    simp only [appReducer, hpres, hpres']
  · intro status progress s'' hst hs''
    simp only [appReducer] at hs''
    split at hs''
    · simp at hs''
    · next newList hmap =>
      simp only [Except.ok.injEq] at hs''
      subst hs''
      intro e'' he'' hid''
      simp only [ByCategory.get_set_same] at he''
      obtain ⟨e0, _, hf0⟩ := mapThrowing_mem_of_result _ _ _ hmap e'' he''
      by_cases h0 : e0.mal_id = item.mal_id
      · obtain ⟨_, td, htd, hs, _⟩ := updateItem_result item.mal_id status progress e0 e'' hf0 h0
        exact ⟨td, htd, hs hst⟩
      · simp only [updateItem, h0, if_false, Except.ok.injEq] at hf0
        rw [← hf0] at hid''
        exact absurd hid'' h0

/-- Witness of C29: two entries with `mal_id` 1; the upsert of
`{ status: 'Completed' }` changes the first one only, the update with status
`'Completed'` and progress 12 changes both. -/
theorem upsert_frame_witness :
    (∃ s', appReducer
        { initialState with
          myList := initialState.myList.set .anime
            [{ mal_id := 1, fields := JObj.empty,
               trackingData := some (JObj.ofList [("status", .str "Watching")]) },
             { mal_id := 1, fields := JObj.empty,
               trackingData := some (JObj.ofList [("status", .str "On Hold")]) }] }
        (.UPSERT_LIST_ITEM .anime
          { mal_id := 1, fields := JObj.ofList [("title", .str "other")], trackingData := none }
          (some (JObj.ofList [("status", .str "Completed")]))) = .ok s' ∧
      (s'.myList.get .anime)[1]?
        = some { mal_id := 1, fields := JObj.empty,
                 trackingData := some (JObj.ofList [("status", .str "On Hold")]) }) ∧
    appReducer
        { initialState with
          myList := initialState.myList.set .anime
            [{ mal_id := 1, fields := JObj.empty,
               trackingData := some (JObj.ofList [("status", .str "Watching")]) },
             { mal_id := 1, fields := JObj.empty,
               trackingData := some (JObj.ofList [("status", .str "On Hold")]) }] }
        (.UPDATE_ITEM_STATUS .anime 1 (.str "Completed") (.num 12))
      = .ok
        { initialState with
          myList := initialState.myList.set .anime
            [{ mal_id := 1, fields := JObj.empty,
               trackingData := some (JObj.ofList [("status", .str "Completed"), ("progress", .num 12)]) },
             { mal_id := 1, fields := JObj.empty,
               trackingData := some (JObj.ofList [("status", .str "Completed"), ("progress", .num 12)]) }] } :=
  ⟨(upsert_frame
      { initialState with
        myList := initialState.myList.set .anime
          [{ mal_id := 1, fields := JObj.empty,
             trackingData := some (JObj.ofList [("status", .str "Watching")]) },
           { mal_id := 1, fields := JObj.empty,
             trackingData := some (JObj.ofList [("status", .str "On Hold")]) }] }
      .anime
      { mal_id := 1, fields := JObj.ofList [("title", .str "other")], trackingData := none }
      (some (JObj.ofList [("status", .str "Completed")])) 0
      { mal_id := 1, fields := JObj.empty,
        trackingData := some (JObj.ofList [("status", .str "Watching")]) }
      rfl rfl (fun j _ hj _ => absurd hj (Nat.not_lt_zero j))).imp
      fun _ h => ⟨h.1, by rw [h.2.2.1 1 (by decide)]; rfl⟩,
    rfl⟩

/-! ## Proofs: saving twice -/

theorem Props.assign_same (l : Props) (k : String) (v : JVal)
    (h : Props.lookup l k = some v) : Props.assign l k v = l := by
  induction l with
  | nil => simp [Props.lookup] at h
  | cons a rest ih =>
    obtain ⟨k1, v1⟩ := a
    by_cases h1 : k1 = k
    · subst h1
      simp only [Props.lookup, if_true, Option.some.injEq] at h
      simp [Props.assign, h]
    · simp only [Props.lookup, h1, if_false] at h
      simp [Props.assign, h1, ih h]

theorem JObj.set_same (o : JObj) (k : String) (v : JVal) (h : o.lookup k = some v) :
    o.set k v = o :=
  Subtype.ext (Props.assign_same o.1 k v h)

theorem JObj.foldl_fixed (l : Props) (o : JObj)
    (h : ∀ kv ∈ l, o.lookup kv.1 = some kv.2) :
    l.foldl (fun acc kv => acc.set kv.1 kv.2) o = o := by
  induction l with
  | nil => rfl
  | cons a rest ih =>
    simp only [List.foldl_cons]
    rw [JObj.set_same o a.1 a.2 (h a (List.mem_cons_self _ _))]
    exact ih (fun kv hkv => h kv (List.mem_cons_of_mem _ hkv))

theorem JObj.spread_fixed (o src : JObj) (h : ∀ kv ∈ src.1, o.lookup kv.1 = some kv.2) :
    o.spread src = o :=
  JObj.foldl_fixed src.1 o h

theorem Props.assign_new (l : Props) (k : String) (v : JVal) (h : k ∉ l.keys) :
    Props.assign l k v = l ++ [(k, v)] := by
  induction l with
  | nil => rfl
  | cons a rest ih =>
    obtain ⟨k1, v1⟩ := a
    simp only [Props.keys, List.map_cons, List.mem_cons, not_or] at h
    have h1 : ¬ k1 = k := fun e => h.1 e.symm
    simp only [Props.assign, h1, if_false, List.cons_append, List.cons.injEq, true_and]
    exact ih h.2

theorem JObj.foldl_append (l : Props) (acc : JObj) (h : (acc.1 ++ l).keys.Nodup) :
    (l.foldl (fun acc kv => acc.set kv.1 kv.2) acc).1 = acc.1 ++ l := by
  induction l generalizing acc with
  | nil => simp
  | cons a rest ih =>
    obtain ⟨k1, v1⟩ := a
    have hk : k1 ∉ acc.1.keys := by
      simp only [Props.keys, List.map_append, List.map_cons] at h
      intro hmem
      have := (List.nodup_append.mp h).2.2 hmem (List.mem_cons_self _ _)
      exact this
    have hset : (acc.set k1 v1).1 = acc.1 ++ [(k1, v1)] := Props.assign_new acc.1 k1 v1 hk
    simp only [List.foldl_cons]
    rw [ih (acc.set k1 v1) (by rw [hset]; simpa using h), hset]
    simp

theorem JObj.spread_empty (o : JObj) : JObj.empty.spread o = o :=
  Subtype.ext (by
    have := JObj.foldl_append o.1 JObj.empty (by simpa [JObj.empty] using o.2)
    simpa [JObj.spread, JObj.empty] using this)

theorem upsertList_fixed (list : List Item) (item : Item) (trackingData : Option JObj)
    (e : Item) (h : list.find? (fun x => decide (x.mal_id = item.mal_id)) = some e)
    (hfix : (JObj.empty.spreadOpt e.trackingData).spreadOpt trackingData = e.trackingData) :
    upsertList list item trackingData = list := by
  obtain ⟨hp, as, bs, hl, has⟩ := List.find?_eq_some.mp h
  have hid : e.mal_id = item.mal_id := by simpa using hp
  have hi : list[as.length]? = some e := by
    rw [hl, List.getElem?_append_right (Nat.le_refl _)]
    simp
  have hfirst : ∀ j e2, j < as.length → list[j]? = some e2 → e2.mal_id ≠ item.mal_id := by
    intro j e2 hj h2
    rw [hl, List.getElem?_append_left hj] at h2
    have := has e2 (List.getElem?_mem h2)
    simpa using this
  rw [upsertList_present list item trackingData as.length e hi hid hfirst, hfix]
  apply List.ext_getElem?
  intro n
  rw [List.getElem?_set]
  by_cases hn : as.length = n
  · subst hn
    simp [hi, (List.getElem?_eq_some.mp hi).1]
  · simp [hn]

theorem savePolicy_fixed (type : Category) (total : Option Int) (status : String)
    (progress : Int) :
    savePolicy type total (savePolicy type total status progress).1
        (savePolicy type total status progress).2
      = savePolicy type total status progress := by
  obtain ⟨h1, h2, h3, h4, h5⟩ := watchStatus_cases type
  by_cases hC : status = "Completed"
  · simp [savePolicy, hC]
  · by_cases hP : status = "Plan to Watch" ∨ status = "Plan to Read" ∨ status = "Dropped"
    · simp [savePolicy, hC, hP]
    · by_cases hW : status = watchStatus type
      · cases total with
        | none => simp [savePolicy, hC, hP, hW, totalKnown, h1, h2, h3, h4]
        | some T =>
          by_cases h0 : T = 0
          · simp [savePolicy, hW, totalKnown, h1, h2, h3, h4, h0]
          · by_cases hle : T ≤ min progress T
            · simp [savePolicy, hW, totalKnown, h1, h2, h3, h4, h0, hle]
            · have hle2 : ¬ T ≤ min (min progress T) T := by omega
              have hmin : min (min progress T) T = min progress T := by omega
              simp [savePolicy, hW, totalKnown, h1, h2, h3, h4, h0, hle, hle2, hmin]
      · by_cases hH : status = "On Hold"
        · have hH' : ¬ "On Hold" = watchStatus type := fun h => h5 h.symm
          cases total with
          | none => simp [savePolicy, hH, totalKnown, hH']
          | some T =>
            by_cases h0 : T = 0
            · simp [savePolicy, hH, totalKnown, hH', h0]
            · have hmin : min (min progress T) T = min progress T := by omega
              simp [savePolicy, hH, totalKnown, hH', h0, hmin]
        · simp [savePolicy, hC, hP, hW, hH]

theorem JObj.lookup_own (o : JObj) : ∀ kv ∈ o.1, o.lookup kv.1 = some kv.2 := by
  have key : ∀ l : Props, l.keys.Nodup → ∀ kv ∈ l, Props.lookup l kv.1 = some kv.2 := by
    intro l
    induction l with
    | nil => intro _ kv hkv; simp at hkv
    | cons a rest ih =>
      intro hnd kv hkv
      obtain ⟨k1, v1⟩ := a
      simp only [Props.keys, List.map_cons, List.nodup_cons] at hnd
      rcases List.mem_cons.mp hkv with h1 | h1
      · subst h1
        simp [Props.lookup]
      · have hne : ¬ k1 = kv.1 := by
          intro heq
          exact hnd.1 (heq ▸ List.mem_map_of_mem Prod.fst h1)
        simp only [Props.lookup, hne, if_false]
        exact ih hnd.2 kv h1
  exact key o.1 o.2

theorem upsertList_twice (list : List Item) (item : Item) (new : JObj) :
    ∃ e td,
      (upsertList list item (some new)).find? (fun x => decide (x.mal_id = item.mal_id))
        = some e ∧
      e.trackingData = some td ∧ (∀ kv ∈ new.1, td.lookup kv.1 = some kv.2) ∧
      upsertList (upsertList list item (some new)) item (some new)
        = upsertList list item (some new) := by
  have hown := JObj.lookup_own new
  cases hf : list.find? (fun x => decide (x.mal_id = item.mal_id)) with
  | none =>
    have hfind := (find_upsertList list item (some new)).2 hf
    refine ⟨_, new, hfind, rfl, hown, ?_⟩
    apply upsertList_fixed _ item (some new) _ hfind
    simp only [JObj.spreadOpt]
    rw [JObj.spread_empty, JObj.spread_fixed new new hown]
  | some e0 =>
    have hfind := (find_upsertList list item (some new)).1 e0 hf
    have hlook : ∀ kv ∈ new.1,
        ((JObj.empty.spreadOpt e0.trackingData).spreadOpt (some new)).lookup kv.1
          = some kv.2 := by
      intro kv hkv
      simp only [JObj.spreadOpt, JObj.lookup_spread, hown kv hkv]
    refine ⟨_, (JObj.empty.spreadOpt e0.trackingData).spreadOpt (some new), hfind, rfl,
      hlook, ?_⟩
    apply upsertList_fixed _ item (some new) _ hfind
    simp only [JObj.spreadOpt]
    rw [JObj.spread_empty]
    exact congrArg some (JObj.spread_fixed _ new hlook)

/-- C30: the status policy of `handleSave` is idempotent: for every category,
total, status and progress, applying it to the pair it returns gives that pair
again. Consequently, after `handleSave` has stored an item's tracking data,
opening the editor on the stored status and progress and saving again, without
edits, returns the same state. -/
theorem resave_unchanged (s : AppState) (type : Category) (item : Item)
    (total : Option Int) (status : String) (progress : Int) :
    savePolicy type total (savePolicy type total status progress).1
        (savePolicy type total status progress).2
      = savePolicy type total status progress ∧
    ∃ s1 e td, dispatchAll s (handleSave type item status progress) = .ok s1 ∧
      getItemFromList s1 type item.mal_id = some e ∧ e.trackingData = some td ∧
      td.get "status" = .str (savePolicy type (itemTotal type item) status progress).1 ∧
      td.get "progress" = .num (savePolicy type (itemTotal type item) status progress).2 ∧
      dispatchAll s1
        (handleSave type item (savePolicy type (itemTotal type item) status progress).1
          (savePolicy type (itemTotal type item) status progress).2) = .ok s1 := by
  refine ⟨savePolicy_fixed type total status progress, ?_⟩
  have hfixp := savePolicy_fixed type (itemTotal type item) status progress
  simp only [handleSave]
  generalize savePolicy type (itemTotal type item) status progress = pol at hfixp ⊢
  simp only [hfixp]
  obtain ⟨st, p⟩ := pol
  obtain ⟨e, td, hfind, htd, hlook, htwice⟩ := upsertList_twice (s.myList.get type) item
    (JObj.ofList [("status", .str st), ("progress", .num p)])
  have hnew1 : (JObj.ofList [("status", JVal.str st), ("progress", JVal.num p)]).1
      = [("status", JVal.str st), ("progress", JVal.num p)] := by
    simp [JObj.ofList, JObj.set, JObj.empty, Props.assign]
  have hs := hlook ("status", JVal.str st) (by rw [hnew1]; simp)
  have hp := hlook ("progress", JVal.num p) (by rw [hnew1]; simp)
  refine ⟨_, e, td, rfl, ?_, htd, ?_, ?_, ?_⟩
  · simpa [getItemFromList, ByCategory.get_set_same] using hfind
  · simp only [JObj.get, hs, Option.getD_some]
  · simp only [JObj.get, hp, Option.getD_some]
  · simp only [dispatchAll, appReducer, ByCategory.get_set_same, htwice]
    cases type <;> rfl

/-- Witness of C30: an anime of 12 episodes saved as `'Watching'` with entered
progress 15 is stored as `'Completed'` with progress 12, and the policy maps
that pair to itself. -/
theorem resave_unchanged_witness :
    savePolicy .anime (some 12) "Watching" 15 = ("Completed", 12) ∧
    savePolicy .anime (some 12) "Completed" 12 = ("Completed", 12) ∧
    savePolicy .anime (some 12) (savePolicy .anime (some 12) "Watching" 15).1
        (savePolicy .anime (some 12) "Watching" 15).2
      = savePolicy .anime (some 12) "Watching" 15 :=
  ⟨by decide, by decide,
    (resave_unchanged initialState .anime
      { mal_id := 1, fields := JObj.ofList [("episodes", .num 12)], trackingData := none }
      (some 12) "Watching" 15).1⟩

/-! ## Proofs: the delay after a completion -/

theorem processQueue_after {c : Nat} {base : List (QueuedRequest × Nat)} {s : QState}
    (h : QAfter c base s) : QAfter c base (processQueue s) := by
  unfold processQueue
  split
  · exact h
  · next hc =>
    have hp : s.isProcessing = false := by
      cases hb : s.isProcessing
      · rfl
      · exact absurd (Or.inr hb) hc
    split
    · exact h
    · next r rest hq =>
      obtain ⟨h1, h2, h3, later, h4, h5⟩ := h
      refine ⟨h1, h2, by simp, later ++ [(r, s.now)], by simp [h4], ?_⟩
      intro d hd
      rcases List.mem_append.mp hd with hd | hd
      · exact h5 d hd
      · simp only [List.mem_singleton] at hd
        rw [hd]
        exact h3 hp

theorem qstep_after {c : Nat} {base : List (QueuedRequest × Nat)} {s s' : QState} {e : QEvent}
    (h : QAfter c base s) (hs : qstep s e = some s') : QAfter c base s' := by
  cases e with
  | enqueue config =>
    simp only [qstep, Option.some.injEq] at hs
    subst hs
    exact processQueue_after h
  | complete i o =>
    simp only [qstep, complete] at hs
    split at hs
    · simp at hs
    · simp only [Option.some.injEq] at hs
      subst hs
      obtain ⟨h1, h2, h3, h4⟩ := h
      refine ⟨h1, ?_, h3, h4⟩
      intro due hdue
      rcases List.mem_append.mp hdue with hd | hd
      · exact h2 due hd
      · simp only [List.mem_singleton] at hd
        rw [hd]
        exact Nat.add_le_add_right h1 _
  | timer j =>
    simp only [qstep, timerFire] at hs
    split at hs
    · simp at hs
    · next due hdue =>
      split at hs
      · next hle =>
        simp only [Option.some.injEq] at hs
        subst hs
        apply processQueue_after
        obtain ⟨h1, h2, _, h4⟩ := h
        refine ⟨h1, fun d hd => h2 d (List.mem_of_mem_eraseIdx hd), fun _ => ?_, h4⟩
        exact le_trans (h2 due (List.getElem?_mem hdue)) hle
      · simp at hs
  | advance dt =>
    simp only [qstep, Option.some.injEq] at hs
    subst hs
    obtain ⟨h1, h2, h3, h4⟩ := h
    exact ⟨Nat.le_add_right_of_le h1, h2, fun hp => Nat.le_add_right_of_le (h3 hp), h4⟩

theorem qrun_after {c : Nat} {base : List (QueuedRequest × Nat)} {es : List QEvent}
    {s s' : QState} (h : QAfter c base s) (hs : qrun s es = some s') : QAfter c base s' := by
  induction es generalizing s with
  | nil =>
    simp only [qrun, Option.some.injEq] at hs
    subst hs
    exact h
  | cons e es ih =>
    simp only [qrun] at hs
    cases hq : qstep s e with
    | none => simp [hq] at hs
    | some s1 =>
      rw [hq] at hs
      exact ih (qstep_after h hq) hs

/-- C24 as stated fails: the first dispatch begins at `s = 0` and its call
completes at `c = 300`; at time `max(c, s + 1100) = 1100` the cooldown timer
cannot fire, and the next dispatch begins at 1400 at the earliest. -/
theorem delay_not_from_initiation :
    qrun QState.init
      [.enqueue 7, .enqueue 8, .advance 300, .complete 0 (.response 5), .advance 800, .timer 0]
      = none ∧
    (qrun QState.init
      [.enqueue 7, .enqueue 8, .advance 300, .complete 0 (.response 5), .advance 1100,
        .timer 0]).map QState.starts = some [0, 1400] ∧
    max 300 (0 + 1100) = 1100 :=
  ⟨by decide, by decide, by decide⟩

/-- C24, amended: the fixed delay is measured from the completion of the call.
When the call in flight completes at time `c` (the clock of the state), with
either outcome, a single cooldown timer is pending, due at `c + 1100`, and in
every continuation of the run the dispatch log is the log at time `c` followed
by dispatches that begin at `c + 1100` or later. -/
theorem delay_from_completion (s : QState) (h : QReachable s) (i : Nat) (o : Outcome)
    (es : List QEvent) (s' : QState) (hrun : qrun s (.complete i o :: es) = some s') :
    (∃ s1, qstep s (.complete i o) = some s1 ∧ s1.timers = [s.now + 1100]) ∧
    ∃ later, s'.dispatched = s.dispatched ++ later ∧ ∀ d ∈ later, s.now + 1100 ≤ d.2 := by
  simp only [qrun] at hrun
  cases hq : qstep s (.complete i o) with
  | none => simp [hq] at hrun
  | some s1 =>
    rw [hq] at hrun
    have hq' := hq
    simp only [qstep, complete] at hq'
    split at hq'
    · simp at hq'
    · next r hr =>
      simp only [Option.some.injEq] at hq'
      have hlt : i < s.inflight.length := (List.getElem?_eq_some.mp hr).1
      have hl := (qreachable_inv h).1.lane
      have hp : s.isProcessing = true := by
        cases hb : s.isProcessing
        · simp only [hb, Bool.false_eq_true, if_false] at hl; omega
        · rfl
      simp only [hp, if_true] at hl
      have hti : s.timers = [] := List.length_eq_zero.mp (by omega)
      have hbase : QAfter s.now s.dispatched s1 := by
        subst hq'
        refine ⟨Nat.le_refl _, ?_, ?_, [], by simp, by simp⟩
        · simp [hti]
        · simp [hp]
      obtain ⟨_, _, _, hlater⟩ := qrun_after hbase hrun
      refine ⟨⟨s1, rfl, ?_⟩, hlater⟩
      subst hq'
      simp [hti, RATE_LIMIT_DELAY]

/-- Witness of C24 amended: A, B, C enqueued at time 0; A completes at 300, B
fails at 1900; the dispatches begin at 0, 1400 and 3000. -/
theorem delay_from_completion_witness :
    ∃ later,
      [(({ config := 7, promise := 0 } : QueuedRequest), 0), ({ config := 8, promise := 1 }, 1400),
        ({ config := 9, promise := 2 }, 3000)]
        = [(({ config := 7, promise := 0 } : QueuedRequest), 0)] ++ later ∧
      ∀ d ∈ later, 300 + 1100 ≤ d.2 :=
  (delay_from_completion
    { requestQueue := [{ config := 8, promise := 1 }, { config := 9, promise := 2 }],
      isProcessing := true, now := 300, inflight := [{ config := 7, promise := 0 }],
      timers := [],
      enqueued := [{ config := 7, promise := 0 }, { config := 8, promise := 1 },
        { config := 9, promise := 2 }],
      dispatched := [({ config := 7, promise := 0 }, 0)], settled := [] }
    ⟨[.enqueue 7, .enqueue 8, .enqueue 9, .advance 300], by decide⟩
    0 (.response 5)
    [.advance 1100, .timer 0, .advance 500, .complete 0 (.error 1), .advance 1100, .timer 0]
    { requestQueue := [], isProcessing := true, now := 3000,
      inflight := [{ config := 9, promise := 2 }], timers := [],
      enqueued := [{ config := 7, promise := 0 }, { config := 8, promise := 1 },
        { config := 9, promise := 2 }],
      dispatched := [({ config := 7, promise := 0 }, 0), ({ config := 8, promise := 1 }, 1400),
        ({ config := 9, promise := 2 }, 3000)],
      settled := [(0, .response 5), (1, .error 1)] }
    (by decide)).2

/-! ## Proofs: uniqueness of identities -/

theorem updateItem_id (id : Int) (status progress : JVal) (e e' : Item)
    (h : updateItem id status progress e = .ok e') : e'.mal_id = e.mal_id := by
  unfold updateItem at h
  split at h
  · split at h
    · simp at h
    · split at h
      · simp at h
      · simp only [Except.ok.injEq] at h
        subst h
        rfl
  · simp only [Except.ok.injEq] at h
    subst h
    rfl

theorem mapThrowing_ids (id : Int) (status progress : JVal) (l l' : List Item)
    (h : mapThrowing (updateItem id status progress) l = .ok l') :
    l'.map Item.mal_id = l.map Item.mal_id := by
  induction l generalizing l' with
  | nil =>
    simp only [mapThrowing, Except.ok.injEq] at h
    subst h
    rfl
  | cons x rest ih =>
    simp only [mapThrowing] at h
    cases hx : updateItem id status progress x with
    | error e => simp [hx] at h
    | ok b =>
      cases hr : mapThrowing (updateItem id status progress) rest with
      | error e => simp [hx, hr] at h
      | ok bs =>
        simp only [hx, hr, Except.ok.injEq] at h
        subst h
        simp [updateItem_id id status progress x b hx, ih bs hr]

theorem nodup_set_get (m : ByCategory (List Item)) (type : Category) (v : List Item)
    (hm : ∀ c, ((m.get c).map Item.mal_id).Nodup) (hv : (v.map Item.mal_id).Nodup) :
    ∀ c, (((m.set type v).get c).map Item.mal_id).Nodup := by
  intro c
  by_cases hc : c = type
  · subst hc
    rw [ByCategory.get_set_same]
    exact hv
  · rw [ByCategory.get_set_other _ _ _ _ hc]
    exact hm c

theorem nodup_append_new (l : List Item) (item : Item) (hl : (l.map Item.mal_id).Nodup)
    (hnew : l.any (fun x => decide (x.mal_id = item.mal_id)) = false) :
    ((l ++ [item]).map Item.mal_id).Nodup := by
  rw [List.map_append, List.nodup_append]
  refine ⟨hl, List.nodup_singleton _, ?_⟩
  intro a ha hb
  simp only [List.map_cons, List.map_nil, List.mem_singleton] at hb
  obtain ⟨x, hx, hxa⟩ := List.mem_map.mp ha
  have := List.any_eq_false.mp hnew x hx
  simp only [decide_eq_true_eq] at this
  exact this (hxa.trans hb)

theorem nodup_upsertList (l : List Item) (item : Item) (trackingData : Option JObj)
    (hl : (l.map Item.mal_id).Nodup) :
    ((upsertList l item trackingData).map Item.mal_id).Nodup := by
  rw [upsertList_ids]
  split
  · exact hl
  · next hmem =>
    rw [List.nodup_append]
    refine ⟨hl, List.nodup_singleton _, ?_⟩
    intro a ha hb
    simp only [List.mem_singleton] at hb
    exact hmem (hb ▸ ha)

theorem nodup_filter_ids (l : List Item) (q : Item → Bool) (hl : (l.map Item.mal_id).Nodup) :
    ((l.filter q).map Item.mal_id).Nodup :=
  List.Nodup.sublist (List.Sublist.map _ (List.filter_sublist l)) hl

theorem appReducer_unique (s s' : AppState) (op : PublicOp) (hu : uniqueIds s)
    (hguard : (match op with
      | .addToList type item => !isInList s type item.mal_id
      | .addToFavorites type item => !isInFavorites s type item.mal_id
      | _ => true) = true)
    (hs : appReducer s op.action = .ok s') : uniqueIds s' := by
  have hm : ∀ c, ((s.myList.get c).map Item.mal_id).Nodup := fun c => (hu c).1
  have hf : ∀ c, ((s.favorites.get c).map Item.mal_id).Nodup := fun c => (hu c).2
  cases op with
  | addToList type item =>
    simp only [PublicOp.action, appReducer, Except.ok.injEq] at hs
    subst hs
    have hnew : (s.myList.get type).any (fun x => decide (x.mal_id = item.mal_id)) = false := by
      simpa [isInList] using hguard
    exact fun c => ⟨nodup_set_get _ type _ hm (nodup_append_new _ item (hm type) hnew) c, hf c⟩
  | upsertListItem type item trackingData =>
    simp only [PublicOp.action, appReducer, Except.ok.injEq] at hs
    subst hs
    exact fun c => ⟨nodup_set_get _ type _ hm (nodup_upsertList _ item trackingData (hm type)) c,
      hf c⟩
  | removeFromList type id =>
    simp only [PublicOp.action, appReducer, Except.ok.injEq] at hs
    subst hs
    exact fun c => ⟨nodup_set_get _ type _ hm (nodup_filter_ids _ _ (hm type)) c, hf c⟩
  | updateItemStatus type id status progress =>
    simp only [PublicOp.action, appReducer] at hs
    split at hs
    · simp at hs
    · next newList hmap =>
      simp only [Except.ok.injEq] at hs
      subst hs
      have hids := mapThrowing_ids id status progress _ _ hmap
      exact fun c => ⟨nodup_set_get _ type _ hm (by rw [hids]; exact hm type) c, hf c⟩
  | addToFavorites type item =>
    simp only [PublicOp.action, appReducer, Except.ok.injEq] at hs
    subst hs
    have hnew : (s.favorites.get type).any (fun x => decide (x.mal_id = item.mal_id)) = false := by
      simpa [isInFavorites] using hguard
    exact fun c => ⟨hm c, nodup_set_get _ type _ hf (nodup_append_new _ item (hf type) hnew) c⟩
  | removeFromFavorites type id =>
    simp only [PublicOp.action, appReducer, Except.ok.injEq] at hs
    subst hs
    exact fun c => ⟨hm c, nodup_set_get _ type _ hf (nodup_filter_ids _ _ (hf type)) c⟩

theorem runPublic_unique (ops : List PublicOp) (s0 s : AppState) (hu : uniqueIds s0)
    (hrun : runPublic s0 ops = .ok s) (hguard : addsOnlyAbsent s0 ops = true) :
    uniqueIds s := by
  induction ops generalizing s0 with
  | nil =>
    simp only [runPublic, List.map_nil, dispatchAll, Except.ok.injEq] at hrun
    subst hrun
    exact hu
  | cons op rest ih =>
    simp only [runPublic, List.map_cons, dispatchAll] at hrun
    simp only [addsOnlyAbsent, Bool.and_eq_true] at hguard
    cases hop : appReducer s0 op.action with
    | error e => simp [hop] at hrun
    | ok s1 =>
      simp only [hop] at hrun hguard
      exact ih s1 (appReducer_unique s0 s1 op hu hguard.1 hop) hrun hguard.2

/-! ## Uniqueness of identities: results -/

/-- C21 as stated fails: `addToList` called twice with the same character
gives a list that holds the `mal_id` 1 twice. -/
theorem add_twice_duplicates :
    ∃ s, runPublic initialState
        [.addToList .characters { mal_id := 1, fields := JObj.empty, trackingData := none },
         .addToList .characters { mal_id := 1, fields := JObj.empty, trackingData := none }]
        = .ok s ∧
      (s.myList.get .characters).map Item.mal_id = [1, 1] ∧
      ¬ ((s.myList.get .characters).map Item.mal_id).Nodup :=
  ⟨_, rfl, rfl, by decide⟩

/-- C21, amended: in every state reached from the initial state by a sequence
of calls of `addToList`, `upsertListItem`, `removeFromList`,
`updateItemStatus`, `addToFavorites` and `removeFromFavorites` in which
`addToList` and `addToFavorites` are called only for an identity that is not
yet in the list (the callers test `isInList` / `isInFavorites` first), every
`myList[type]` and every `favorites[type]` holds at most one entry per
`mal_id`. -/
theorem ids_unique (ops : List PublicOp) (s : AppState)
    (hrun : runPublic initialState ops = .ok s)
    (hguard : addsOnlyAbsent initialState ops = true) :
    ∀ type, ((s.myList.get type).map Item.mal_id).Nodup ∧
      ((s.favorites.get type).map Item.mal_id).Nodup :=
  runPublic_unique ops initialState s
    (fun type => by cases type <;> exact ⟨List.nodup_nil, List.nodup_nil⟩) hrun hguard

/-- Witness of C21 amended: a character added, upserted, removed and added
again; the list holds it once. -/
theorem ids_unique_witness :
    ((({ initialState with
        myList := initialState.myList.set .characters
          [{ mal_id := 1, fields := JObj.empty, trackingData := none }] } : AppState).myList.get
        .characters).map Item.mal_id).Nodup ∧
    ((({ initialState with
        myList := initialState.myList.set .characters
          [{ mal_id := 1, fields := JObj.empty, trackingData := none }] } : AppState).favorites.get
        .characters).map Item.mal_id).Nodup :=
  ids_unique
    [.addToList .characters { mal_id := 1, fields := JObj.empty, trackingData := none },
     .upsertListItem .characters { mal_id := 1, fields := JObj.empty, trackingData := none } none,
     .removeFromList .characters 1,
     .addToList .characters { mal_id := 1, fields := JObj.empty, trackingData := none }]
    { initialState with
      myList := initialState.myList.set .characters
        [{ mal_id := 1, fields := JObj.empty, trackingData := none }] }
    rfl rfl .characters

/-! ## The category keys: results -/

set_option maxRecDepth 100000 in
/-- C22 as stated fails: the stored string `{"myList":{}}` parses to the object
`{ myList: {} }`, and hydration with it gives a state whose `myList` has none
of the three keys. It is the state that the action `LOAD_LOCAL_DATA` with that
object reaches from the initial state. -/
theorem hydration_drops_categories :
    JTree.ofText "\x7b\"myList\":\x7b\x7d\x7d" = some (JTree.obj [("myList", JTree.obj [])]) ∧
    (hydrate JTree.ofText (some "\x7b\"myList\":\x7b\x7d\x7d") initialState.toJs).get "myList"
      = JTree.obj [] ∧
    ((hydrate JTree.ofText (some "\x7b\"myList\":\x7b\x7d\x7d") initialState.toJs).get
      "myList").hasCategoryLists = false ∧
    runAny initialState.toJs [.LOAD_LOCAL_DATA (JTree.obj [("myList", JTree.obj [])])]
      = .ok (hydrate JTree.ofText (some "\x7b\"myList\":\x7b\x7d\x7d") initialState.toJs) :=
  ⟨rfl, rfl, rfl, rfl⟩

theorem TProps.assign_absent (l : TProps) (k : String) (v : JTree)
    (h : k ∉ l.map Prod.fst) : TProps.assign l k v = l ++ [(k, v)] := by
  induction l with
  | nil => rfl
  | cons a rest ih =>
    obtain ⟨k1, v1⟩ := a
    simp only [List.map_cons, List.mem_cons, not_or] at h
    have h1 : ¬ k1 = k := fun e => h.1 e.symm
    simp [TProps.assign, h1, ih h.2]

theorem TProps.foldl_assign_append (l acc : TProps) (hnd : (l.map Prod.fst).Nodup)
    (hdis : ∀ k ∈ l.map Prod.fst, k ∉ acc.map Prod.fst) :
    l.foldl (fun acc kv => TProps.assign acc kv.1 kv.2) acc = acc ++ l := by
  induction l generalizing acc with
  | nil => simp
  | cons a rest ih =>
    obtain ⟨k1, v1⟩ := a
    simp only [List.map_cons, List.nodup_cons] at hnd
    simp only [List.foldl_cons]
    rw [TProps.assign_absent acc k1 v1 (hdis k1 (by simp)), ih _ hnd.2]
    · simp
    · intro k hk
      simp only [List.map_append, List.map_cons, List.map_nil, List.mem_append,
        List.mem_singleton, not_or]
      exact ⟨hdis k (by simp [hk]), fun e => hnd.1 (e ▸ hk)⟩

theorem TProps.spread_nil_eq (l : TProps) (hnd : (l.map Prod.fst).Nodup) :
    TProps.spread [] l = l := by
  unfold TProps.spread
  rw [TProps.foldl_assign_append l [] hnd (by simp)]
  simp

theorem TProps.assign_keys_mem (l : TProps) (k : String) (v : JTree)
    (h : k ∈ l.map Prod.fst) : (TProps.assign l k v).map Prod.fst = l.map Prod.fst := by
  induction l with
  | nil => simp at h
  | cons a rest ih =>
    obtain ⟨k1, v1⟩ := a
    by_cases h1 : k1 = k
    · simp [TProps.assign, h1]
    · have h2 : k ∈ rest.map Prod.fst := by
        simp only [List.map_cons, List.mem_cons] at h
        rcases h with h | h
        · exact absurd h.symm h1
        · exact h
      simp [TProps.assign, h1, ih h2]

theorem TProps.assign_keys_nodup (l : TProps) (k : String) (v : JTree)
    (h : (l.map Prod.fst).Nodup) : ((TProps.assign l k v).map Prod.fst).Nodup := by
  by_cases hk : k ∈ l.map Prod.fst
  · rw [TProps.assign_keys_mem l k v hk]
    exact h
  · rw [TProps.assign_absent l k v hk]
    simp only [List.map_append, List.map_cons, List.map_nil]
    exact List.Nodup.append h (by simp) (by simpa using hk)

theorem TProps.assign_all (l : TProps) (k : String) (v : JTree) (p : JTree → Bool)
    (hl : (l.all fun kv => p kv.2) = true) (hv : p v = true) :
    ((TProps.assign l k v).all fun kv => p kv.2) = true := by
  induction l with
  | nil => simp [TProps.assign, hv]
  | cons a rest ih =>
    obtain ⟨k1, v1⟩ := a
    simp only [List.all_cons, Bool.and_eq_true] at hl
    by_cases h1 : k1 = k
    · simp [TProps.assign, h1, hv, hl.2]
    · simp only [TProps.assign, h1, if_false, List.all_cons, Bool.and_eq_true]
      exact ⟨hl.1, ih hl.2⟩

theorem TProps.get_assign (l : TProps) (k : String) (v : JTree) (k' : String) :
    (TProps.assign l k v).get k' = if k' = k then v else l.get k' := by
  unfold TProps.get
  rw [TProps.lookup_after_assign]
  split <;> rfl

theorem hasCategoryLists_props (v : JTree) (h : v.hasCategoryLists = true) :
    ∃ props, v = JTree.obj props ∧ (props.map Prod.fst).Nodup ∧
      (props.map Prod.fst).length = 3 ∧ (∀ type : Category, type.key ∈ props.map Prod.fst) ∧
      (props.all fun kv => kv.2.isList) = true := by
  cases v with
  | prim x => simp [JTree.hasCategoryLists] at h
  | arr items => simp [JTree.hasCategoryLists] at h
  | obj props =>
    simp only [JTree.hasCategoryLists, Bool.and_eq_true, decide_eq_true_eq] at h
    obtain ⟨⟨⟨⟨hlen, ha⟩, hm⟩, hc⟩, hall⟩ := h
    refine ⟨props, rfl, ?_, hlen, ?_, hall⟩
    · have hsub : ["anime", "manga", "characters"] ⊆ props.map Prod.fst := by
        intro x hx
        simp only [List.mem_cons, List.mem_singleton, List.not_mem_nil, or_false] at hx
        rcases hx with hx | hx | hx <;> rw [hx] <;> assumption
      have hperm := (List.subperm_of_subset (by decide) hsub).perm_of_length_le
        (by rw [hlen]; decide)
      exact hperm.nodup_iff.mp (by decide)
    · intro type
      cases type <;> assumption

theorem hasCategoryLists_write (v : JTree) (type : Category) (items : List JTree)
    (h : v.hasCategoryLists = true) :
    (JTree.obj ((TProps.spread [] v.ownProps).assign type.key (.arr items))).hasCategoryLists
      = true := by
  obtain ⟨props, hv, hnd, hlen, hkeys, hall⟩ := hasCategoryLists_props v h
  subst hv
  simp only [JTree.ownProps]
  rw [TProps.spread_nil_eq props hnd]
  have hk := TProps.assign_keys_mem props type.key (.arr items) (hkeys type)
  simp only [JTree.hasCategoryLists, hk, hlen, Bool.and_eq_true, decide_eq_true_eq, true_and]
  exact ⟨⟨⟨hkeys .anime, hkeys .manga⟩, hkeys .characters⟩,
    TProps.assign_all props type.key (.arr items) JTree.isList hall rfl⟩

theorem categoryInv_assign (s : TProps) (k : String) (v : JTree) (hinv : CategoryInv s)
    (hv : k = "myList" ∨ k = "favorites" → v.hasCategoryLists = true) :
    CategoryInv (TProps.assign s k v) := by
  refine ⟨TProps.assign_keys_nodup s k v hinv.1, ?_, ?_⟩
  · rw [TProps.get_assign]
    split
    · next h => exact hv (Or.inl h.symm)
    · exact hinv.2.1
  · rw [TProps.get_assign]
    split
    · next h => exact hv (Or.inr h.symm)
    · exact hinv.2.2

theorem categoryInv_other (s : TProps) (k : String) (v : JTree) (hinv : CategoryInv s)
    (h1 : k ≠ "myList") (h2 : k ≠ "favorites") :
    CategoryInv ((TProps.spread [] s).assign k v) := by
  rw [TProps.spread_nil_eq s hinv.1]
  exact categoryInv_assign s k v hinv (fun h => by rcases h with h | h <;> contradiction)

theorem categoryInv_writeList (s : TProps) (key : String) (type : Category)
    (items : List JTree) (hinv : CategoryInv s) (hkey : key = "myList" ∨ key = "favorites") :
    CategoryInv (writeList s key type items) := by
  unfold writeList
  rw [TProps.spread_nil_eq s hinv.1]
  apply categoryInv_assign s key _ hinv
  intro _
  apply hasCategoryLists_write
  rcases hkey with h | h <;> rw [h]
  · exact hinv.2.1
  · exact hinv.2.2

theorem categoryInv_foldl (src target : TProps) (hinv : CategoryInv target)
    (hsrc : (src.all fun kv =>
      !(decide (kv.1 = "myList") || decide (kv.1 = "favorites")) || kv.2.hasCategoryLists)
      = true) :
    CategoryInv (src.foldl (fun acc kv => TProps.assign acc kv.1 kv.2) target) := by
  induction src generalizing target with
  | nil => exact hinv
  | cons a rest ih =>
    simp only [List.all_cons, Bool.and_eq_true] at hsrc
    simp only [List.foldl_cons]
    apply ih _ _ hsrc.2
    apply categoryInv_assign target a.1 a.2 hinv
    intro hk
    have h := hsrc.1
    simp only [Bool.or_eq_true, Bool.not_eq_true', Bool.or_eq_false_iff,
      decide_eq_false_iff_not, decide_eq_true_eq] at h
    rcases h with h | h
    · rcases hk with hk | hk
      · exact absurd hk h.1
      · exact absurd hk h.2
    · exact h

theorem categoryInv_load (s : TProps) (payload : JTree) (hinv : CategoryInv s)
    (hsrc : (payload.ownProps.all fun kv =>
      !(decide (kv.1 = "myList") || decide (kv.1 = "favorites")) || kv.2.hasCategoryLists)
      = true) :
    CategoryInv (loadLocalData s payload) := by
  unfold loadLocalData
  rw [TProps.spread_nil_eq s hinv.1]
  exact categoryInv_foldl payload.ownProps s hinv hsrc

theorem appReducerJs_inv (s s' : TProps) (action : Action) (hinv : CategoryInv s)
    (h : appReducerJs s action = .ok s') : CategoryInv s' := by
  cases action with
  | SET_LOADING payload =>
    simp only [appReducerJs, Except.ok.injEq] at h
    subst h
    exact categoryInv_other s _ _ hinv (by decide) (by decide)
  | SET_ERROR payload =>
    simp only [appReducerJs, Except.ok.injEq] at h
    subst h
    exact categoryInv_assign _ _ _ (categoryInv_other s _ _ hinv (by decide) (by decide))
      (fun hk => by rcases hk with hk | hk <;> exact absurd hk (by decide))
  | CLEAR_ERROR =>
    simp only [appReducerJs, Except.ok.injEq] at h
    subst h
    exact categoryInv_other s _ _ hinv (by decide) (by decide)
  | UPSERT_LIST_ITEM type item trackingData =>
    simp only [appReducerJs] at h
    split at h
    · simp at h
    · split at h
      · simp at h
      · split at h
        · simp at h
        · split at h
          · split at h
            · simp at h
            · simp only [Except.ok.injEq] at h
              subst h
              exact categoryInv_writeList s _ type _ hinv (Or.inl rfl)
          · simp only [Except.ok.injEq] at h
            subst h
            exact categoryInv_writeList s _ type _ hinv (Or.inl rfl)
  | ADD_TO_LIST type item =>
    simp only [appReducerJs] at h
    split at h
    · simp at h
    · split at h
      · simp at h
      · simp only [Except.ok.injEq] at h
        subst h
        exact categoryInv_writeList s _ type _ hinv (Or.inl rfl)
  | REMOVE_FROM_LIST type id =>
    simp only [appReducerJs] at h
    split at h
    · simp at h
    · split at h
      · simp at h
      · split at h
        · simp at h
        · simp only [Except.ok.injEq] at h
          subst h
          exact categoryInv_writeList s _ type _ hinv (Or.inl rfl)
  | UPDATE_ITEM_STATUS type id status progress =>
    simp only [appReducerJs] at h
    split at h
    · simp at h
    · split at h
      · simp at h
      · split at h
        · simp at h
        · simp only [Except.ok.injEq] at h
          subst h
          exact categoryInv_writeList s _ type _ hinv (Or.inl rfl)
  | ADD_TO_FAVORITES type item =>
    simp only [appReducerJs] at h
    split at h
    · simp at h
    · split at h
      · simp at h
      · simp only [Except.ok.injEq] at h
        subst h
        exact categoryInv_writeList s _ type _ hinv (Or.inr rfl)
  | REMOVE_FROM_FAVORITES type id =>
    simp only [appReducerJs] at h
    split at h
    · simp at h
    · split at h
      · simp at h
      · split at h
        · simp at h
        · simp only [Except.ok.injEq] at h
          subst h
          exact categoryInv_writeList s _ type _ hinv (Or.inr rfl)
  | ADD_SEARCH_HISTORY payload =>
    simp only [appReducerJs] at h
    split at h
    · simp at h
    · simp only [Except.ok.injEq] at h
      subst h
      exact categoryInv_other s _ _ hinv (by decide) (by decide)
  | TOGGLE_DARK_MODE =>
    simp only [appReducerJs, Except.ok.injEq] at h
    subst h
    exact categoryInv_other s _ _ hinv (by decide) (by decide)
  | OPEN_STATUS_MODAL type item =>
    simp only [appReducerJs, Except.ok.injEq] at h
    subst h
    exact categoryInv_other s _ _ hinv (by decide) (by decide)
  | CLOSE_STATUS_MODAL =>
    simp only [appReducerJs, Except.ok.injEq] at h
    subst h
    exact categoryInv_other s _ _ hinv (by decide) (by decide)

theorem runAny_inv (actions : List AnyAction) (s0 s : TProps) (hinv : CategoryInv s0)
    (hrun : runAny s0 actions = .ok s) (hload : loadsKeepCategories actions = true) :
    CategoryInv s := by
  induction actions generalizing s0 with
  | nil =>
    simp only [runAny, Except.ok.injEq] at hrun
    subst hrun
    exact hinv
  | cons a rest ih =>
    simp only [runAny] at hrun
    cases hstep : reduceAny s0 a with
    | error e => simp [hstep] at hrun
    | ok s1 =>
      simp only [hstep] at hrun
      cases a with
      | LOAD_LOCAL_DATA payload =>
        simp only [loadsKeepCategories, Bool.and_eq_true] at hload
        simp only [reduceAny, Except.ok.injEq] at hstep
        subst hstep
        exact ih _ (categoryInv_load s0 payload hinv hload.1) hrun hload.2
      | other action =>
        simp only [loadsKeepCategories] at hload
        simp only [reduceAny] at hstep
        exact ih _ (appReducerJs_inv s0 s1 action hinv hstep) hrun hload

theorem categoryInv_initial : CategoryInv initialState.toJs := by
  refine ⟨by decide, ?_, ?_⟩ <;> rfl

/-- C22, amended: in every state reached from the initial state by any
sequence of reducer actions, including hydration (`LOAD_LOCAL_DATA`) with parsed
values that have no property `myList` or `favorites` or whose property of that
name has exactly the three keys `anime`, `manga` and `characters`, each holding
a list, `myList` and `favorites` each have exactly these three keys, each
holding a list: no action adds or removes a key (an action for a key that is
missing throws). `LOAD_LOCAL_DATA` itself takes `myList` and `favorites` from the
parsed value as they are, whenever it has them (its property names being
distinct). -/
theorem category_sets (actions : List AnyAction) (s : TProps)
    (hrun : runAny initialState.toJs actions = .ok s)
    (hload : loadsKeepCategories actions = true) :
    (s.get "myList").hasCategoryLists = true ∧
    (s.get "favorites").hasCategoryLists = true ∧
    ∀ payload : JTree, (payload.ownProps.map Prod.fst).Nodup →
      (loadLocalData s payload).get "myList"
        = (match TProps.lookup payload.ownProps "myList" with
          | some v => v
          | none => s.get "myList") ∧
      (loadLocalData s payload).get "favorites"
        = (match TProps.lookup payload.ownProps "favorites" with
          | some v => v
          | none => s.get "favorites") := by
  have hinv := runAny_inv actions initialState.toJs s categoryInv_initial hrun hload
  refine ⟨hinv.2.1, hinv.2.2, fun payload hnd => ?_⟩
  unfold loadLocalData
  rw [TProps.spread_nil_eq s hinv.1]
  simp only [TProps.get, TProps.lookup_after_spread s payload.ownProps hnd]
  constructor
  · cases TProps.lookup payload.ownProps "myList" <;> rfl
  · cases TProps.lookup payload.ownProps "favorites" <;> rfl

/-- Witness of C22 amended: a character is added, the state is hydrated with
`{ darkMode: true }`, the character is given tracking data and removed, and an
anime is added to the favorites; `myList` keeps its three keys. -/
theorem category_sets_witness :
    ((({ initialState with
        favorites := initialState.favorites.set .anime
          [{ mal_id := 2, fields := JObj.empty, trackingData := none }]
        darkMode := true } : AppState).toJs).get "myList").hasCategoryLists = true :=
  (category_sets
    [.other (.ADD_TO_LIST .characters { mal_id := 1, fields := JObj.empty, trackingData := none }),
     .LOAD_LOCAL_DATA (JTree.obj [("darkMode", JTree.prim (.bool true))]),
     .other (.UPSERT_LIST_ITEM .characters
       { mal_id := 1, fields := JObj.empty, trackingData := none }
       (some (JObj.ofList [("status", .str "Watching")]))),
     .other (.REMOVE_FROM_LIST .characters 1),
     .other (.ADD_TO_FAVORITES .anime { mal_id := 2, fields := JObj.empty, trackingData := none })]
    ({ initialState with
        favorites := initialState.favorites.set .anime
          [{ mal_id := 2, fields := JObj.empty, trackingData := none }]
        darkMode := true } : AppState).toJs
    rfl rfl).1

/-! ## Proofs: the invariants of the tracking data -/

theorem find_first_index (list : List Item) (id : Int) (e0 : Item)
    (h : list.find? (fun x => decide (x.mal_id = id)) = some e0) :
    ∃ i : Nat, list[i]? = some e0 ∧ e0.mal_id = id ∧
      ∀ (j : Nat) (e2 : Item), j < i → list[j]? = some e2 → e2.mal_id ≠ id := by
  obtain ⟨hp, as, bs, hl, has⟩ := List.find?_eq_some.mp h
  refine ⟨as.length, ?_, by simpa using hp, ?_⟩
  · rw [hl, List.getElem?_append_right (Nat.le_refl _)]
    simp
  · intro j e2 hj h2
    rw [hl, List.getElem?_append_left hj] at h2
    have := has e2 (List.getElem?_mem h2)
    simpa using this

theorem upsertList_mem_cases (list : List Item) (item : Item) (trackingData : Option JObj)
    (e' : Item) (h : e' ∈ upsertList list item trackingData) :
    e' ∈ list ∨
    (∃ e0, list.find? (fun x => decide (x.mal_id = item.mal_id)) = some e0 ∧
      e' = { e0 with
        trackingData :=
          some ((JObj.empty.spreadOpt e0.trackingData).spreadOpt trackingData) }) ∨
    (list.find? (fun x => decide (x.mal_id = item.mal_id)) = none ∧
      e' = { item with trackingData := trackingData }) := by
  cases hf : list.find? (fun x => decide (x.mal_id = item.mal_id)) with
  | none =>
    have habs : ∀ e ∈ list, e.mal_id ≠ item.mal_id := by
      intro e he
      have := List.find?_eq_none.mp hf e he
      simpa using this
    rw [upsertList_absent list item trackingData habs] at h
    rcases List.mem_append.mp h with h1 | h1
    · exact Or.inl h1
    · simp only [List.mem_singleton] at h1
      exact Or.inr (Or.inr ⟨rfl, h1⟩)
  | some e0 =>
    obtain ⟨i, hi, hid, hfirst⟩ := find_first_index list item.mal_id e0 hf
    rw [upsertList_present list item trackingData i e0 hi hid hfirst] at h
    rcases List.mem_or_eq_of_mem_set h with h1 | h1
    · exact Or.inl h1
    · exact Or.inr (Or.inl ⟨e0, rfl, h1⟩)

theorem savePolicy_ok (type : Category) (T : Int) (status : String) (p : Int)
    (hT : 0 < T) (hst : status ∈ currentStatuses type) (hp : 0 ≤ p) :
    0 ≤ (savePolicy type (some T) status p).2 ∧ (savePolicy type (some T) status p).2 ≤ T ∧
    ((savePolicy type (some T) status p).1 = "Completed" →
      (savePolicy type (some T) status p).2 = T) ∧
    ((savePolicy type (some T) status p).1 = "Plan to Watch" ∨
      (savePolicy type (some T) status p).1 = "Plan to Read" ∨
      (savePolicy type (some T) status p).1 = "Dropped" →
      (savePolicy type (some T) status p).2 = 0) := by
  have h0 : T ≠ 0 := by omega
  obtain ⟨h1, h2, h3, h4, h5⟩ := watchStatus_cases type
  have hnC : ∀ x : String, x = "Plan to Watch" ∨ x = "Plan to Read" ∨ x = "Dropped" →
      x ≠ "Completed" := by
    intro x hx
    rcases hx with h | h | h <;> rw [h] <;> decide
  by_cases hC : status = "Completed"
  · have hval : savePolicy type (some T) status p = ("Completed", T) := by
      simp [savePolicy, hC, totalKnown, h0]
    rw [hval]
    exact ⟨le_of_lt hT, le_refl T, fun _ => rfl, fun h => absurd rfl (hnC _ h)⟩
  · by_cases hP : status = "Plan to Watch" ∨ status = "Plan to Read" ∨ status = "Dropped"
    · have hval : savePolicy type (some T) status p = (status, 0) := by
        simp [savePolicy, hC, hP]
      rw [hval]
      exact ⟨le_refl 0, le_of_lt hT, fun h => absurd h hC, fun _ => rfl⟩
    · by_cases hW : status = watchStatus type
      · by_cases hle : T ≤ min p T
        · have hval : savePolicy type (some T) status p = ("Completed", T) := by
            simp [savePolicy, hW, totalKnown, h0, h1, h2, h3, h4, hle]
          rw [hval]
          exact ⟨le_of_lt hT, le_refl T, fun _ => rfl, fun h => absurd rfl (hnC _ h)⟩
        · have hval : savePolicy type (some T) status p = (status, min p T) := by
            simp [savePolicy, hW, totalKnown, h0, h1, h2, h3, h4, hle]
          rw [hval]
          exact ⟨by omega, by omega, fun h => absurd h hC, fun h => absurd h hP⟩
      · have hH : status = "On Hold" := by
          cases type <;> simp [currentStatuses, watchStatus] at hst hW hC hP <;> tauto
        have hH' : ¬ "On Hold" = watchStatus type := fun h => h5 h.symm
        have hval : savePolicy type (some T) status p = (status, min p T) := by
          simp [savePolicy, hH, totalKnown, h0, hH']
        rw [hval]
        exact ⟨by omega, by omega, fun h => absurd h hC, fun h => absurd h hP⟩

theorem save_inv (s0 s1 : AppState) (type : Category) (item : Item) (status : String)
    (p : Int) (hinv : TrackInv s0)
    (hoff : (TrackOp.save type item status p).guarded s0 = true)
    (hs : dispatchAll s0 (handleSave type item status p) = .ok s1) : TrackInv s1 := by
  simp only [handleSave, dispatchAll, appReducer, Except.ok.injEq] at hs
  subst hs
  simp only [TrackOp.guarded, Bool.and_eq_true, decide_eq_true_eq] at hoff
  obtain ⟨⟨hst, hp⟩, hmatch⟩ := hoff
  constructor
  · exact nodup_set_get _ type _ hinv.1 (nodup_upsertList _ item _ (hinv.1 type))
  · intro c e' he'
    by_cases hc : c = type
    · subst hc
      have he2 : e' ∈ upsertList (s0.myList.get c) item
          (some (JObj.ofList
            [("status", .str (savePolicy c (itemTotal c item) status p).1),
             ("progress", .num (savePolicy c (itemTotal c item) status p).2)])) := by
        simpa [ByCategory.get_set_same] using he'
      have hl := lookup_status_progress
        (.str (savePolicy c (itemTotal c item) status p).1)
        (.num (savePolicy c (itemTotal c item) status p).2)
      rcases upsertList_mem_cases _ item _ e' he2 with h1 | ⟨e0, hf, h1⟩ | ⟨_, h1⟩
      · exact hinv.2 c e' h1
      · intro T hT hpos
        have htot0 : itemTotal c e0 = some T := by
          rw [h1] at hT
          exact hT
        have htot : itemTotal c item = some T := by
          simp only [getItemFromList, hf, htot0, Bool.or_eq_true, decide_eq_true_eq] at hmatch
          rcases hmatch with hle | heq
          · omega
          · exact heq
        obtain ⟨k1, k2, k3, k4⟩ := savePolicy_ok c T status p hpos hst hp
        rw [htot] at hl
        refine ⟨_, (savePolicy c (some T) status p).1, (savePolicy c (some T) status p).2,
          by rw [h1, htot], ?_, ?_, k1, k2, k3, k4⟩
        · simp [JObj.get, JObj.spreadOpt, JObj.lookup_spread, hl.1]
        · simp [JObj.get, JObj.spreadOpt, JObj.lookup_spread, hl.2]
      · intro T hT hpos
        have htot : itemTotal c item = some T := by
          rw [h1] at hT
          exact hT
        obtain ⟨k1, k2, k3, k4⟩ := savePolicy_ok c T status p hpos hst hp
        rw [htot] at hl
        refine ⟨_, (savePolicy c (some T) status p).1, (savePolicy c (some T) status p).2,
          by rw [h1, htot], ?_, ?_, k1, k2, k3, k4⟩
        · simp [JObj.get, hl.1]
        · simp [JObj.get, hl.2]
    · have he2 : e' ∈ s0.myList.get c := by
        simpa [ByCategory.get_set_other _ _ _ _ hc] using he'
      exact hinv.2 c e' he2

theorem update_step_inv (s0 s1 : AppState) (type : Category) (item : Item)
    (status progress : JVal) (hinv : TrackInv s0) (hmem : item ∈ s0.myList.get type)
    (hupd : appReducer s0 (.UPDATE_ITEM_STATUS type item.mal_id status progress) = .ok s1)
    (hgood : ∀ e', updateItem item.mal_id status progress item = .ok e' → TrackingOk type e') :
    TrackInv s1 := by
  simp only [appReducer] at hupd
  split at hupd
  · simp at hupd
  · next newList hmap =>
    simp only [Except.ok.injEq] at hupd
    subst hupd
    have hids := mapThrowing_ids item.mal_id status progress _ _ hmap
    constructor
    · exact nodup_set_get _ type _ hinv.1 (by rw [hids]; exact hinv.1 type)
    · intro c e' he'
      by_cases hc : c = type
      · subst hc
        have he2 : e' ∈ newList := by simpa [ByCategory.get_set_same] using he'
        obtain ⟨e, he, hfe⟩ := mapThrowing_mem_of_result _ _ _ hmap e' he2
        by_cases hid : e.mal_id = item.mal_id
        · have heq : e = item := List.inj_on_of_nodup_map (hinv.1 c) he hmem hid
          subst heq
          exact hgood e' hfe
        · simp only [updateItem, hid, if_false, Except.ok.injEq] at hfe
          rw [← hfe]
          exact hinv.2 c e he
      · have he2 : e' ∈ s0.myList.get c := by
          simpa [ByCategory.get_set_other _ _ _ _ hc] using he'
        exact hinv.2 c e' he2

theorem step_inv (s0 s1 : AppState) (type : Category) (item : Item) (p amount : Int)
    (hinv : TrackInv s0)
    (hoff : (TrackOp.step type item p amount).guarded s0 = true)
    (hs : dispatchAll s0 (handleProgressChange type item p amount) = .ok s1) :
    TrackInv s1 := by
  simp only [TrackOp.guarded, Bool.and_eq_true, decide_eq_true_eq] at hoff
  obtain ⟨⟨_, hmem⟩, hmatch⟩ := hoff
  obtain ⟨td0, htd0, hst0, _⟩ : ∃ td0, item.trackingData = some td0 ∧
      td0.get "status" = JVal.str (watchStatus type) ∧ td0.get "progress" = JVal.num p := by
    cases htd : item.trackingData with
    | none => simp [htd] at hmatch
    | some td0 =>
      simp only [htd, Bool.and_eq_true, decide_eq_true_eq] at hmatch
      exact ⟨td0, rfl, hmatch.1, hmatch.2⟩
  obtain ⟨w1, w2, w3, w4, _⟩ := watchStatus_cases type
  unfold handleProgressChange at hs
  split at hs
  · next hknown =>
    obtain ⟨T, hT, hT0⟩ : ∃ T, itemTotal type item = some T ∧ T ≠ 0 := by
      cases htot : itemTotal type item with
      | none => simp [htot, totalKnown] at hknown
      | some T =>
        simp only [htot, totalKnown, decide_eq_true_eq] at hknown
        exact ⟨T, rfl, hknown⟩
    simp only [hT, Option.getD_some] at hs
    split at hs
    · next hge =>
      simp only [dispatchAll] at hs
      cases hupd : appReducer s0
          (.UPDATE_ITEM_STATUS type item.mal_id (.str "Completed") (.num T)) with
      | error e => simp [hupd] at hs
      | ok s2 =>
        simp only [hupd, Except.ok.injEq] at hs
        subst hs
        apply update_step_inv s0 s2 type item _ _ hinv hmem hupd
        intro e' he'
        obtain ⟨e'', he'', _, hprop⟩ := updateItem_ok item.mal_id (.str "Completed") (.num T) item
          (fun _ => by simp [htd0])
        rw [he''] at he'
        simp only [Except.ok.injEq] at he'
        subst he'
        obtain ⟨_, hfields, td, td', h3, h4, h5, h6, _⟩ := hprop rfl
        intro T' hT' hpos
        have htot : itemTotal type e'' = itemTotal type item := by
          simp [itemTotal, hfields]
        rw [htot, hT] at hT'
        simp only [Option.some.injEq] at hT'
        subst hT'
        refine ⟨td', "Completed", T, h4, by simpa using h5, by simpa using h6, le_of_lt hpos,
          le_refl _, fun _ => rfl, fun h => ?_⟩
        rcases h with h | h | h <;> exact absurd h (by decide)
    · next hlt =>
      simp only [dispatchAll] at hs
      cases hupd : appReducer s0
          (.UPDATE_ITEM_STATUS type item.mal_id .undefined
            (.num (max 0 (min T (p + amount))))) with
      | error e => simp [hupd] at hs
      | ok s2 =>
        simp only [hupd, Except.ok.injEq] at hs
        subst hs
        apply update_step_inv s0 s2 type item _ _ hinv hmem hupd
        intro e' he'
        obtain ⟨e'', he'', _, hprop⟩ := updateItem_ok item.mal_id .undefined
          (.num (max 0 (min T (p + amount)))) item (fun _ => by simp [htd0])
        rw [he''] at he'
        simp only [Except.ok.injEq] at he'
        subst he'
        obtain ⟨_, hfields, td, td', h3, h4, h5, h6, _⟩ := hprop rfl
        have htd : td = td0 := by
          rw [htd0] at h3
          exact (Option.some.inj h3).symm
        subst htd
        intro T' hT' hpos
        have htot : itemTotal type e'' = itemTotal type item := by
          simp [itemTotal, hfields]
        rw [htot, hT] at hT'
        simp only [Option.some.injEq] at hT'
        subst hT'
        refine ⟨td', watchStatus type, max 0 (min T (p + amount)), h4,
          by simpa [hst0] using h5, by simpa using h6, by omega, by omega,
          fun h => absurd h w1, fun h => ?_⟩
        rcases h with h | h | h
        · exact absurd h w2
        · exact absurd h w3
        · exact absurd h w4
  · simp only [dispatchAll, Except.ok.injEq] at hs
    subst hs
    exact hinv

theorem runTrack_inv (ops : List TrackOp) (s0 s : AppState) (hinv : TrackInv s0)
    (hrun : runTrack s0 ops = .ok s) (hoff : trackGuarded s0 ops = true) : TrackInv s := by
  induction ops generalizing s0 with
  | nil =>
    simp only [runTrack, Except.ok.injEq] at hrun
    subst hrun
    exact hinv
  | cons op rest ih =>
    simp only [runTrack] at hrun
    simp only [trackGuarded, Bool.and_eq_true] at hoff
    cases hop : dispatchAll s0 op.actions with
    | error e => simp [hop] at hrun
    | ok s1 =>
      simp only [hop] at hrun hoff
      apply ih s1 ?_ hrun hoff.2
      cases op with
      | save type item status progress =>
        exact save_inv s0 s1 type item status progress hinv hoff.1 hop
      | step type item progress amount =>
        exact step_inv s0 s1 type item progress amount hinv hoff.1 hop

/-! ## The invariants of the tracking data: results -/

/-- C23 as stated fails, for an anime of 12 episodes. From the initial state,
saving `'Watching'` with entered progress `-1` stores progress `-1`. And after
saving `'Watching'` with progress 5, a save of `'Completed'` in an editor that
was opened with an object of the same identity without `episodes` (a card of
API data) stores status `'Completed'` with progress 0 on the entry of 12
episodes. -/
theorem tracking_invariants_broken :
    (∃ s e td,
      runTrack initialState
        [.save .anime
          { mal_id := 1, fields := JObj.ofList [("episodes", .num 12)], trackingData := none }
          "Watching" (-1)] = .ok s ∧
      e ∈ s.myList.get .anime ∧ itemTotal .anime e = some 12 ∧ e.trackingData = some td ∧
      td.get "progress" = .num (-1)) ∧
    (∃ s e td,
      runTrack initialState
        [.save .anime
          { mal_id := 1, fields := JObj.ofList [("episodes", .num 12)], trackingData := none }
          "Watching" 5,
         .save .anime { mal_id := 1, fields := JObj.empty, trackingData := none }
          "Completed" 5] = .ok s ∧
      e ∈ s.myList.get .anime ∧ itemTotal .anime e = some 12 ∧ e.trackingData = some td ∧
      td.get "status" = .str "Completed" ∧ td.get "progress" = .num 0) :=
  ⟨⟨_, ({ mal_id := 1, fields := JObj.ofList [("episodes", JVal.num 12)],
            trackingData :=
              some (JObj.ofList [("status", JVal.str "Watching"), ("progress", JVal.num (-1))]) }
        : Item),
      _, rfl, by decide, by decide, rfl, by decide⟩,
    ⟨_, ({ mal_id := 1, fields := JObj.ofList [("episodes", JVal.num 12)],
            trackingData :=
              some (JObj.ofList [("status", JVal.str "Completed"), ("progress", JVal.num 0)]) }
        : Item),
      _, rfl, by decide, by decide, rfl, by decide, by decide⟩⟩

/-- C23, amended: starting from the initial state, after any sequence of
status-editor saves (a status of the editor's list, an entered progress that is
not negative, and an item that has the total of the stored entry with its
identity when that total is known) and progress-button steps (`+1` or `-1` on an
entry of the list whose status is the watching/reading status, as the card
offers them), every tracked item whose total `T > 0` is known has a status and
a progress with `0 <= progress <= T`, status `'Completed'` implies
`progress = T`, and status `'Plan to Watch'`, `'Plan to Read'` or `'Dropped'`
implies `progress = 0`. -/
theorem tracking_invariants (ops : List TrackOp) (s : AppState)
    (hrun : runTrack initialState ops = .ok s)
    (hguard : trackGuarded initialState ops = true) :
    ∀ type, ∀ e ∈ s.myList.get type, ∀ T, itemTotal type e = some T → 0 < T →
      ∃ td status progress, e.trackingData = some td ∧
        td.get "status" = JVal.str status ∧ td.get "progress" = JVal.num progress ∧
        0 ≤ progress ∧ progress ≤ T ∧ (status = "Completed" → progress = T) ∧
        (status = "Plan to Watch" ∨ status = "Plan to Read" ∨ status = "Dropped" →
          progress = 0) :=
  (runTrack_inv ops initialState s
    ⟨fun type => by cases type <;> exact List.nodup_nil,
      fun type e he => by cases type <;> simp [initialState, ByCategory.get] at he⟩
    hrun hguard).2

/-- Witness of C23 amended: an anime of 12 episodes saved as `'Watching'` with
progress 5, stepped to 6, then saved as `'On Hold'` with entered progress 20:
it is stored with status `'On Hold'` and progress 12. -/
theorem tracking_invariants_witness :
    ∃ td status progress,
      ({ mal_id := 1, fields := JObj.ofList [("episodes", .num 12)],
         trackingData := some (JObj.ofList [("status", .str "On Hold"), ("progress", .num 12)]) }
        : Item).trackingData = some td ∧
      td.get "status" = JVal.str status ∧ td.get "progress" = JVal.num progress ∧
      0 ≤ progress ∧ progress ≤ 12 ∧ (status = "Completed" → progress = 12) ∧
      (status = "Plan to Watch" ∨ status = "Plan to Read" ∨ status = "Dropped" →
        progress = 0) :=
  tracking_invariants
    [.save .anime
      { mal_id := 1, fields := JObj.ofList [("episodes", .num 12)], trackingData := none }
      "Watching" 5,
     .step .anime
      { mal_id := 1, fields := JObj.ofList [("episodes", .num 12)],
        trackingData := some (JObj.ofList [("status", .str "Watching"), ("progress", .num 5)]) }
      5 1,
     .save .anime
      { mal_id := 1, fields := JObj.ofList [("episodes", .num 12)], trackingData := none }
      "On Hold" 20]
    { initialState with
      myList := initialState.myList.set .anime
        [{ mal_id := 1, fields := JObj.ofList [("episodes", .num 12)],
           trackingData := some (JObj.ofList [("status", .str "On Hold"), ("progress", .num 12)]) }] }
    rfl rfl .anime
    { mal_id := 1, fields := JObj.ofList [("episodes", .num 12)],
      trackingData := some (JObj.ofList [("status", .str "On Hold"), ("progress", .num 12)]) }
    (by decide) 12 (by decide) (by decide)

end AniVerse
